import Mathlib

/-!
Unplayer library synchronisation: a shallow embedding.

The definitions below follow `src/libraryupdaterunnable.cpp`.  A `QString` is a
list of characters, `QStringList` a list of them; hash maps are association
lists read by their first matching key.
-/

namespace unplayer

/-- A Qt string, as its sequence of characters. -/
abbrev QString := List Char

/-- The test `QString::endsWith(QLatin1Char('/'))`. -/
def endsWithSlash (dir : QString) : Bool :=
  dir.getLast? == some '/'

/-- The test `path.startsWith(dir)`. -/
def startsWith (path dir : QString) : Bool :=
  dir.isPrefixOf path

/-- First loop of `prepareLibraryDirectories`: a directory that does not end
with a slash gets one pushed back. -/
def appendSlash (dir : QString) : QString :=
  if endsWithSlash dir then dir else dir ++ ['/']

/-- Worker of `QStringList::removeDuplicates`: entries already seen are dropped,
the first occurrence of each entry stays where it is. -/
def removeDuplicatesAux (seen : List QString) : List QString → List QString
  | [] => []
  | x :: xs =>
    if x ∈ seen then removeDuplicatesAux seen xs
    else x :: removeDuplicatesAux (x :: seen) xs

/-- The list operation `QStringList::removeDuplicates`. -/
def removeDuplicates (dirs : List QString) : List QString :=
  removeDuplicatesAux [] dirs

/-- The predicate of the `std::find_if` call in `prepareLibraryDirectories`:
`d != dir && dir.startsWith(d)`. -/
def coveredBy (dir d : QString) : Bool :=
  d != dir && startsWith dir d

/-- The loop `for (int i = dirs.size() - 1; i >= 0; --i)` of
`prepareLibraryDirectories`; the first argument is `i + 1`, the list is the
current (already shortened) `dirs`. -/
def removeNested : Nat → List QString → List QString
  | 0, dirs => dirs
  | i + 1, dirs =>
    match dirs.get? i with
    | none => removeNested i dirs
    | some dir =>
      if dirs.any (coveredBy dir) then removeNested i (dirs.eraseIdx i)
      else removeNested i dirs

/-- The function `prepareLibraryDirectories`. -/
def prepareLibraryDirectories (dirs : List QString) : List QString :=
  if dirs.isEmpty then dirs
  else
    let dirs := removeDuplicates (dirs.map appendSlash)
    removeNested dirs.length dirs

/-! ## Qt file names -/

/-- The accessor `QFileInfo::path()`: the path without the file name. It is
`.` when the name has no separator, `/` when the only separator is the leading
one, and everything before the last separator otherwise. -/
def fileInfoPath (filePath : QString) : QString :=
  match filePath.reverse.dropWhile (fun c => c != '/') with
  | [] => ['.']
  | _ :: [] => ['/']
  | _ :: rest => rest.reverse

/-- The accessor `QFileInfo::fileName()`: what follows the last separator. -/
def fileInfoFileName (filePath : QString) : QString :=
  (filePath.reverse.takeWhile (fun c => c != '/')).reverse

/-- The accessor `QFileInfo::suffix()`: what follows the last dot of the file
name, empty when the file name has no dot. -/
def fileInfoSuffix (filePath : QString) : QString :=
  let name := fileInfoFileName filePath
  if '.' ∈ name then (name.reverse.takeWhile (fun c => c != '.')).reverse else []

/-- The enumeration `Extension` of libraryutils.h. -/
inductive Extension where
  | FLAC | AAC | M4A | MP3 | OGA | OGG | OPUS | APE | MKA | WAV | WAVPACK | Other
  deriving DecidableEq, Repr

/-! ## Hash maps

`std::unordered_map` as an association list: `mapFind` is `find`, `mapInsert`
is `insert`/`emplace` (an existing key keeps its value), `mapErase` is `erase`. -/

/-- Lookup of a key, `std::unordered_map::find`. -/
def mapFind {ν : Type} : List (QString × ν) → QString → Option ν
  | [], _ => none
  | (k, v) :: rest, key => if k = key then some v else mapFind rest key

/-- Insertion that keeps an existing entry, `std::unordered_map::insert` and
`emplace`. -/
def mapInsert {ν : Type} (m : List (QString × ν)) (key : QString) (v : ν) : List (QString × ν) :=
  match mapFind m key with
  | some _ => m
  | none => m ++ [(key, v)]

/-- Removal of a key, `std::unordered_map::erase`. -/
def mapErase {ν : Type} (m : List (QString × ν)) (key : QString) : List (QString × ν) :=
  m.filter (fun p => p.1 != key)

/-! ## The world a run executes in -/

/-- What the code reads from the file system through `QFileInfo`,
`QDirIterator` and `getLastModifiedTime`. -/
structure FileSystem where
  /-- Result of `QFileInfo::exists()`. -/
  fileExists : QString → Bool
  /-- Result of `QFileInfo::isDir()`. -/
  isDir : QString → Bool
  /-- Result of `QFileInfo::isFile()`. -/
  isFile : QString → Bool
  /-- Result of `QFileInfo::isReadable()`. -/
  isReadable : QString → Bool
  /-- Result of `getLastModifiedTime(filePath)` (utilsfunctions.h). -/
  lastModified : QString → Int
  /-- The paths a `QDirIterator` over the given top level directory returns,
  with `QDir::Files | QDir::Readable` and `Subdirectories | FollowSymlinks`. -/
  entries : QString → List QString

/-- The fields of `tagutils::Info` the code reads. -/
structure Info where
  fileTypeValid : Bool
  title : QString
  artists : List QString
  albumArtists : List QString
  albums : List QString
  genres : List QString
  year : Int
  trackNumber : Int
  duration : Int
  discNumber : QString
  mediaArtData : List Nat
  deriving DecidableEq, Repr

/-- One row of the query
`SELECT id, filePath, modificationTime, directoryMediaArt, embeddedMediaArt FROM tracks ORDER BY id`. -/
structure TrackRow where
  id : Int
  filePath : QString
  modificationTime : Int
  directoryMediaArt : QString
  embeddedMediaArt : QString
  deriving DecidableEq, Repr

/-- The stages of `LibraryUpdateRunnableNotifier`. -/
inductive Stage where
  | ScanningStage | ExtractingStage | FinishingStage
  deriving DecidableEq, Repr

/-- What a run does to the outside: the four signals of the notifier and the
calls that write to the database, in the order they happen. -/
inductive Event where
  /-- Signal `stageChanged(stage)`. -/
  | stageChanged (stage : Stage)
  /-- Signal `foundFilesChanged(count)`. -/
  | foundFilesChanged (count : Nat)
  /-- Signal `extractedFilesChanged(count)`. -/
  | extractedFilesChanged (count : Nat)
  /-- Signal `finished()`. -/
  | finished
  /-- The call `mDb.transaction()`. -/
  | transaction
  /-- The call `mDb.commit()`. -/
  | commit
  /-- Statement `UPDATE tracks SET directoryMediaArt = ? WHERE instr(filePath, ?) = 1`. -/
  | updateDirectoryMediaArt (directoryMediaArt : QString) (directoryPrefix : QString)
  /-- Statement `UPDATE tracks SET embeddedMediaArt = ? WHERE id = ?`. -/
  | updateEmbeddedMediaArt (embeddedMediaArt : QString) (id : Int)
  /-- The call `LibraryUtils::removeTracksFromDbByIds(tracksToRemove, mDb, mCancel)`. -/
  | removeTracksFromDbByIds (ids : List Int)
  /-- The call `adder.addTrackToDatabase(filePath, modificationTime, info, directoryMediaArt, embeddedMediaArt)`. -/
  | addTrackToDatabase (filePath : QString) (modificationTime : Int) (info : Info)
      (directoryMediaArt : QString) (embeddedMediaArt : QString)
  /-- The call `LibraryUtils::removeUnusedCategories(mDb)`. -/
  | removeUnusedCategories
  /-- The call `LibraryUtils::removeUnusedMediaArt(mDb, mMediaArtDirectory, mCancel)`. -/
  | removeUnusedMediaArt
  deriving DecidableEq, Repr

/-- Everything outside `libraryupdaterunnable.cpp` that a run depends on. -/
structure Env where
  fs : FileSystem
  /-- The function `fileutils::extensionFromSuffix`. -/
  extensionFromSuffix : QString → Extension
  /-- Result of `LibraryUtils::findMediaArtForDirectory` for a directory. -/
  findMediaArtForDirectory : QString → QString
  /-- Result of `tagutils::getTrackInfo(filePath, extension, mMimeDb)`. -/
  getTrackInfo : QString → Extension → Info
  /-- Result of `LibraryUtils::saveEmbeddedMediaArt` for the art bytes. -/
  saveEmbeddedMediaArt : List Nat → QString
  /-- Result of `Settings::instance()->libraryDirectories()`. -/
  libraryDirectories : List QString
  /-- Result of `Settings::instance()->blacklistedDirectories()`. -/
  blacklistedDirectories : List QString
  /-- Whether the database returned by `LibraryUtils::openDatabase` is open. -/
  databaseOpens : Bool
  /-- Rows of the tracks query, `none` when `mQuery.exec` fails. -/
  tracksQuery : Option (List TrackRow)
  /-- The control thread calls `cancel()` just before the read of `mCancel`
  with this number (reads are counted from 0); `none` when it never does. -/
  cancelAt : Option Nat

/-- The members of `LibraryUpdateRunnable` the code uses, with two ghost
fields: the number of reads of `mCancel` so far and the events so far. -/
structure Runnable where
  mCancel : Bool
  mLibraryDirectories : List QString
  mBlacklistedDirectories : List QString
  polls : Nat
  trace : List Event
  deriving DecidableEq, Repr

/-- The value a read of `mCancel` gives now. -/
def cancelRequested (env : Env) (r : Runnable) : Bool :=
  r.mCancel ||
    match env.cancelAt with
    | some k => decide (k ≤ r.polls)
    | none => false

/-- Bookkeeping of one read of `mCancel`. -/
def poll (r : Runnable) : Runnable :=
  { r with polls := r.polls + 1 }

/-- Append one event to the trace. -/
def emitEvent (r : Runnable) (e : Event) : Runnable :=
  { r with trace := r.trace ++ [e] }

/-! ## Exclusion filter -/

/-- The function `isNoMediaDirectory`: the memoised test for a `.nomedia` file
in the directory; returns the answer and the updated memo table. -/
def isNoMediaDirectory (fs : FileSystem) (directory : QString)
    (noMediaDirectories : List (QString × Bool)) : Bool × List (QString × Bool) :=
  match mapFind noMediaDirectories directory with
  | some found => (found, noMediaDirectories)
  | none =>
    let noMedia := fs.isFile (directory ++ "/.nomedia".toList)
    (noMedia, mapInsert noMediaDirectories directory noMedia)

/-- The method `LibraryUpdateRunnable::isBlacklisted`. -/
def isBlacklisted (r : Runnable) (path : QString) : Bool :=
  r.mBlacklistedDirectories.any (fun directory => startsWith path directory)

/-! ## Existing-index loader: `getTracksFromDatabase` -/

/-- The structure `TrackInDb`. -/
structure TrackInDb where
  id : Int
  embeddedMediaArtDeleted : Bool
  modificationTime : Int
  deriving DecidableEq, Repr

/-- The structure `TracksInDbResult`. -/
structure TracksInDbResult where
  tracksInDb : List (QString × TrackInDb)
  mediaArtDirectoriesInDbHash : List (QString × QString)
  deriving DecidableEq, Repr

/-- The locals and reference parameters the row loop of
`getTracksFromDatabase` updates. -/
structure LoaderState where
  tracksInDb : List (QString × TrackInDb)
  mediaArtDirectoriesInDbHash : List (QString × QString)
  embeddedMediaArtExistanceHash : List (QString × Bool)
  tracksToRemove : List Int
  noMediaDirectories : List (QString × Bool)
  deriving DecidableEq, Repr

/-- The lambda `checkExistance` of `getTracksFromDatabase`, with its memo
table. -/
def checkExistance (fs : FileSystem) (hash : List (QString × Bool)) (mediaArt : QString) :
    Bool × List (QString × Bool) :=
  if mediaArt.isEmpty then (true, hash)
  else
    match mapFind hash mediaArt with
    | none =>
      if fs.isFile mediaArt && fs.isReadable mediaArt then (true, mapInsert hash mediaArt true)
      else (false, mapInsert hash mediaArt false)
    | some found => (found, hash)

/-- The computation of the local `remove` for one row (lines 477-494); returns
it with the updated `.nomedia` memo table. -/
def removeDecision (env : Env) (r : Runnable) (filePath : QString)
    (noMediaDirectories : List (QString × Bool)) : Bool × List (QString × Bool) :=
  if !env.fs.fileExists filePath || env.fs.isDir filePath || !env.fs.isReadable filePath then
    (true, noMediaDirectories)
  else
    let remove := !(r.mLibraryDirectories.any (fun dir => startsWith filePath dir))
    let remove := if !remove then isBlacklisted r filePath else remove
    if !remove then isNoMediaDirectory env.fs (fileInfoPath filePath) noMediaDirectories
    else (remove, noMediaDirectories)

/-- The body of the `while (mQuery.next())` loop after the cancellation
check. -/
def loadRow (env : Env) (r : Runnable) (row : TrackRow) (st : LoaderState) : LoaderState :=
  let directory := fileInfoPath row.filePath
  let (remove, noMedia) := removeDecision env r row.filePath st.noMediaDirectories
  if remove then
    { st with noMediaDirectories := noMedia, tracksToRemove := st.tracksToRemove ++ [row.id] }
  else
    let (artExists, hash) := checkExistance env.fs st.embeddedMediaArtExistanceHash row.embeddedMediaArt
    { st with
      noMediaDirectories := noMedia
      embeddedMediaArtExistanceHash := hash
      tracksInDb := mapInsert st.tracksInDb row.filePath
        { id := row.id, embeddedMediaArtDeleted := !artExists, modificationTime := row.modificationTime }
      mediaArtDirectoriesInDbHash := mapInsert st.mediaArtDirectoriesInDbHash directory row.directoryMediaArt }

/-- The loop `while (mQuery.next())`; the flag tells whether it was left
through `if (mCancel) return {}`. -/
def loadRows (env : Env) : List TrackRow → Runnable → LoaderState → Bool × Runnable × LoaderState
  | [], r, st => (false, r, st)
  | row :: rows, r, st =>
    if cancelRequested env r then (true, poll r, st)
    else loadRows env rows (poll r) (loadRow env r row st)

/-- What `getTracksFromDatabase` leaves behind: its return value, the two
reference parameters and the object. -/
structure LoaderOutput where
  result : TracksInDbResult
  tracksToRemove : List Int
  noMediaDirectories : List (QString × Bool)
  runnable : Runnable
  deriving DecidableEq, Repr

/-- The method `LibraryUpdateRunnable::getTracksFromDatabase`. -/
def getTracksFromDatabase (env : Env) (r : Runnable) (tracksToRemove : List Int)
    (noMediaDirectories : List (QString × Bool)) : LoaderOutput :=
  match env.tracksQuery with
  | none =>
    { result := { tracksInDb := [], mediaArtDirectoriesInDbHash := [] }
      tracksToRemove := tracksToRemove
      noMediaDirectories := noMediaDirectories
      runnable := { r with mCancel := true } }
  | some rows =>
    match loadRows env rows r
        { tracksInDb := [], mediaArtDirectoriesInDbHash := [], embeddedMediaArtExistanceHash := []
          tracksToRemove := tracksToRemove, noMediaDirectories := noMediaDirectories } with
    | (true, r, st) =>
      { result := { tracksInDb := [], mediaArtDirectoriesInDbHash := [] }
        tracksToRemove := st.tracksToRemove
        noMediaDirectories := st.noMediaDirectories
        runnable := r }
    | (false, r, st) =>
      { result := { tracksInDb := st.tracksInDb
                    mediaArtDirectoriesInDbHash := st.mediaArtDirectoriesInDbHash }
        tracksToRemove := st.tracksToRemove
        noMediaDirectories := st.noMediaDirectories
        runnable := r }

/-! ## Filesystem scanner: `scanFilesystem` -/

/-- The structure `TrackToAdd`. -/
structure TrackToAdd where
  filePath : QString
  directoryMediaArt : QString
  extension : Extension
  deriving DecidableEq, Repr

/-- The locals and reference parameters `scanFilesystem` updates, with the
object. -/
structure ScanState where
  tracksToAdd : List TrackToAdd
  tracksToRemove : List Int
  noMediaDirectories : List (QString × Bool)
  mediaArtDirectoriesInDbHash : List (QString × QString)
  directory : QString
  directoryMediaArt : QString
  runnable : Runnable
  deriving DecidableEq, Repr

/-- Lines 544-560: on a change of directory, resolve its media art and compare
it with the one stored in the database. -/
def enterDirectory (env : Env) (filePath : QString) (st : ScanState) : ScanState :=
  if fileInfoPath filePath != st.directory then
    let directory := fileInfoPath filePath
    let directoryMediaArt := env.findMediaArtForDirectory directory
    let st := { st with directory := directory, directoryMediaArt := directoryMediaArt }
    match mapFind st.mediaArtDirectoriesInDbHash directory with
    | some inDb =>
      let st :=
        if inDb != directoryMediaArt then
          { st with runnable :=
              emitEvent st.runnable (Event.updateDirectoryMediaArt directoryMediaArt (directory ++ ['/'])) }
        else st
      { st with mediaArtDirectoriesInDbHash := mapErase st.mediaArtDirectoriesInDbHash directory }
    | none => st
  else st

/-- Lines 562-601: reconcile one recognised file with the surviving map. -/
def reconcileFile (env : Env) (tracksInDb : List (QString × TrackInDb)) (filePath : QString)
    (extension : Extension) (st : ScanState) : ScanState :=
  match mapFind tracksInDb filePath with
  | none =>
    let noMedia := isNoMediaDirectory env.fs (fileInfoPath filePath) st.noMediaDirectories
    let st := { st with noMediaDirectories := noMedia.2 }
    if noMedia.1 then st
    else if isBlacklisted st.runnable filePath then st
    else
      let tracksToAdd := st.tracksToAdd ++
        [{ filePath := filePath, directoryMediaArt := st.directoryMediaArt, extension := extension }]
      { st with
        tracksToAdd := tracksToAdd
        runnable := emitEvent st.runnable (Event.foundFilesChanged tracksToAdd.length) }
  | some file =>
    let modificationTime := env.fs.lastModified filePath
    if modificationTime = file.modificationTime then
      if file.embeddedMediaArtDeleted then
        let embeddedMediaArt :=
          env.saveEmbeddedMediaArt (env.getTrackInfo filePath extension).mediaArtData
        { st with runnable :=
            emitEvent st.runnable (Event.updateEmbeddedMediaArt embeddedMediaArt file.id) }
      else st
    else
      let tracksToAdd := st.tracksToAdd ++
        [{ filePath := filePath, directoryMediaArt := st.directoryMediaArt, extension := extension }]
      { st with
        tracksToRemove := st.tracksToRemove ++ [file.id]
        tracksToAdd := tracksToAdd
        runnable := emitEvent st.runnable (Event.foundFilesChanged tracksToAdd.length) }

/-- The body of the `while (iterator.hasNext())` loop after the cancellation
check (lines 536-601). -/
def scanFile (env : Env) (tracksInDb : List (QString × TrackInDb)) (filePath : QString)
    (st : ScanState) : ScanState :=
  let extension := env.extensionFromSuffix (fileInfoSuffix filePath)
  if extension = Extension.Other then st
  else reconcileFile env tracksInDb filePath extension (enterDirectory env filePath st)

/-- The loop `while (iterator.hasNext())`; the flag tells whether it was left
through `if (mCancel) return tracksToAdd`. -/
def scanFiles (env : Env) (tracksInDb : List (QString × TrackInDb)) :
    List QString → ScanState → Bool × ScanState
  | [], st => (false, st)
  | filePath :: rest, st =>
    if cancelRequested env st.runnable then (true, { st with runnable := poll st.runnable })
    else scanFiles env tracksInDb rest
      (scanFile env tracksInDb filePath { st with runnable := poll st.runnable })

/-- The loop `for (const QString& topLevelDirectory : mLibraryDirectories)`. -/
def scanRoots (env : Env) (tracksInDb : List (QString × TrackInDb)) :
    List QString → ScanState → ScanState
  | [], st => st
  | topLevelDirectory :: rest, st =>
    if cancelRequested env st.runnable then { st with runnable := poll st.runnable }
    else
      match scanFiles env tracksInDb (env.fs.entries topLevelDirectory)
          { st with runnable := poll st.runnable } with
      | (true, st) => st
      | (false, st) => scanRoots env tracksInDb rest st

/-- The method `LibraryUpdateRunnable::scanFilesystem`; the returned state
holds the returned `tracksToAdd` and the updated reference parameters. -/
def scanFilesystem (env : Env) (r : Runnable) (tracksInDbResult : TracksInDbResult)
    (tracksToRemove : List Int) (noMediaDirectories : List (QString × Bool)) : ScanState :=
  scanRoots env tracksInDbResult.tracksInDb r.mLibraryDirectories
    { tracksToAdd := []
      tracksToRemove := tracksToRemove
      noMediaDirectories := noMediaDirectories
      mediaArtDirectoriesInDbHash := tracksInDbResult.mediaArtDirectoriesInDbHash
      directory := []
      directoryMediaArt := []
      runnable := r }

/-! ## Extraction: `addTracks` -/

/-- The loop of `addTracks`; the call of `addTrackToDatabase` is recorded as
an event. Returns `count` and the object. -/
def addTracksLoop (env : Env) : List TrackToAdd → Nat → Runnable → Nat × Runnable
  | [], count, r => (count, r)
  | track :: rest, count, r =>
    if cancelRequested env r then (count, poll r)
    else
      let r := poll r
      let trackInfo := env.getTrackInfo track.filePath track.extension
      if trackInfo.fileTypeValid then
        let count := count + 1
        let trackInfo :=
          if trackInfo.title.isEmpty then { trackInfo with title := fileInfoFileName track.filePath }
          else trackInfo
        let r := emitEvent r (Event.addTrackToDatabase track.filePath
          (env.fs.lastModified track.filePath) trackInfo track.directoryMediaArt
          (env.saveEmbeddedMediaArt trackInfo.mediaArtData))
        addTracksLoop env rest count (emitEvent r (Event.extractedFilesChanged count))
      else addTracksLoop env rest count r

/-- The method `LibraryUpdateRunnable::addTracks`. -/
def addTracks (env : Env) (tracksToAdd : List TrackToAdd) (r : Runnable) : Nat × Runnable :=
  addTracksLoop env tracksToAdd 0 r

/-! ## Orchestrator: `run` -/

/-- Modelled from the spec: the constructor of `TransactionGuard` (sqlutils.h,
not among the sources). The spec has the run "begin one transaction that spans
every subsequent state through Finishing" when the database is opened. -/
def transactionGuardEnter (r : Runnable) : Runnable :=
  emitEvent r Event.transaction

/-- Modelled from the spec: the destructor of `TransactionGuard` (sqlutils.h,
not among the sources). The spec has the finishing stage commit the
transaction ("Finishing: emits final stage changed, commits the transaction")
and has every earlier exit end without a commit ("short-circuit to Done
without committing; the transaction is rolled back (implicitly, by never
committing)"). `run` itself calls no commit: the guard commits when its scope
is left at the end of `run`, `completed` being true, and does not when it is
left through an earlier `return`. -/
def transactionGuardLeave (completed : Bool) (r : Runnable) : Runnable :=
  if completed then emitEvent r Event.commit else r

/-- The destructor of `FinishedGuard`: `emit notifier.finished()`. -/
def finishedGuardLeave (r : Runnable) : Runnable :=
  emitEvent r Event.finished

/-- A `return` of `run` inside the scope of the transaction guard: the guards
are destroyed in the reverse order of their construction. `completed` tells
whether it is the end of `run` or an earlier `return`. -/
def leaveRun (completed : Bool) (r : Runnable) : Runnable :=
  finishedGuardLeave (transactionGuardLeave completed r)

/-- Lines 401-405 of `run`: the queued ids are deleted when there are any. -/
def deleteStage (tracksToRemove : List Int) (r : Runnable) : Runnable :=
  if !tracksToRemove.isEmpty then emitEvent r (Event.removeTracksFromDbByIds tracksToRemove)
  else r

/-- Lines 412-417 of `run`: the queued files are extracted when there are
any. -/
def extractStage (env : Env) (tracksToAdd : List TrackToAdd) (r : Runnable) : Runnable :=
  if !tracksToAdd.isEmpty then
    (addTracks env tracksToAdd (emitEvent r (Event.stageChanged Stage.ExtractingStage))).2
  else r

/-- Lines 424-427 of `run`: the finishing stage. -/
def finishStage (r : Runnable) : Runnable :=
  emitEvent
    (emitEvent (emitEvent r (Event.stageChanged Stage.FinishingStage)) Event.removeUnusedCategories)
    Event.removeUnusedMediaArt

/-- Lines 401-430 of `run`: deleting, extracting and finishing, with the
cancellation checks between them. -/
def runAfterScan (env : Env) (tracksToAdd : List TrackToAdd) (tracksToRemove : List Int)
    (r : Runnable) : Runnable :=
  let r := deleteStage tracksToRemove r
  if cancelRequested env r then leaveRun false (poll r)
  else
    let r := extractStage env tracksToAdd (poll r)
    if cancelRequested env r then leaveRun false (poll r)
    else leaveRun true (finishStage (poll r))

/-- Lines 370-371 of `run`: the two directory lists of the settings are
normalised and stored in the object. -/
def withDirectories (env : Env) (r : Runnable) : Runnable :=
  { r with
    mLibraryDirectories := prepareLibraryDirectories env.libraryDirectories
    mBlacklistedDirectories := prepareLibraryDirectories env.blacklistedDirectories }

/-- Lines 370-381 of `run`: the directory lists are prepared and the index is
loaded, with empty `tracksToRemove` and `noMediaDirectories`. -/
def loadStage (env : Env) (r : Runnable) : LoaderOutput :=
  getTracksFromDatabase env (withDirectories env r) [] []

/-- Lines 386-392 of `run`: the scanning stage is announced and the file system
is scanned against the loaded index. -/
def scanStage (env : Env) (loaded : LoaderOutput) : ScanState :=
  scanFilesystem env
    (emitEvent (poll loaded.runnable) (Event.stageChanged Stage.ScanningStage))
    loaded.result loaded.tracksToRemove loaded.noMediaDirectories

/-- Lines 364-430 of `run`, the part inside the scope of the transaction
guard. -/
def runInTransaction (env : Env) (r : Runnable) : Runnable :=
  let loaded := loadStage env r
  if cancelRequested env loaded.runnable then leaveRun false (poll loaded.runnable)
  else
    let scanned := scanStage env loaded
    if cancelRequested env scanned.runnable then leaveRun false (poll scanned.runnable)
    else runAfterScan env scanned.tracksToAdd scanned.tracksToRemove (poll scanned.runnable)

/-- The method `LibraryUpdateRunnable::run`. -/
def run (env : Env) (r : Runnable) : Runnable :=
  if cancelRequested env r then finishedGuardLeave (poll r)
  else
    let r := poll r
    if !env.databaseOpens then finishedGuardLeave r
    else runInTransaction env (transactionGuardEnter r)

/-- The object as the constructor `LibraryUpdateRunnable` leaves it. -/
def newRunnable : Runnable :=
  { mCancel := false, mLibraryDirectories := [], mBlacklistedDirectories := []
    polls := 0, trace := [] }

/-! ## Reading a trace -/

/-- The events that are signals of the notifier. -/
def Event.isNotification : Event → Bool
  | Event.stageChanged _ => true
  | Event.foundFilesChanged _ => true
  | Event.extractedFilesChanged _ => true
  | Event.finished => true
  | _ => false

/-- The events that write to the database: updates, deletes, inserts and the
pruning calls. -/
def Event.isStatement : Event → Bool
  | Event.updateDirectoryMediaArt _ _ => true
  | Event.updateEmbeddedMediaArt _ _ => true
  | Event.removeTracksFromDbByIds _ => true
  | Event.addTrackToDatabase _ _ _ _ _ => true
  | Event.removeUnusedCategories => true
  | Event.removeUnusedMediaArt => true
  | _ => false

/-- The notification sequence of a trace. -/
def notifications (trace : List Event) : List Event :=
  trace.filter Event.isNotification

/-- The statements of a trace. -/
def statements (trace : List Event) : List Event :=
  trace.filter Event.isStatement

/-- State of the database connection while a trace is replayed: the statements
of the open transaction, if one is open, and the statements whose effect is
visible. -/
structure Connection where
  pending : Option (List Event)
  visible : List Event
  deriving DecidableEq, Repr

/-- Transaction semantics of the storage engine: a statement inside a
transaction becomes visible when the transaction is committed, a statement
outside one at once. -/
def Connection.step (c : Connection) (e : Event) : Connection :=
  match e with
  | Event.transaction =>
    match c.pending with
    | none => { c with pending := some [] }
    | some _ => c
  | Event.commit =>
    match c.pending with
    | none => c
    | some p => { pending := none, visible := c.visible ++ p }
  | e =>
    if e.isStatement then
      match c.pending with
      | none => { c with visible := c.visible ++ [e] }
      | some p => { c with pending := some (p ++ [e]) }
    else c

/-- The statements of a trace whose effect is visible once the connection is
closed; a transaction still open then is rolled back. -/
def committedStatements (trace : List Event) : List Event :=
  (trace.foldl Connection.step { pending := none, visible := [] }).visible

/-! ## The claims in the words of the specification -/

/-- The `.nomedia` marker test for a directory, read from the file system. -/
def hasNoMediaMarker (fs : FileSystem) (directory : QString) : Bool :=
  fs.isFile (directory ++ "/.nomedia".toList)

/-- Removal eligibility of an indexed track in the words of the specification:
the file does not exist, is a directory, is not readable, starts with no
library root, starts with a blacklisted directory, or its directory holds a
`.nomedia` marker. -/
def excludedFromLibrary (env : Env) (r : Runnable) (filePath : QString) : Bool :=
  !env.fs.fileExists filePath || env.fs.isDir filePath || !env.fs.isReadable filePath ||
    !(r.mLibraryDirectories.any (fun dir => startsWith filePath dir)) ||
    r.mBlacklistedDirectories.any (fun dir => startsWith filePath dir) ||
    hasNoMediaMarker env.fs (fileInfoPath filePath)

/-- The memo table of `isNoMediaDirectory` agrees with the file system. -/
def MemoConsistent (fs : FileSystem) (noMediaDirectories : List (QString × Bool)) : Prop :=
  ∀ directory found, mapFind noMediaDirectories directory = some found →
    found = hasNoMediaMarker fs directory

/-- The files the scanner recognises: those whose suffix is not mapped to
`Extension::Other`. -/
def recognised (env : Env) (filePath : QString) : Bool :=
  decide (env.extensionFromSuffix (fileInfoSuffix filePath) ≠ Extension.Other)

/-- The next `n` reads of `mCancel` all give false: neither is the flag set
nor does the control thread set it before the last of them. -/
def NoCancelDuring (env : Env) (r : Runnable) (n : Nat) : Prop :=
  ∀ i, i < n → cancelRequested env { r with polls := r.polls + i } = false

/-- The events `scanFilesystem` can append: the found-files signal and the two
media art updates. -/
def Event.isScanEvent : Event → Bool
  | Event.foundFilesChanged _ => true
  | Event.updateDirectoryMediaArt _ _ => true
  | Event.updateEmbeddedMediaArt _ _ => true
  | _ => false

/-- The events `addTracks` can append: the insert of a track and the
extracted-files signal. -/
def Event.isExtractEvent : Event → Bool
  | Event.addTrackToDatabase _ _ _ _ _ => true
  | Event.extractedFilesChanged _ => true
  | _ => false

/-- The second object has the trace of the first followed by events that all
satisfy `p`. -/
def Emits (p : Event → Prop) (r r' : Runnable) : Prop :=
  ∃ out, r'.trace = r.trace ++ out ∧ ∀ e ∈ out, p e

/-- The events that happen between the construction and the destruction of the
two guards of `run`: everything but `finished`, `transaction` and `commit`. -/
def Event.isBodyEvent : Event → Bool
  | Event.finished => false
  | Event.transaction => false
  | Event.commit => false
  | _ => true

/-! ## A sample library

The library root is `/music`. The index holds `/music/A/s1.mp3`, stored with
modification time 10, and `/music/A/gone.mp3`; on disk are `s1.mp3` (modified
at 11), `new.mp3` and `notes.txt`. -/

/-- The files of the sample library that exist on disk. -/
def sampleFiles : List QString :=
  ["/music/A/s1.mp3".toList, "/music/A/new.mp3".toList, "/music/A/notes.txt".toList]

/-- The file system of the sample library. -/
def sampleFileSystem : FileSystem :=
  { fileExists := fun p => decide (p ∈ sampleFiles)
    isDir := fun _ => false
    isFile := fun p => decide (p ∈ sampleFiles)
    isReadable := fun _ => true
    lastModified := fun p => if p = "/music/A/s1.mp3".toList then 11 else 7
    entries := fun top => if top = "/music/".toList then sampleFiles else [] }

/-- The tags every file of the sample library has. -/
def sampleInfo : Info :=
  { fileTypeValid := true, title := "T".toList, artists := [], albumArtists := [], albums := []
    genres := [], year := 0, trackNumber := 0, duration := 0, discNumber := [], mediaArtData := [] }

/-- The rows of the index of the sample library. -/
def sampleRows : List TrackRow :=
  [{ id := 1, filePath := "/music/A/s1.mp3".toList, modificationTime := 10
     directoryMediaArt := [], embeddedMediaArt := [] },
   { id := 2, filePath := "/music/A/gone.mp3".toList, modificationTime := 5
     directoryMediaArt := [], embeddedMediaArt := [] }]

/-- The sample library as the environment of a run, with the given moment of
cancellation. -/
def sampleEnv (cancelAt : Option Nat) : Env :=
  { fs := sampleFileSystem
    extensionFromSuffix := fun s => if s = "mp3".toList then Extension.MP3 else Extension.Other
    findMediaArtForDirectory := fun _ => []
    getTrackInfo := fun _ _ => sampleInfo
    saveEmbeddedMediaArt := fun _ => []
    libraryDirectories := ["/music".toList]
    blacklistedDirectories := ["/music/skip".toList]
    databaseOpens := true
    tracksQuery := some sampleRows
    cancelAt := cancelAt }

/-- The object at the moment `run` calls `getTracksFromDatabase` in the sample
library. -/
def sampleRunnable : Runnable :=
  withDirectories (sampleEnv none) newRunnable

/-- The sample library after a completed scan with nothing changed since: the
index holds `s1.mp3` with its current modification time and no other
recognised file is on disk. -/
def settledEnv : Env :=
  { sampleEnv none with
    fs := { sampleFileSystem with
      entries := fun top =>
        if top = "/music/".toList then ["/music/A/s1.mp3".toList, "/music/A/notes.txt".toList]
        else [] }
    tracksQuery := some
      [{ id := 1, filePath := "/music/A/s1.mp3".toList, modificationTime := 11
         directoryMediaArt := [], embeddedMediaArt := [] }] }

/-- The scanner's current directory art is the one resolved for its current
directory; before the first recognised file there is no current directory. -/
def DirectoryArtResolved (env : Env) (st : ScanState) : Prop :=
  st.directory = [] ∨ st.directoryMediaArt = env.findMediaArtForDirectory st.directory

/-- The event that deletes track rows. -/
def Event.isTrackDelete : Event → Bool
  | Event.removeTracksFromDbByIds _ => true
  | _ => false

/-- The event that inserts a track row. -/
def Event.isTrackInsert : Event → Bool
  | Event.addTrackToDatabase _ _ _ _ _ => true
  | _ => false

/-- The initial scan state of the sample library, with the surviving map
`sampleTracksInDb` and the deletion of row 2 queued by the loader. -/
def sampleScanState : ScanState :=
  { tracksToAdd := [], tracksToRemove := [2], noMediaDirectories := []
    mediaArtDirectoriesInDbHash := [], directory := [], directoryMediaArt := []
    runnable := sampleRunnable }

/-- The surviving map of the sample library. -/
def sampleTracksInDb : List (QString × TrackInDb) :=
  [("/music/A/s1.mp3".toList, { id := 1, embeddedMediaArtDeleted := false, modificationTime := 10 })]

/-! ## A library with a `.nomedia` marker above a subdirectory

The directory `/music/A` holds a `.nomedia` marker; the files are one level
further down, in `/music/A/sub`, which has no marker of its own. The index
holds `old.mp3`, unchanged on disk; `new.mp3` is not indexed. -/

/-- The file system of the library with the marker in `/music/A`. -/
def nestedFileSystem : FileSystem :=
  { fileExists := fun p => decide (p ∈ ["/music/A/.nomedia".toList,
      "/music/A/sub/old.mp3".toList, "/music/A/sub/new.mp3".toList])
    isDir := fun _ => false
    isFile := fun p => decide (p ∈ ["/music/A/.nomedia".toList,
      "/music/A/sub/old.mp3".toList, "/music/A/sub/new.mp3".toList])
    isReadable := fun _ => true
    lastModified := fun _ => 7
    entries := fun top =>
      if top = "/music/".toList then ["/music/A/sub/old.mp3".toList, "/music/A/sub/new.mp3".toList]
      else [] }

/-- The library with the marker in `/music/A` as the environment of a run. -/
def nestedEnv : Env :=
  { sampleEnv none with
    fs := nestedFileSystem
    tracksQuery := some
      [{ id := 1, filePath := "/music/A/sub/old.mp3".toList, modificationTime := 7
         directoryMediaArt := [], embeddedMediaArt := [] }] }

/-! ## Entity deduplicator and track committer: `LibraryTracksAdder` -/

/-- Which of the two title tables a call works on: `mArtists` or `mGenres`. -/
inductive TitleTable where
  | artists | genres
  deriving DecidableEq, Repr

/-- What a `LibraryTracksAdder` does, in order: the statements it attempts,
each with its outcome (`ok` is false when `prepare` or `exec` fails), and, for
reading the log, the result of every call of `getArtistOrGenreId` and
`getAlbumId`. -/
inductive AdderEvent where
  /-- Statement `INSERT INTO tracks (...)` of `addTrackToDatabase`. -/
  | insertTrack (filePath : QString) (modificationTime : Int) (title : QString) (ok : Bool)
  /-- Statement `INSERT INTO <table> (title) VALUES (?)` of `addArtistOrGenre`. -/
  | insertArtistOrGenre (table : QString) (title : QString) (ok : Bool)
  /-- Statement `INSERT INTO albums (title) VALUES (?)` of `addAlbum`. -/
  | insertAlbum (title : QString) (ok : Bool)
  /-- Statement `INSERT INTO <table> VALUES (<firstId>, <secondId>)` of
  `addRelationship`. -/
  | insertRelationship (table : QString) (firstId : Int) (secondId : Int) (ok : Bool)
  /-- A call `getArtistOrGenreId(title, ids)` on the given table returned
  `result`. -/
  | resolvedArtistOrGenre (which : TitleTable) (title : QString) (result : Int)
  /-- A call `getAlbumId(title, artistIds)` returned `result`. -/
  | resolvedAlbum (title : QString) (artistIds : List Int) (result : Int)
  deriving DecidableEq, Repr

/-- The structure `LibraryTracksAdder::ArtistsOrGenres`: the table name, the
lookup table from title to id, and the last id. -/
structure ArtistsOrGenres where
  table : QString
  ids : List (QString × Int)
  lastId : Int
  deriving DecidableEq, Repr

/-- The member `mAlbums`: the lookup table from (title, artist ids) to id, and
the last id. -/
structure Albums where
  ids : List ((QString × List Int) × Int)
  lastId : Int
  deriving DecidableEq, Repr

/-- Lookup in the album table, `std::unordered_map::find`. -/
def albumFind : List ((QString × List Int) × Int) → QString × List Int → Option Int
  | [], _ => none
  | (k, v) :: rest, key => if k = key then some v else albumFind rest key

/-- Insertion into the album table that keeps an existing entry,
`std::unordered_map::emplace`. -/
def albumInsert (m : List ((QString × List Int) × Int)) (key : QString × List Int) (v : Int) :
    List ((QString × List Int) × Int) :=
  match albumFind m key with
  | some _ => m
  | none => m ++ [(key, v)]

/-- The members of `LibraryTracksAdder`, with two ghost fields: the outcomes
of the statements still to be attempted (once the list is used up every
statement succeeds) and the log of what was done so far. -/
structure LibraryTracksAdder where
  mLastTrackId : Int
  mArtists : ArtistsOrGenres
  mAlbums : Albums
  mGenres : ArtistsOrGenres
  outcomes : List Bool
  log : List AdderEvent
  deriving DecidableEq, Repr

/-- Append one event to the log. -/
def LibraryTracksAdder.record (a : LibraryTracksAdder) (e : AdderEvent) : LibraryTracksAdder :=
  { a with log := a.log ++ [e] }

/-- The outcome of the next attempted statement, and the adder with that
outcome used up. -/
def LibraryTracksAdder.attempt (a : LibraryTracksAdder) : Bool × LibraryTracksAdder :=
  match a.outcomes with
  | [] => (true, a)
  | ok :: rest => (ok, { a with outcomes := rest })

/-- Read the chosen title table. -/
def LibraryTracksAdder.titles (a : LibraryTracksAdder) : TitleTable → ArtistsOrGenres
  | TitleTable.artists => a.mArtists
  | TitleTable.genres => a.mGenres

/-- Write the chosen title table. -/
def LibraryTracksAdder.setTitles (a : LibraryTracksAdder) (which : TitleTable)
    (ids : ArtistsOrGenres) : LibraryTracksAdder :=
  match which with
  | TitleTable.artists => { a with mArtists := ids }
  | TitleTable.genres => { a with mGenres := ids }

/-- Write the member `mAlbums`. -/
def LibraryTracksAdder.setAlbums (a : LibraryTracksAdder) (albums : Albums) :
    LibraryTracksAdder :=
  { a with mAlbums := albums }

/-- Write the member `mLastTrackId`. -/
def LibraryTracksAdder.setLastTrackId (a : LibraryTracksAdder) (id : Int) :
    LibraryTracksAdder :=
  { a with mLastTrackId := id }

/-- The method `LibraryTracksAdder::addRelationship`. -/
def addRelationship (a : LibraryTracksAdder) (firstId secondId : Int) (table : QString) :
    LibraryTracksAdder :=
  let attempted := a.attempt
  attempted.2.record (AdderEvent.insertRelationship table firstId secondId attempted.1)

/-- The method `LibraryTracksAdder::addArtistOrGenre`. -/
def addArtistOrGenre (a : LibraryTracksAdder) (title : QString) (which : TitleTable) :
    Int × LibraryTracksAdder :=
  let ids := a.titles which
  let attempted := a.attempt
  let a := attempted.2.record (AdderEvent.insertArtistOrGenre ids.table title attempted.1)
  if !attempted.1 then (0, a)
  else
    let lastId := ids.lastId + 1
    (lastId, a.setTitles which { ids with lastId := lastId, ids := mapInsert ids.ids title lastId })

/-- The method `LibraryTracksAdder::getArtistOrGenreId`, without the record of
the call. -/
def getArtistOrGenreIdCore (a : LibraryTracksAdder) (title : QString) (which : TitleTable) :
    Int × LibraryTracksAdder :=
  if title.isEmpty then (0, a)
  else
    match mapFind (a.titles which).ids title with
    | none => addArtistOrGenre a title which
    | some found => (found, a)

/-- The method `LibraryTracksAdder::getArtistOrGenreId`. -/
def getArtistOrGenreId (a : LibraryTracksAdder) (title : QString) (which : TitleTable) :
    Int × LibraryTracksAdder :=
  let r := getArtistOrGenreIdCore a title which
  (r.1, r.2.record (AdderEvent.resolvedArtistOrGenre which title r.1))

/-- The method `LibraryTracksAdder::getArtistId`. -/
def getArtistId (a : LibraryTracksAdder) (title : QString) : Int × LibraryTracksAdder :=
  getArtistOrGenreId a title TitleTable.artists

/-- The method `LibraryTracksAdder::getGenreId`. -/
def getGenreId (a : LibraryTracksAdder) (title : QString) : Int × LibraryTracksAdder :=
  getArtistOrGenreId a title TitleTable.genres

/-- The loop `for (int artistId : artistIds)` of `addAlbum`. -/
def addAlbumArtists (albumId : Int) : List Int → LibraryTracksAdder → LibraryTracksAdder
  | [], a => a
  | artistId :: rest, a =>
    addAlbumArtists albumId rest (addRelationship a albumId artistId "albums_artists".toList)

/-- The method `LibraryTracksAdder::addAlbum`. The key is built with the
constructor `QPair(const T1&, const T2&)`, which copies: the caller's
`artistIds` is left as it was. -/
def addAlbum (a : LibraryTracksAdder) (title : QString) (artistIds : List Int) :
    Int × LibraryTracksAdder :=
  let attempted := a.attempt
  let a := attempted.2.record (AdderEvent.insertAlbum title attempted.1)
  if !attempted.1 then (0, a)
  else
    let lastId := a.mAlbums.lastId + 1
    let a := a.setAlbums { a.mAlbums with lastId := lastId }
    let a := addAlbumArtists lastId artistIds a
    (lastId, a.setAlbums
      { a.mAlbums with ids := albumInsert a.mAlbums.ids (title, artistIds) lastId })

/-- The method `LibraryTracksAdder::getAlbumId`, without the record of the
call. -/
def getAlbumIdCore (a : LibraryTracksAdder) (title : QString) (artistIds : List Int) :
    Int × LibraryTracksAdder :=
  if title.isEmpty then (0, a)
  else
    match albumFind a.mAlbums.ids (title, artistIds) with
    | none => addAlbum a title artistIds
    | some found => (found, a)

/-- The method `LibraryTracksAdder::getAlbumId`. -/
def getAlbumId (a : LibraryTracksAdder) (title : QString) (artistIds : List Int) :
    Int × LibraryTracksAdder :=
  let r := getAlbumIdCore a title artistIds
  (r.1, r.2.record (AdderEvent.resolvedAlbum title artistIds r.1))

/-- Lines 130-135 of `addTrackToDatabase`: every artist is resolved and the
track is linked to those with a non-zero id. -/
def linkArtists (trackId : Int) : List QString → LibraryTracksAdder → LibraryTracksAdder
  | [], a => a
  | artist :: rest, a =>
    let r := getArtistId a artist
    linkArtists trackId rest
      (if r.1 != 0 then addRelationship r.2 trackId r.1 "tracks_artists".toList else r.2)

/-- Lines 144-149 of `addTrackToDatabase`: the album artists are resolved in
order and the non-zero ids collected. -/
def resolveAlbumArtists : List QString → List Int → LibraryTracksAdder →
    List Int × LibraryTracksAdder
  | [], artistIds, a => (artistIds, a)
  | albumArtist :: rest, artistIds, a =>
    let r := getArtistId a albumArtist
    resolveAlbumArtists rest (if r.1 != 0 then artistIds ++ [r.1] else artistIds) r.2

/-- Lines 138-140 of `addTrackToDatabase`: with no album artist and at least
one artist, the first artist becomes the album artist. -/
def promoteFirstArtist (artists albumArtists : List QString) : List QString :=
  if albumArtists.isEmpty && !artists.isEmpty then
    match artists with
    | first :: _ => albumArtists ++ [first]
    | [] => albumArtists
  else albumArtists

/-- Lines 138-150 of `addTrackToDatabase`: the sorted ids of the album
artists, the list every `getAlbumId` call of the track is given. -/
def albumArtistIds (a : LibraryTracksAdder) (artists albumArtists : List QString) :
    List Int × LibraryTracksAdder :=
  let r := resolveAlbumArtists (promoteFirstArtist artists albumArtists) [] a
  (r.1.insertionSort (fun x y => x ≤ y), r.2)

/-- Lines 152-157 of `addTrackToDatabase`: every album is resolved with the
same `artistIds` and the track is linked to those with a non-zero id. -/
def linkAlbums (trackId : Int) (artistIds : List Int) :
    List QString → LibraryTracksAdder → LibraryTracksAdder
  | [], a => a
  | album :: rest, a =>
    let r := getAlbumId a album artistIds
    linkAlbums trackId artistIds rest
      (if r.1 != 0 then addRelationship r.2 trackId r.1 "tracks_albums".toList else r.2)

/-- Lines 160-165 of `addTrackToDatabase`: every genre is resolved and the
track is linked to those with a non-zero id. -/
def linkGenres (trackId : Int) : List QString → LibraryTracksAdder → LibraryTracksAdder
  | [], a => a
  | genre :: rest, a =>
    let r := getGenreId a genre
    linkGenres trackId rest
      (if r.1 != 0 then addRelationship r.2 trackId r.1 "tracks_genres".toList else r.2)

/-- Lines 137-158 of `addTrackToDatabase`: the album part, skipped when the
track names no album. -/
def linkAlbumsOfTrack (trackId : Int) (artists : List QString) (info : Info)
    (a : LibraryTracksAdder) : LibraryTracksAdder :=
  if !info.albums.isEmpty then
    let r := albumArtistIds a artists info.albumArtists
    linkAlbums trackId r.1 info.albums r.2
  else a

/-- The method `LibraryTracksAdder::addTrackToDatabase`. -/
def addTrackToDatabase (a : LibraryTracksAdder) (filePath : QString) (modificationTime : Int)
    (info : Info) : LibraryTracksAdder :=
  let attempted := a.attempt
  let a := attempted.2.record
    (AdderEvent.insertTrack filePath modificationTime info.title attempted.1)
  if !attempted.1 then a
  else
    let trackId := a.mLastTrackId + 1
    let a := a.setLastTrackId trackId
    let artists := removeDuplicates (info.artists ++ info.albumArtists)
    let a := linkArtists trackId artists a
    let a := linkAlbumsOfTrack trackId artists info a
    linkGenres trackId info.genres a

/-! ### Seeding the lookup tables -/

/-- One row of `SELECT id, title FROM <table>`. -/
structure TitleRow where
  id : Int
  title : QString
  deriving DecidableEq, Repr

/-- One row of `SELECT id, title, artistId FROM albums LEFT JOIN albums_artists
ON albums_artists.albumId = albums.id`; a null `artistId` reads as 0. -/
structure AlbumRow where
  id : Int
  title : QString
  artistId : Int
  deriving DecidableEq, Repr

/-- The helper `reserveFromQuery` of sqlutils.h, which is not among the
sources: it is taken to return the number of rows of the query and to leave
the query before its first row. -/
def reserveFromQuery {ρ : Type} (rows : List ρ) : Nat :=
  rows.length

/-- The loop of `getArtistsOrGenres` (lines 271-274). -/
def seedTitles : List TitleRow → ArtistsOrGenres → ArtistsOrGenres
  | [], ids => ids
  | row :: rest, ids =>
    seedTitles rest { ids with lastId := row.id, ids := mapInsert ids.ids row.title row.id }

/-- The method `LibraryTracksAdder::getArtistsOrGenres`; `rows` is `none` when
`exec` fails. -/
def getArtistsOrGenres (rows : Option (List TitleRow)) (ids : ArtistsOrGenres) : ArtistsOrGenres :=
  match rows with
  | none => ids
  | some rows => if reserveFromQuery rows > 0 then seedTitles rows ids else ids

/-- The loop of `getAlbums` (lines 185-199); the second argument is the local
`artistIds`. -/
def seedAlbums : List AlbumRow → List Int → Albums → Albums
  | [], _, albums => albums
  | row :: rest, artistIds, albums =>
    let artistIds := if row.artistId != 0 then artistIds ++ [row.artistId] else artistIds
    if row.id != albums.lastId && albums.lastId != 0 then
      seedAlbums rest []
        { ids := albumInsert albums.ids (row.title, artistIds.insertionSort (fun x y => x ≤ y))
            albums.lastId
          lastId := row.id }
    else seedAlbums rest artistIds { albums with lastId := row.id }

/-- The method `LibraryTracksAdder::getAlbums`; `rows` is `none` when `exec`
fails. -/
def getAlbums (rows : Option (List AlbumRow)) (albums : Albums) : Albums :=
  match rows with
  | none => albums
  | some rows => seedAlbums rows [] albums

/-- The results of the four queries of the constructor of
`LibraryTracksAdder`; each is `none` when `exec` fails. `lastTrack` is the row
of `SELECT id FROM tracks ORDER BY id DESC LIMIT 1`, if there is one. -/
structure AdderQueries where
  lastTrack : Option (Option Int)
  artists : Option (List TitleRow)
  albums : Option (List AlbumRow)
  genres : Option (List TitleRow)
  deriving DecidableEq, Repr

/-- The members before the body of the constructor runs. The header is not
among the sources: the last ids start at 0, which is the value `getAlbums`
tests for "no album yet", and the tables have the names of the persisted
layout; `mLastTrackId` starts at the given value. -/
def blankLibraryTracksAdder (initialLastTrackId : Int) (outcomes : List Bool) :
    LibraryTracksAdder :=
  { mLastTrackId := initialLastTrackId
    mArtists := { table := "artists".toList, ids := [], lastId := 0 }
    mAlbums := { ids := [], lastId := 0 }
    mGenres := { table := "genres".toList, ids := [], lastId := 0 }
    outcomes := outcomes
    log := [] }

/-- The constructor `LibraryTracksAdder::LibraryTracksAdder`. -/
def newLibraryTracksAdder (queries : AdderQueries) (initialLastTrackId : Int)
    (outcomes : List Bool) : LibraryTracksAdder :=
  let a := blankLibraryTracksAdder initialLastTrackId outcomes
  let a :=
    match queries.lastTrack with
    | some (some id) => { a with mLastTrackId := id }
    | some none => { a with mLastTrackId := 0 }
    | none => a
  let a := { a with mArtists := getArtistsOrGenres queries.artists a.mArtists }
  let a := { a with mAlbums := getAlbums queries.albums a.mAlbums }
  { a with mGenres := getArtistsOrGenres queries.genres a.mGenres }

/-- The largest id among rows, 0 when there is none. -/
def maxId (ids : List Int) : Int :=
  ids.foldl max 0

/-- The log of the second adder is the log of the first followed by events
that all satisfy `p`. -/
def AdderEmits (p : AdderEvent → Prop) (a a' : LibraryTracksAdder) : Prop :=
  ∃ seg, a'.log = a.log ++ seg ∧ ∀ e ∈ seg, p e

/-- The second adder still has every entry of the three lookup tables of the
first, and the names of the two title tables. -/
def LookupTablesKept (a a' : LibraryTracksAdder) : Prop :=
  (∀ which title id, mapFind (a.titles which).ids title = some id →
    mapFind (a'.titles which).ids title = some id) ∧
  (∀ key id, albumFind a.mAlbums.ids key = some id → albumFind a'.mAlbums.ids key = some id) ∧
  (∀ which, (a'.titles which).table = (a.titles which).table)

/-- The relationship rows whose second id, the id of the artist, album or
genre, is 0. -/
def AdderEvent.linksToZero : AdderEvent → Bool
  | AdderEvent.insertRelationship _ _ secondId _ => secondId == 0
  | _ => false

/-- The events that insert a row into a table: a track, an artist or genre, an
album, a relationship. -/
def AdderEvent.isInsert : AdderEvent → Bool
  | AdderEvent.resolvedArtistOrGenre _ _ _ => false
  | AdderEvent.resolvedAlbum _ _ _ => false
  | _ => true

/-- The artists of a track as `addTrackToDatabase` resolves them (lines
127-128): the album artists appended to the artists, duplicates removed. -/
def artistsOfTrack (info : Info) : List QString :=
  removeDuplicates (info.artists ++ info.albumArtists)

/-- The adder at line 137 of `addTrackToDatabase`, after a successful insert
of the track and the loop over its artists. -/
def artistsLinked (a : LibraryTracksAdder) (filePath : QString) (modificationTime : Int)
    (info : Info) : LibraryTracksAdder :=
  linkArtists (a.mLastTrackId + 1) (artistsOfTrack info)
    ((a.attempt.2.record
      (AdderEvent.insertTrack filePath modificationTime info.title true)).setLastTrackId
      (a.mLastTrackId + 1))

/-- Query results in which the rows of the three tables come with the higher
id first. -/
def descendingQueries : AdderQueries :=
  { lastTrack := some none
    artists := some [{ id := 2, title := "b".toList }, { id := 1, title := "a".toList }]
    albums := some [{ id := 2, title := "B".toList, artistId := 0 },
                    { id := 1, title := "A".toList, artistId := 0 }]
    genres := some [{ id := 2, title := "h".toList }, { id := 1, title := "g".toList }] }

/-- The tags of a track whose album artist X is named twice. -/
def repeatedAlbumArtistInfo : Info :=
  { sampleInfo with albumArtists := ["X".toList, "X".toList], albums := ["Y".toList] }

/-- The events of the album part of the log: the insert of an album row and
the record of a call of `getAlbumId`. -/
def AdderEvent.isAlbumEvent : AdderEvent → Bool
  | AdderEvent.insertAlbum _ _ => true
  | AdderEvent.resolvedAlbum _ _ _ => true
  | _ => false

/-- What the segment `seg` of the log, written between the adders `a` and
`a'` while one track with the id `trackId` was added, says about albums: every
call of `getAlbumId` that returned a non-zero id left that id in the table
under its key, was followed by a `tracks_albums` row for the track, and
inserted the album if the key was not in the table of `a`; a call whose key
was in the table of `a` returned the id found there and the title was not
inserted; and no title was inserted twice. -/
def AlbumsResolved (trackId : Int) (a a' : LibraryTracksAdder) (seg : List AdderEvent) : Prop :=
  a'.log = a.log ++ seg ∧
  (∀ t k r, AdderEvent.resolvedAlbum t k r ∈ seg →
    (r ≠ 0 → t ≠ [] ∧ albumFind a'.mAlbums.ids (t, k) = some r ∧
      (∃ ok, AdderEvent.insertRelationship "tracks_albums".toList trackId r ok ∈ seg) ∧
      (albumFind a.mAlbums.ids (t, k) = none → AdderEvent.insertAlbum t true ∈ seg)) ∧
    (∀ id, albumFind a.mAlbums.ids (t, k) = some id → t ≠ [] →
      r = id ∧ AdderEvent.insertAlbum t true ∉ seg)) ∧
  (∀ t, seg.count (AdderEvent.insertAlbum t true) ≤ 1)

/-- The tags of a track of the artist X on the album Y, with no album
artist. -/
def albumTrackInfo : Info :=
  { sampleInfo with artists := ["X".toList], albums := ["Y".toList] }

/-- An adder with empty tables after the track `/a.mp3` of the artist X on the
album Y was added. -/
def adderAfterFirstTrack : LibraryTracksAdder :=
  addTrackToDatabase (blankLibraryTracksAdder 0 []) "/a.mp3".toList 1 albumTrackInfo

/-- Append events to the log. -/
def LibraryTracksAdder.recordAll (a : LibraryTracksAdder) (seg : List AdderEvent) :
    LibraryTracksAdder :=
  { a with log := a.log ++ seg }

/-- The tags of a file without artist, album and genre, as a tag reader that
reports empty strings gives them. -/
def untaggedInfo : Info :=
  { sampleInfo with artists := [[]], albumArtists := [], albums := [[]], genres := [[]] }

/-- The tags of a track of the artist X on the two albums Y and Z, with no
album artist. -/
def twoAlbumsInfo : Info :=
  { sampleInfo with artists := ["X".toList], albums := ["Y".toList, "Z".toList] }

/-- The files of a to-add list whose extracted info is valid. -/
def validTracks (env : Env) (tracksToAdd : List TrackToAdd) : List TrackToAdd :=
  tracksToAdd.filter (fun track => (env.getTrackInfo track.filePath track.extension).fileTypeValid)

/-- The call of `addTrackToDatabase` that `addTracks` makes for a valid file
(lines 620-633): an empty title is replaced by the file name. -/
def insertOfTrack (env : Env) (track : TrackToAdd) : Event :=
  Event.addTrackToDatabase track.filePath (env.fs.lastModified track.filePath)
    (if (env.getTrackInfo track.filePath track.extension).title.isEmpty then
      { env.getTrackInfo track.filePath track.extension with
        title := fileInfoFileName track.filePath }
    else env.getTrackInfo track.filePath track.extension)
    track.directoryMediaArt
    (env.saveEmbeddedMediaArt (env.getTrackInfo track.filePath track.extension).mediaArtData)

/-- What the spec has the extraction of a list of valid files do, the count
being `count` before the first: each file is inserted and then announced with
the running count. -/
def extractionEvents (env : Env) : List TrackToAdd → Nat → List Event
  | [], _ => []
  | track :: rest, count =>
    insertOfTrack env track :: Event.extractedFilesChanged (count + 1) ::
      extractionEvents env rest (count + 1)

/-- A to-add list of the sample library with a file that is not valid between
two that are. -/
def sampleTracksToAdd : List TrackToAdd :=
  [{ filePath := "/music/A/s1.mp3".toList, directoryMediaArt := [], extension := Extension.MP3 },
   { filePath := "/music/A/bad.mp3".toList, directoryMediaArt := [], extension := Extension.MP3 },
   { filePath := "/music/A/new.mp3".toList, directoryMediaArt := [], extension := Extension.MP3 }]

/-- The sample library with a tag reader that reports `bad.mp3` as not
valid. -/
def sampleEnvWithInvalidFile : Env :=
  { sampleEnv none with
    getTrackInfo := fun filePath _ =>
      if filePath = "/music/A/bad.mp3".toList then { sampleInfo with fileTypeValid := false }
      else sampleInfo }

/-- Modelled from the spec: what `LibraryUtils::removeTracksFromDbByIds`
(libraryutils.cpp, not among the sources) does to the ids of the table
`tracks`. The spec has the deleting stage "bulk-delete queued track ids". -/
def removeTracksFromDbByIds (ids : List Int) (trackIds : List Int) : List Int :=
  trackIds.filter (fun id => !ids.contains id)

/-- The row of `SELECT id FROM tracks ORDER BY id DESC LIMIT 1` on a table
with the given ids: the highest id, no row when the table is empty. -/
def lastTrackQuery (trackIds : List Int) : Option Int :=
  match trackIds with
  | [] => none
  | id :: rest => some (rest.foldl max id)

/-- The ids deleted by the `removeTracksFromDbByIds` calls of a trace. -/
def deletedTrackIds (trace : List Event) : List Int :=
  trace.flatMap (fun e =>
    match e with
    | Event.removeTracksFromDbByIds ids => ids
    | _ => [])

/-- The arguments of the `addTrackToDatabase` calls of a trace that the adder
model takes, in order. -/
def insertsOfTrace (trace : List Event) : List (QString × Int × Info) :=
  trace.flatMap (fun e =>
    match e with
    | Event.addTrackToDatabase filePath modificationTime info _ _ =>
      [(filePath, modificationTime, info)]
    | _ => [])

/-- The value of `trackId` (line 125, `++mLastTrackId`) in each call of
`addTrackToDatabase` for the given tracks, one after the other, that gets past
the insert of the track row. -/
def assignedTrackIds : LibraryTracksAdder → List (QString × Int × Info) → List Int
  | _, [] => []
  | a, track :: rest =>
    if a.attempt.1 then
      (a.mLastTrackId + 1) ::
        assignedTrackIds (addTrackToDatabase a track.1 track.2.1 track.2.2) rest
    else assignedTrackIds (addTrackToDatabase a track.1 track.2.1 track.2.2) rest

/-- The ids of the table `tracks` when `addTracks` constructs the adder (line
613) in a run over a table with the given ids: the deletions of the trace so
far are done. -/
def remainingTrackIds (trackIds : List Int) (trace : List Event) : List Int :=
  removeTracksFromDbByIds (deletedTrackIds trace) trackIds

/-- The results of the queries of the constructor in the run over the sample
library: the last track query sees the table after the deletions of the run,
and the sample library has no artist, album or genre. -/
def sampleQueriesOfRun : AdderQueries :=
  { lastTrack := some (lastTrackQuery
      (remainingTrackIds (sampleRows.map TrackRow.id) (run (sampleEnv none) newRunnable).trace))
    artists := some [], albums := some [], genres := some [] }

/-! ## Directory media art of the rows

The library root is `/music`. The index holds `/music/A/a.mp3`, stored without
directory art, and `/music/A/sub/b.mp3`, stored with the art of its directory
`/music/A/sub`; both files are unchanged on disk. Since the last scan a cover
was put into `/music/A`. -/

/-- What the statement `UPDATE tracks SET directoryMediaArt = ? WHERE
instr(filePath, ?) = 1` does to the rows of the table: every row whose path
starts with the bound prefix gets the bound art. -/
def updateDirectoryMediaArt (directoryMediaArt directoryPrefix : QString)
    (rows : List TrackRow) : List TrackRow :=
  rows.map (fun row =>
    if startsWith row.filePath directoryPrefix then
      { row with directoryMediaArt := directoryMediaArt }
    else row)

/-- The rows of the table after the directory art updates of a trace, in
order. -/
def rowsAfterArtUpdates (rows : List TrackRow) (trace : List Event) : List TrackRow :=
  trace.foldl (fun rows e =>
    match e with
    | Event.updateDirectoryMediaArt directoryMediaArt directoryPrefix =>
      updateDirectoryMediaArt directoryMediaArt directoryPrefix rows
    | _ => rows) rows

/-- The file system of the library with the nested directory. -/
def artFileSystem : FileSystem :=
  { fileExists := fun p => decide (p ∈ ["/music/A/a.mp3".toList, "/music/A/sub/b.mp3".toList])
    isDir := fun _ => false
    isFile := fun p => decide (p ∈ ["/music/A/a.mp3".toList, "/music/A/sub/b.mp3".toList])
    isReadable := fun _ => true
    lastModified := fun _ => 7
    entries := fun top =>
      if top = "/music/".toList then ["/music/A/a.mp3".toList, "/music/A/sub/b.mp3".toList]
      else [] }

/-- The rows of the index of the library with the nested directory. -/
def artRows : List TrackRow :=
  [{ id := 1, filePath := "/music/A/a.mp3".toList, modificationTime := 7
     directoryMediaArt := [], embeddedMediaArt := [] },
   { id := 2, filePath := "/music/A/sub/b.mp3".toList, modificationTime := 7
     directoryMediaArt := "/music/A/sub/cover.jpg".toList, embeddedMediaArt := [] }]

/-- The library with the nested directory as the environment of a run: each of
the two directories has a cover of its own. -/
def artEnv : Env :=
  { sampleEnv none with
    fs := artFileSystem
    findMediaArtForDirectory := fun directory =>
      if directory = "/music/A".toList then "/music/A/cover.jpg".toList
      else if directory = "/music/A/sub".toList then "/music/A/sub/cover.jpg".toList
      else []
    tracksQuery := some artRows }

/-! ## Playlist model: `PlaylistModel` (playlistmodel.cpp)

A `PlaylistTrack*` is the address of the object, a number; the heap is the
list of the addresses of the objects that were created with `new` and not yet
deleted. -/

/-- The members of `PlaylistModel` that hold tracks, with two ghost fields:
the addresses of the live `PlaylistTrack` objects and the number of objects
created so far, which is the address the next `new` returns. -/
structure PlaylistModel where
  m_tracks : List Nat
  m_uniqueTracksHash : List (QString × Nat)
  m_queries : List QString
  m_rowCount : Nat
  m_loaded : Bool
  heap : List Nat
  allocated : Nat
  deriving DecidableEq, Repr

/-- The object as the constructor `PlaylistModel::PlaylistModel` leaves it. -/
def newPlaylistModel : PlaylistModel :=
  { m_tracks := [], m_uniqueTracksHash := [], m_queries := [], m_rowCount := 0
    m_loaded := false, heap := [], allocated := 0 }

/-- The body of the `while` loop of `componentComplete` (lines 92-115) for one
entry of the playlist; `toEncoded` is `QUrl(entry).toEncoded()`. -/
def addPlaylistEntry (toEncoded : QString → QString) (m : PlaylistModel) (entry : QString) :
    PlaylistModel :=
  let url := toEncoded entry
  match mapFind m.m_uniqueTracksHash url with
  | some track => { m with m_tracks := m.m_tracks ++ [track] }
  | none =>
    let track := m.allocated
    { m with
      allocated := m.allocated + 1
      heap := m.heap ++ [track]
      m_uniqueTracksHash := m.m_uniqueTracksHash ++ [(url, track)]
      m_tracks := m.m_tracks ++ [track]
      m_queries := m.m_queries ++ [url] }

/-- The method `PlaylistModel::componentComplete`; `tracksList` is the result
of `PlaylistUtils::parsePlaylist(m_url)`. -/
def componentComplete (toEncoded : QString → QString) (tracksList : List QString)
    (m : PlaylistModel) : PlaylistModel :=
  if tracksList.isEmpty then { m with m_loaded := true }
  else tracksList.foldl (addPlaylistEntry toEncoded) m

/-- The function `QHash::key(value)`: a key of the value, the default key when
there is none. -/
def hashKey (hash : List (QString × Nat)) (value : Nat) : QString :=
  match hash.find? (fun entry => entry.2 == value) with
  | some entry => entry.1
  | none => []

/-- The method `PlaylistModel::removeAt` for an index into `m_tracks`;
`takeAt` asks for a valid index. -/
def removeAt (trackIndex : Nat) (m : PlaylistModel) : PlaylistModel :=
  match m.m_tracks.get? trackIndex with
  | none => m
  | some track =>
    let tracks := m.m_tracks.eraseIdx trackIndex
    { m with
      m_tracks := tracks
      m_uniqueTracksHash := mapErase m.m_uniqueTracksHash (hashKey m.m_uniqueTracksHash track)
      heap := m.heap.filter (fun p => p != track)
      m_rowCount := tracks.length }

/-- The method `PlaylistModel::clear`. -/
def clear (m : PlaylistModel) : PlaylistModel :=
  { m with
    heap := m.heap.filter (fun p => !(m.m_uniqueTracksHash.map Prod.snd).contains p)
    m_uniqueTracksHash := []
    m_tracks := []
    m_rowCount := 0 }

/-- Every pointer of `m_tracks` is a value of `m_uniqueTracksHash` and the
address of a live object. -/
def tracksLive (m : PlaylistModel) : Bool :=
  m.m_tracks.all (fun track =>
    (m.m_uniqueTracksHash.map Prod.snd).contains track && m.heap.contains track)

/-! ## SPARQL escaping: `Utils::escapeSparql` (utils.cpp) -/

/-- The call `QString::replace(before, after)` for a `before` of one
character: every occurrence is replaced. -/
def replaceChar (before : Char) (after : List Char) (string : QString) : QString :=
  string.flatMap (fun c => if c = before then after else [c])

/-- The character `\`. -/
def backslash : Char := Char.ofNat 92

/-- The function `Utils::escapeSparql`: the eight replacements in the order of
the source, the one of the backslash last. -/
def escapeSparql (string : QString) : QString :=
  replaceChar backslash [backslash, backslash]
    (replaceChar (Char.ofNat 39) [backslash, Char.ofNat 39]
      (replaceChar (Char.ofNat 34) [backslash, Char.ofNat 34]
        (replaceChar (Char.ofNat 12) [backslash, 'f']
          (replaceChar (Char.ofNat 8) [backslash, 'b']
            (replaceChar (Char.ofNat 13) [backslash, 'r']
              (replaceChar (Char.ofNat 10) [backslash, 'n']
                (replaceChar (Char.ofNat 9) [backslash, 't'] string)))))))

/-- The tags of a track of the artists X and Z on the album Y with the genre
G. -/
def fullyTaggedInfo : Info :=
  { sampleInfo with
    artists := ["X".toList, "Z".toList], albums := ["Y".toList], genres := ["G".toList] }

/-- The events of a log that tell of success: an insert that succeeded, and a
call that resolved a non-empty title to an id above 0. -/
def AdderEvent.isSuccess : AdderEvent → Bool
  | AdderEvent.insertTrack _ _ _ ok => ok
  | AdderEvent.insertArtistOrGenre _ _ ok => ok
  | AdderEvent.insertAlbum _ ok => ok
  | AdderEvent.insertRelationship _ _ _ ok => ok
  | AdderEvent.resolvedArtistOrGenre _ title result => title.isEmpty || decide (0 < result)
  | AdderEvent.resolvedAlbum title _ result => title.isEmpty || decide (0 < result)

/-- The ids of the three lookup tables are above 0 and no last id is below 0,
as it is when the tables were seeded from rows with ids above 0. -/
def IdsPositive (a : LibraryTracksAdder) : Prop :=
  0 ≤ a.mArtists.lastId ∧ (∀ entry ∈ a.mArtists.ids, 0 < entry.2) ∧
  0 ≤ a.mGenres.lastId ∧ (∀ entry ∈ a.mGenres.ids, 0 < entry.2) ∧
  0 ≤ a.mAlbums.lastId ∧ (∀ entry ∈ a.mAlbums.ids, 0 < entry.2)

/-- No statement the adder attempts from now on fails, and the ids of its
tables are above 0. -/
def Succeeding (a : LibraryTracksAdder) : Prop :=
  a.outcomes = [] ∧ IdsPositive a

end unplayer

namespace unplayer

/-! ## Directory lists -/

theorem startsWith_iff (path dir : QString) : startsWith path dir = true ↔ dir <+: path := by
  unfold startsWith
  exact List.isPrefixOf_iff_prefix

theorem endsWithSlash_iff (dir : QString) : endsWithSlash dir = true ↔ dir.getLast? = some '/' := by
  unfold endsWithSlash
  simp

theorem appendSlash_endsWithSlash (dir : QString) : (appendSlash dir).getLast? = some '/' := by
  unfold appendSlash
  split
  · rename_i h
    exact (endsWithSlash_iff dir).mp h
  · simp

theorem coveredBy_iff (dir d : QString) : coveredBy dir d = true ↔ d ≠ dir ∧ d <+: dir := by
  unfold coveredBy
  simp [startsWith_iff]

theorem mem_removeDuplicatesAux (seen xs : List QString) (x : QString) :
    x ∈ removeDuplicatesAux seen xs ↔ x ∈ xs ∧ x ∉ seen := by
  induction xs generalizing seen with
  | nil => simp [removeDuplicatesAux]
  | cons y ys ih =>
    unfold removeDuplicatesAux
    by_cases hy : y ∈ seen
    · rw [if_pos hy, ih]
      constructor
      · rintro ⟨h1, h2⟩
        exact ⟨List.mem_cons_of_mem _ h1, h2⟩
      · rintro ⟨h1, h2⟩
        rcases List.mem_cons.mp h1 with h | h
        · subst h; exact absurd hy h2
        · exact ⟨h, h2⟩
    · rw [if_neg hy, List.mem_cons, ih]
      constructor
      · rintro (h | ⟨h1, h2⟩)
        · subst h; exact ⟨List.mem_cons_self _ _, hy⟩
        · exact ⟨List.mem_cons_of_mem _ h1, fun h => h2 (List.mem_cons_of_mem _ h)⟩
      · rintro ⟨h1, h2⟩
        rcases List.mem_cons.mp h1 with h | h
        · exact Or.inl h
        · by_cases hxy : x = y
          · exact Or.inl hxy
          · refine Or.inr ⟨h, ?_⟩
            intro h3
            rcases List.mem_cons.mp h3 with h4 | h4
            · exact hxy h4
            · exact h2 h4

theorem nodup_removeDuplicatesAux (seen xs : List QString) :
    (removeDuplicatesAux seen xs).Nodup := by
  induction xs generalizing seen with
  | nil => simp [removeDuplicatesAux]
  | cons y ys ih =>
    unfold removeDuplicatesAux
    by_cases hy : y ∈ seen
    · rw [if_pos hy]; exact ih seen
    · rw [if_neg hy, List.nodup_cons]
      refine ⟨?_, ih _⟩
      intro h
      exact ((mem_removeDuplicatesAux _ _ _).mp h).2 (List.mem_cons_self _ _)

theorem mem_removeDuplicates (xs : List QString) (x : QString) :
    x ∈ removeDuplicates xs ↔ x ∈ xs := by
  unfold removeDuplicates
  simp [mem_removeDuplicatesAux]

theorem removeNested_snoc (pre suf : List QString) (dir : QString) :
    removeNested (pre ++ [dir]).length ((pre ++ [dir]) ++ suf) =
      if (pre ++ dir :: suf).any (coveredBy dir) then removeNested pre.length (pre ++ suf)
      else removeNested pre.length (pre ++ dir :: suf) := by
  have hlen : (pre ++ [dir]).length = pre.length + 1 := by simp
  have hlist : (pre ++ [dir]) ++ suf = pre ++ dir :: suf := by simp
  rw [hlen, hlist, removeNested]
  have hget : (pre ++ dir :: suf).get? pre.length = some dir := by
    rw [List.get?_eq_getElem?, List.getElem?_append_right (Nat.le_refl _)]
    simp
  have herase : (pre ++ dir :: suf).eraseIdx pre.length = pre ++ suf := by
    rw [List.eraseIdx_append_of_length_le (Nat.le_refl _)]
    simp
  rw [hget]
  simp only [herase]

/-- Loop rule for `removeNested`: a property of the pair (entries still to be
visited, entries already kept) that survives both outcomes of one round holds
at the end for (nothing, result). -/
theorem removeNested_rule (P : List QString → List QString → Prop)
    (hkeep : ∀ pre dir suf, P (pre ++ [dir]) suf →
      (pre ++ dir :: suf).any (coveredBy dir) = false → P pre (dir :: suf))
    (hdrop : ∀ pre dir suf, P (pre ++ [dir]) suf →
      (pre ++ dir :: suf).any (coveredBy dir) = true → P pre suf)
    (pre suf : List QString) (h : P pre suf) :
    P [] (removeNested pre.length (pre ++ suf)) := by
  induction pre using List.reverseRecOn generalizing suf with
  | nil => simpa [removeNested] using h
  | append_singleton pre dir ih =>
    rw [removeNested_snoc]
    by_cases hc : (pre ++ dir :: suf).any (coveredBy dir) = true
    · rw [if_pos hc]
      exact ih suf (hdrop pre dir suf h hc)
    · rw [if_neg hc]
      have hc' : (pre ++ dir :: suf).any (coveredBy dir) = false := by simpa using hc
      exact ih (dir :: suf) (hkeep pre dir suf h hc')

theorem removeNested_spec (orig : List QString) :
    List.Sublist (removeNested orig.length orig) orig ∧
    (∀ x ∈ removeNested orig.length orig, ∀ d ∈ removeNested orig.length orig, d <+: x → d = x) ∧
    (∀ x ∈ orig, ∃ e ∈ removeNested orig.length orig, e <+: x) := by
  have key := removeNested_rule
    (fun pre suf => List.Sublist (pre ++ suf) orig ∧
      (∀ x ∈ suf, ∀ d ∈ pre ++ suf, d <+: x → d = x) ∧
      (∀ x ∈ orig, ∃ e ∈ pre ++ suf, e <+: x))
    (by
      intro pre dir suf ⟨hsub, hpre, hcov⟩ hany
      have hlist : (pre ++ [dir]) ++ suf = pre ++ dir :: suf := by simp
      rw [hlist] at hsub hpre hcov
      refine ⟨hsub, ?_, hcov⟩
      intro x hx d hd hdx
      rcases List.mem_cons.mp hx with h | h
      · subst h
        by_contra hne
        have : (pre ++ x :: suf).any (coveredBy x) = true :=
          List.any_eq_true.mpr ⟨d, hd, (coveredBy_iff x d).mpr ⟨hne, hdx⟩⟩
        rw [hany] at this
        exact Bool.false_ne_true this
      · exact hpre x h d hd hdx)
    (by
      intro pre dir suf ⟨hsub, hpre, hcov⟩ hany
      have hlist : (pre ++ [dir]) ++ suf = pre ++ dir :: suf := by simp
      rw [hlist] at hsub hpre hcov
      have hsub' : List.Sublist (pre ++ suf) (pre ++ dir :: suf) :=
        List.Sublist.append_left (List.sublist_cons_self dir suf) pre
      refine ⟨hsub'.trans hsub, ?_, ?_⟩
      · intro x hx d hd hdx
        exact hpre x hx d (hsub'.subset hd) hdx
      · intro x hx
        obtain ⟨e, he, hex⟩ := hcov x hx
        obtain ⟨d, hd, hcd⟩ := List.any_eq_true.mp hany
        obtain ⟨hne, hpref⟩ := (coveredBy_iff dir d).mp hcd
        have hd' : d ∈ pre ++ suf := by
          rcases List.mem_append.mp hd with h | h
          · exact List.mem_append_left _ h
          · rcases List.mem_cons.mp h with h | h
            · exact absurd h hne
            · exact List.mem_append_right _ h
        by_cases hed : e = dir
        · subst hed
          exact ⟨d, hd', hpref.trans hex⟩
        · refine ⟨e, ?_, hex⟩
          rcases List.mem_append.mp he with h | h
          · exact List.mem_append_left _ h
          · rcases List.mem_cons.mp h with h | h
            · exact absurd h hed
            · exact List.mem_append_right _ h)
    orig []
    (by
      refine ⟨by simp, ?_, ?_⟩
      · intro x hx; simp at hx
      · intro x hx; exact ⟨x, by simpa using hx, List.prefix_refl x⟩)
  simpa using key

/-- C3. For every input list, each entry of the list returned by
`prepareLibraryDirectories` ends in a slash, no entry occurs twice, and no
entry has another entry of the list as a proper prefix. -/
theorem prepareLibraryDirectories_normalised (dirs : List QString) :
    (∀ d ∈ prepareLibraryDirectories dirs, d.getLast? = some '/') ∧
    (prepareLibraryDirectories dirs).Nodup ∧
    (∀ d ∈ prepareLibraryDirectories dirs, ∀ e ∈ prepareLibraryDirectories dirs,
      e <+: d → e = d) := by
  unfold prepareLibraryDirectories
  by_cases hempty : dirs.isEmpty = true
  · rw [if_pos hempty]
    have : dirs = [] := by simpa using hempty
    subst this
    simp
  · rw [if_neg hempty]
    obtain ⟨hsub, hpre, -⟩ := removeNested_spec (removeDuplicates (dirs.map appendSlash))
    refine ⟨?_, ?_, ?_⟩
    · intro d hd
      have h1 := (mem_removeDuplicates _ _).mp (hsub.subset hd)
      obtain ⟨a, -, rfl⟩ := List.mem_map.mp h1
      exact appendSlash_endsWithSlash a
    · exact hsub.nodup (nodup_removeDuplicatesAux [] _)
    · intro d hd e he hed
      exact hpre d hd e he hed

/-- C4. Every input directory, once it has its trailing slash, has a prefix
among the entries `prepareLibraryDirectories` returns (a directory is dropped
only under a kept ancestor); so a path starts with a returned entry exactly
when it starts with a slash-terminated input entry. -/
theorem prepareLibraryDirectories_covers (dirs : List QString) :
    (∀ d ∈ dirs, ∃ e ∈ prepareLibraryDirectories dirs, e <+: appendSlash d) ∧
    (∀ path : QString,
      (∃ e ∈ prepareLibraryDirectories dirs, startsWith path e = true) ↔
      (∃ d ∈ dirs, startsWith path (appendSlash d) = true)) := by
  have hout : ∀ e ∈ prepareLibraryDirectories dirs, ∃ d ∈ dirs, e = appendSlash d := by
    intro e he
    unfold prepareLibraryDirectories at he
    by_cases hempty : dirs.isEmpty = true
    · rw [if_pos hempty] at he
      have : dirs = [] := by simpa using hempty
      subst this
      simp at he
    · rw [if_neg hempty] at he
      obtain ⟨hsub, -, -⟩ := removeNested_spec (removeDuplicates (dirs.map appendSlash))
      have h1 := (mem_removeDuplicates _ _).mp (hsub.subset he)
      obtain ⟨a, ha, rfl⟩ := List.mem_map.mp h1
      exact ⟨a, ha, rfl⟩
  have hcov : ∀ d ∈ dirs, ∃ e ∈ prepareLibraryDirectories dirs, e <+: appendSlash d := by
    intro d hd
    unfold prepareLibraryDirectories
    by_cases hempty : dirs.isEmpty = true
    · have : dirs = [] := by simpa using hempty
      subst this
      simp at hd
    · rw [if_neg hempty]
      obtain ⟨-, -, hc⟩ := removeNested_spec (removeDuplicates (dirs.map appendSlash))
      exact hc (appendSlash d)
        ((mem_removeDuplicates _ _).mpr (List.mem_map.mpr ⟨d, hd, rfl⟩))
  refine ⟨hcov, ?_⟩
  intro path
  constructor
  · rintro ⟨e, he, hpe⟩
    obtain ⟨d, hd, rfl⟩ := hout e he
    exact ⟨d, hd, hpe⟩
  · rintro ⟨d, hd, hpd⟩
    obtain ⟨e, he, hed⟩ := hcov d hd
    exact ⟨e, he, (startsWith_iff _ _).mpr (hed.trans ((startsWith_iff _ _).mp hpd))⟩

/-! ## Hash map facts -/

theorem mapFind_append {ν : Type} (m₁ m₂ : List (QString × ν)) (key : QString) :
    mapFind (m₁ ++ m₂) key =
      match mapFind m₁ key with
      | some v => some v
      | none => mapFind m₂ key := by
  induction m₁ with
  | nil => simp [mapFind]
  | cons p rest ih =>
    obtain ⟨k, v⟩ := p
    by_cases hk : k = key
    · simp [mapFind, hk]
    · simp [mapFind, hk, ih]

theorem mapFind_mapInsert_self {ν : Type} (m : List (QString × ν)) (key : QString) (v : ν)
    (h : mapFind m key = none) : mapFind (mapInsert m key v) key = some v := by
  unfold mapInsert
  rw [h]
  simp [mapFind_append, h, mapFind]

theorem mapFind_mapInsert_of_ne {ν : Type} (m : List (QString × ν)) (key key' : QString) (v : ν)
    (h : key ≠ key') : mapFind (mapInsert m key v) key' = mapFind m key' := by
  unfold mapInsert
  cases hf : mapFind m key with
  | some w => rfl
  | none =>
    simp only [mapFind_append, mapFind, if_neg h]
    cases mapFind m key' <;> rfl

theorem mapFind_mapInsert_of_some {ν : Type} (m : List (QString × ν)) (key key' : QString)
    (v w : ν) (h : mapFind m key' = some w) : mapFind (mapInsert m key v) key' = some w := by
  by_cases hk : key = key'
  · subst hk
    unfold mapInsert
    rw [h]
    exact h
  · rw [mapFind_mapInsert_of_ne m key key' v hk, h]

/-! ## Exclusion filter facts -/

theorem memoConsistent_nil (fs : FileSystem) : MemoConsistent fs [] := by
  intro directory found h
  simp [mapFind] at h

theorem isNoMediaDirectory_spec (fs : FileSystem) (directory : QString)
    (memo : List (QString × Bool)) (h : MemoConsistent fs memo) :
    (isNoMediaDirectory fs directory memo).1 = hasNoMediaMarker fs directory ∧
    MemoConsistent fs (isNoMediaDirectory fs directory memo).2 := by
  unfold isNoMediaDirectory
  cases hf : mapFind memo directory with
  | some found => exact ⟨h directory found hf, h⟩
  | none =>
    refine ⟨rfl, ?_⟩
    intro d b hd
    by_cases hdd : directory = d
    · subst hdd
      have := mapFind_mapInsert_self memo directory (fs.isFile (directory ++ "/.nomedia".toList)) hf
      simp only [] at hd
      rw [this] at hd
      exact (Option.some.inj hd).symm
    · simp only [] at hd
      rw [mapFind_mapInsert_of_ne _ _ _ _ hdd] at hd
      exact h d b hd

theorem removeDecision_spec (env : Env) (r : Runnable) (filePath : QString)
    (memo : List (QString × Bool)) (h : MemoConsistent env.fs memo) :
    (removeDecision env r filePath memo).1 = excludedFromLibrary env r filePath ∧
    MemoConsistent env.fs (removeDecision env r filePath memo).2 := by
  unfold removeDecision excludedFromLibrary isBlacklisted
  have hm := isNoMediaDirectory_spec env.fs (fileInfoPath filePath) memo h
  cases h1 : env.fs.fileExists filePath <;> cases h2 : env.fs.isDir filePath <;>
    cases h3 : env.fs.isReadable filePath <;>
    cases h4 : r.mLibraryDirectories.any (fun dir => startsWith filePath dir) <;>
    cases h5 : r.mBlacklistedDirectories.any (fun dir => startsWith filePath dir) <;>
    simp [h, hm.1, hm.2]

/-! ## Cancellation facts -/

theorem NoCancelDuring.head {env : Env} {r : Runnable} {n : Nat}
    (h : NoCancelDuring env r (n + 1)) : cancelRequested env r = false := by
  have := h 0 (Nat.succ_pos n)
  simpa using this

theorem NoCancelDuring.tail {env : Env} {r : Runnable} {n : Nat}
    (h : NoCancelDuring env r (n + 1)) : NoCancelDuring env (poll r) n := by
  intro i hi
  have := h (i + 1) (Nat.succ_lt_succ hi)
  simpa [poll, Nat.add_assoc, Nat.add_comm 1 i] using this

/-! ## Loader facts -/

theorem loadRow_spec (env : Env) (r : Runnable) (row : TrackRow) (st : LoaderState)
    (hm : MemoConsistent env.fs st.noMediaDirectories) :
    MemoConsistent env.fs (loadRow env r row st).noMediaDirectories ∧
    (excludedFromLibrary env r row.filePath = true →
      (loadRow env r row st).tracksToRemove = st.tracksToRemove ++ [row.id] ∧
      (loadRow env r row st).tracksInDb = st.tracksInDb) ∧
    (excludedFromLibrary env r row.filePath = false →
      (loadRow env r row st).tracksToRemove = st.tracksToRemove ∧
      ∃ flag, (loadRow env r row st).tracksInDb = mapInsert st.tracksInDb row.filePath
        { id := row.id, embeddedMediaArtDeleted := flag, modificationTime := row.modificationTime }) := by
  obtain ⟨hd1, hd2⟩ := removeDecision_spec env r row.filePath st.noMediaDirectories hm
  unfold loadRow
  cases hdec : removeDecision env r row.filePath st.noMediaDirectories with
  | mk remove noMedia =>
    rw [hdec] at hd1 hd2
    simp only [] at hd1 hd2
    cases remove with
    | true =>
      refine ⟨hd2, fun _ => ⟨by simp, by simp⟩, fun h => ?_⟩
      rw [← hd1] at h
      exact absurd h (by decide)
    | false =>
      refine ⟨hd2, fun h => ?_, fun _ => ⟨by simp, _, by simp; rfl⟩⟩
      rw [← hd1] at h
      exact absurd h (by decide)

theorem loadRows_spec (env : Env) (rows : List TrackRow) (r : Runnable) (st : LoaderState)
    (hnc : NoCancelDuring env r rows.length)
    (hm : MemoConsistent env.fs st.noMediaDirectories) :
    ∃ st', loadRows env rows r st = (false, { r with polls := r.polls + rows.length }, st') ∧
      st'.tracksToRemove = st.tracksToRemove ++
        (rows.filter (fun row => excludedFromLibrary env r row.filePath)).map TrackRow.id ∧
      MemoConsistent env.fs st'.noMediaDirectories ∧
      (∀ p t, mapFind st.tracksInDb p = some t → mapFind st'.tracksInDb p = some t) ∧
      (∀ p, mapFind st.tracksInDb p = none →
        (∀ row ∈ rows, row.filePath = p → excludedFromLibrary env r row.filePath = true) →
        mapFind st'.tracksInDb p = none) ∧
      ((rows.map TrackRow.filePath).Nodup → ∀ row ∈ rows,
        excludedFromLibrary env r row.filePath = false →
        mapFind st.tracksInDb row.filePath = none →
        ∃ t, mapFind st'.tracksInDb row.filePath = some t ∧ t.id = row.id ∧
          t.modificationTime = row.modificationTime) := by
  induction rows generalizing r st with
  | nil =>
    refine ⟨st, ?_, by simp, hm, fun p t h => h, fun p h _ => h, ?_⟩
    · simp [loadRows]
    · intro _ row hrow
      simp at hrow
  | cons row rows ih =>
    have hhead := NoCancelDuring.head hnc
    have htail := NoCancelDuring.tail hnc
    obtain ⟨hm1, hex, hin⟩ := loadRow_spec env r row st hm
    obtain ⟨st', hrun, hrem, hm', hkeep, hnone, hsome⟩ :=
      ih (poll r) (loadRow env r row st) htail hm1
    have hexcl : ∀ p, excludedFromLibrary env (poll r) p = excludedFromLibrary env r p :=
      fun _ => rfl
    simp only [hexcl] at hrem hnone hsome
    refine ⟨st', ?_, ?_, hm', ?_, ?_, ?_⟩
    · rw [loadRows, if_neg (by simp [hhead]), hrun]
      simp [poll, Nat.add_assoc, Nat.add_comm 1]
    · rw [hrem]
      cases hx : excludedFromLibrary env r row.filePath with
      | true => simp [List.filter, hx, (hex hx).1]
      | false => simp [List.filter, hx, (hin hx).1]
    · intro p t hp
      apply hkeep
      cases hx : excludedFromLibrary env r row.filePath with
      | true => rw [(hex hx).2]; exact hp
      | false =>
        obtain ⟨flag, hmap⟩ := (hin hx).2
        rw [hmap]
        exact mapFind_mapInsert_of_some _ _ _ _ _ hp
    · intro p hp hall
      apply hnone
      · cases hx : excludedFromLibrary env r row.filePath with
        | true => rw [(hex hx).2]; exact hp
        | false =>
          obtain ⟨flag, hmap⟩ := (hin hx).2
          rw [hmap]
          have hne : row.filePath ≠ p := by
            intro heq
            have := hall row (List.mem_cons_self _ _) heq
            rw [hx] at this
            exact Bool.false_ne_true this
          rw [mapFind_mapInsert_of_ne _ _ _ _ hne]
          exact hp
      · intro row' hrow' hp'
        exact hall row' (List.mem_cons_of_mem _ hrow') hp'
    · intro hnodup row' hrow' hx' hfind
      have hnd : row.filePath ∉ rows.map TrackRow.filePath ∧ (rows.map TrackRow.filePath).Nodup := by
        simpa [List.nodup_cons] using hnodup
      rcases List.mem_cons.mp hrow' with heq | hmem
      · rw [heq] at hx' hfind ⊢
        obtain ⟨flag, hmap⟩ := (hin hx').2
        refine ⟨{ id := row.id, embeddedMediaArtDeleted := flag,
                  modificationTime := row.modificationTime }, hkeep _ _ ?_, rfl, rfl⟩
        rw [hmap]
        exact mapFind_mapInsert_self _ _ _ hfind
      · apply hsome hnd.2 row' hmem hx'
        have hne : row.filePath ≠ row'.filePath := by
          intro heq
          exact hnd.1 (heq ▸ List.mem_map_of_mem _ hmem)
        cases hx : excludedFromLibrary env r row.filePath with
        | true => rw [(hex hx).2]; exact hfind
        | false =>
          obtain ⟨flag, hmap⟩ := (hin hx).2
          rw [hmap, mapFind_mapInsert_of_ne _ _ _ _ hne]
          exact hfind

/-! ## What each stage appends to the trace -/

theorem Emits.refl (p : Event → Prop) (r : Runnable) : Emits p r r :=
  ⟨[], by simp, by simp⟩

theorem Emits.trans {p : Event → Prop} {r₁ r₂ r₃ : Runnable}
    (h₁ : Emits p r₁ r₂) (h₂ : Emits p r₂ r₃) : Emits p r₁ r₃ := by
  obtain ⟨o₁, e₁, q₁⟩ := h₁
  obtain ⟨o₂, e₂, q₂⟩ := h₂
  refine ⟨o₁ ++ o₂, by rw [e₂, e₁, List.append_assoc], ?_⟩
  intro e he
  rcases List.mem_append.mp he with h | h
  · exact q₁ e h
  · exact q₂ e h

theorem Emits.mono {p q : Event → Prop} {r₁ r₂ : Runnable} (hpq : ∀ e, p e → q e)
    (h : Emits p r₁ r₂) : Emits q r₁ r₂ := by
  obtain ⟨o, e, hp⟩ := h
  exact ⟨o, e, fun x hx => hpq x (hp x hx)⟩

theorem Emits.of_trace_eq {p : Event → Prop} {r₁ r₂ : Runnable} (h : r₂.trace = r₁.trace) :
    Emits p r₁ r₂ :=
  ⟨[], by simp [h], by simp⟩

theorem Emits.emitEvent {p : Event → Prop} (r : Runnable) (e : Event) (h : p e) :
    Emits p r (emitEvent r e) :=
  ⟨[e], rfl, by simpa using h⟩

theorem loadRows_trace (env : Env) (rows : List TrackRow) (r : Runnable) (st : LoaderState) :
    (loadRows env rows r st).2.1.trace = r.trace := by
  induction rows generalizing r st with
  | nil => rfl
  | cons row rows ih =>
    unfold loadRows
    split
    · rfl
    · rw [ih]; rfl

theorem getTracksFromDatabase_trace (env : Env) (r : Runnable) (tracksToRemove : List Int)
    (noMedia : List (QString × Bool)) :
    (getTracksFromDatabase env r tracksToRemove noMedia).runnable.trace = r.trace := by
  unfold getTracksFromDatabase
  split
  · rfl
  · rename_i rows _
    have h := loadRows_trace env rows r
      { tracksInDb := [], mediaArtDirectoriesInDbHash := [], embeddedMediaArtExistanceHash := []
        tracksToRemove := tracksToRemove, noMediaDirectories := noMedia }
    split <;> rename_i heq <;> rw [heq] at h <;> exact h

theorem enterDirectory_emits (env : Env) (filePath : QString) (st : ScanState) :
    Emits (fun e => e.isScanEvent = true) st.runnable (enterDirectory env filePath st).runnable := by
  unfold enterDirectory
  split
  · simp only []
    split
    · simp only []
      split
      · exact Emits.emitEvent _ _ rfl
      · exact Emits.refl _ _
    · exact Emits.refl _ _
  · exact Emits.refl _ _

theorem reconcileFile_emits (env : Env) (tracksInDb : List (QString × TrackInDb))
    (filePath : QString) (extension : Extension) (st : ScanState) :
    Emits (fun e => e.isScanEvent = true) st.runnable
      (reconcileFile env tracksInDb filePath extension st).runnable := by
  unfold reconcileFile
  split
  · simp only []
    split
    · exact Emits.refl _ _
    · split
      · exact Emits.refl _ _
      · exact Emits.emitEvent _ _ rfl
  · simp only []
    split
    · split
      · exact Emits.emitEvent _ _ rfl
      · exact Emits.refl _ _
    · exact Emits.emitEvent _ _ rfl

theorem scanFile_emits (env : Env) (tracksInDb : List (QString × TrackInDb))
    (filePath : QString) (st : ScanState) :
    Emits (fun e => e.isScanEvent = true) st.runnable
      (scanFile env tracksInDb filePath st).runnable := by
  unfold scanFile
  simp only []
  split
  · exact Emits.refl _ _
  · exact (enterDirectory_emits env filePath st).trans (reconcileFile_emits _ _ _ _ _)

theorem scanFiles_emits (env : Env) (tracksInDb : List (QString × TrackInDb))
    (files : List QString) (st : ScanState) :
    Emits (fun e => e.isScanEvent = true) st.runnable
      (scanFiles env tracksInDb files st).2.runnable := by
  induction files generalizing st with
  | nil => exact Emits.refl _ _
  | cons f rest ih =>
    unfold scanFiles
    split
    · exact Emits.of_trace_eq rfl
    · refine Emits.trans ?_ (ih _)
      exact Emits.trans (Emits.of_trace_eq rfl) (scanFile_emits env tracksInDb f _)

theorem scanRoots_emits (env : Env) (tracksInDb : List (QString × TrackInDb))
    (roots : List QString) (st : ScanState) :
    Emits (fun e => e.isScanEvent = true) st.runnable
      (scanRoots env tracksInDb roots st).runnable := by
  induction roots generalizing st with
  | nil => exact Emits.refl _ _
  | cons top rest ih =>
    unfold scanRoots
    split
    · exact Emits.of_trace_eq rfl
    · have h := scanFiles_emits env tracksInDb (env.fs.entries top)
        { st with runnable := poll st.runnable }
      split <;> rename_i heq <;> rw [heq] at h
      · exact Emits.trans (Emits.of_trace_eq rfl) h
      · exact Emits.trans (Emits.trans (Emits.of_trace_eq rfl) h) (ih _)

theorem scanFilesystem_emits (env : Env) (r : Runnable) (res : TracksInDbResult)
    (tracksToRemove : List Int) (noMedia : List (QString × Bool)) :
    Emits (fun e => e.isScanEvent = true) r
      (scanFilesystem env r res tracksToRemove noMedia).runnable :=
  scanRoots_emits env res.tracksInDb r.mLibraryDirectories _

theorem addTracksLoop_emits (env : Env) (tracks : List TrackToAdd) (count : Nat) (r : Runnable) :
    Emits (fun e => e.isExtractEvent = true) r (addTracksLoop env tracks count r).2 := by
  induction tracks generalizing count r with
  | nil => exact Emits.refl _ _
  | cons track rest ih =>
    unfold addTracksLoop
    split
    · exact Emits.of_trace_eq rfl
    · simp only []
      split
      · refine Emits.trans ?_ (ih _ _)
        refine Emits.trans (Emits.of_trace_eq rfl) ?_
        exact Emits.trans (Emits.emitEvent _ _ (by rfl)) (Emits.emitEvent _ _ (by rfl))
      · exact Emits.trans (Emits.of_trace_eq rfl) (ih _ _)

/-! ## The shape of a run -/

theorem isBodyEvent_of_isScanEvent (e : Event) (h : e.isScanEvent = true) :
    e.isBodyEvent = true := by
  cases e <;> simp_all [Event.isScanEvent, Event.isBodyEvent]

theorem isBodyEvent_of_isExtractEvent (e : Event) (h : e.isExtractEvent = true) :
    e.isBodyEvent = true := by
  cases e <;> simp_all [Event.isExtractEvent, Event.isBodyEvent]

theorem deleteStage_emits (tracksToRemove : List Int) (r : Runnable) :
    Emits (fun e => e.isBodyEvent = true) r (deleteStage tracksToRemove r) := by
  unfold deleteStage
  split
  · exact Emits.emitEvent _ _ rfl
  · exact Emits.refl _ _

theorem extractStage_emits (env : Env) (tracksToAdd : List TrackToAdd) (r : Runnable) :
    Emits (fun e => e.isBodyEvent = true) r (extractStage env tracksToAdd r) := by
  unfold extractStage
  split
  · refine Emits.trans (Emits.emitEvent r (Event.stageChanged Stage.ExtractingStage) rfl) ?_
    exact Emits.mono isBodyEvent_of_isExtractEvent (addTracksLoop_emits env _ _ _)
  · exact Emits.refl _ _

theorem finishStage_emits (r : Runnable) :
    Emits (fun e => e.isBodyEvent = true) r (finishStage r) :=
  Emits.trans
    (Emits.trans (Emits.emitEvent r (Event.stageChanged Stage.FinishingStage) rfl)
      (Emits.emitEvent _ Event.removeUnusedCategories rfl))
    (Emits.emitEvent _ Event.removeUnusedMediaArt rfl)

theorem poll_emits (p : Event → Prop) (r : Runnable) : Emits p r (poll r) :=
  Emits.of_trace_eq rfl

theorem finishStage_polls (r : Runnable) : (finishStage r).polls = r.polls := rfl

theorem runAfterScan_shape (env : Env) (tracksToAdd : List TrackToAdd)
    (tracksToRemove : List Int) (r : Runnable) :
    ∃ r' completed, runAfterScan env tracksToAdd tracksToRemove r = leaveRun completed r' ∧
      Emits (fun e => e.isBodyEvent = true) r r' ∧
      (completed = true → ∃ r₀, cancelRequested env r₀ = false ∧ r'.polls = r₀.polls + 1) := by
  have h1 := deleteStage_emits tracksToRemove r
  have h2 := h1.trans ((poll_emits _ _).trans
    (extractStage_emits env tracksToAdd (poll (deleteStage tracksToRemove r))))
  unfold runAfterScan
  simp only []
  by_cases c1 : cancelRequested env (deleteStage tracksToRemove r) = true
  · rw [if_pos c1]
    exact ⟨_, false, rfl, h1.trans (poll_emits _ _), fun h => by cases h⟩
  · rw [if_neg c1]
    by_cases c2 : cancelRequested env
        (extractStage env tracksToAdd (poll (deleteStage tracksToRemove r))) = true
    · rw [if_pos c2]
      exact ⟨_, false, rfl, h2.trans (poll_emits _ _), fun h => by cases h⟩
    · rw [if_neg c2]
      exact ⟨_, true, rfl, h2.trans ((poll_emits _ _).trans (finishStage_emits _)),
        fun _ => ⟨_, by simpa using c2, rfl⟩⟩

theorem loadStage_emits (env : Env) (r : Runnable) :
    Emits (fun e => e.isBodyEvent = true) r (loadStage env r).runnable :=
  Emits.of_trace_eq (by unfold loadStage; rw [getTracksFromDatabase_trace]; rfl)

theorem scanStage_emits (env : Env) (loaded : LoaderOutput) :
    Emits (fun e => e.isBodyEvent = true) loaded.runnable (scanStage env loaded).runnable := by
  have h1 : Emits (fun e => e.isBodyEvent = true) loaded.runnable (poll loaded.runnable) :=
    poll_emits _ _
  have h2 : Emits (fun e => e.isBodyEvent = true) (poll loaded.runnable)
      (emitEvent (poll loaded.runnable) (Event.stageChanged Stage.ScanningStage)) :=
    Emits.emitEvent _ _ rfl
  exact (h1.trans h2).trans
    (Emits.mono isBodyEvent_of_isScanEvent (scanFilesystem_emits env _ _ _ _))

theorem runInTransaction_shape (env : Env) (r : Runnable) :
    ∃ r' completed, runInTransaction env r = leaveRun completed r' ∧
      Emits (fun e => e.isBodyEvent = true) r r' ∧
      (completed = true → ∃ r₀, cancelRequested env r₀ = false ∧ r'.polls = r₀.polls + 1) := by
  have hload := loadStage_emits env r
  have hs := hload.trans (scanStage_emits env (loadStage env r))
  unfold runInTransaction
  simp only []
  by_cases c1 : cancelRequested env (loadStage env r).runnable = true
  · rw [if_pos c1]
    exact ⟨_, false, rfl, hload.trans (poll_emits _ _), fun h => by cases h⟩
  · rw [if_neg c1]
    by_cases c2 : cancelRequested env (scanStage env (loadStage env r)).runnable = true
    · rw [if_pos c2]
      exact ⟨_, false, rfl, hs.trans (poll_emits _ _), fun h => by cases h⟩
    · rw [if_neg c2]
      obtain ⟨r', completed, hr', he, hc⟩ := runAfterScan_shape env
        (scanStage env (loadStage env r)).tracksToAdd
        (scanStage env (loadStage env r)).tracksToRemove
        (poll (scanStage env (loadStage env r)).runnable)
      exact ⟨r', completed, hr', hs.trans ((poll_emits _ _).trans he), hc⟩

/-- Every run appends either just `finished`, or `transaction`, body events
and `finished`, with `commit` before `finished` when the run was completed; a
completed run read the flag as not set in its last read. -/
theorem run_shape (env : Env) (r : Runnable) :
    (run env r).trace = r.trace ++ [Event.finished] ∨
    ∃ body completed, (run env r).trace = r.trace ++
        (Event.transaction :: body ++ (if completed then [Event.commit] else []) ++
          [Event.finished]) ∧
      (∀ e ∈ body, e.isBodyEvent = true) ∧
      (completed = true →
        ∃ r₀, cancelRequested env r₀ = false ∧ (run env r).polls = r₀.polls + 1) := by
  unfold run
  split
  · exact Or.inl rfl
  · simp only []
    split
    · exact Or.inl rfl
    · right
      obtain ⟨r', completed, hr', ⟨body, hb, hall⟩, hc⟩ :=
        runInTransaction_shape env (transactionGuardEnter (poll r))
      refine ⟨body, completed, ?_, hall, ?_⟩
      · rw [hr']
        cases completed <;>
          simp [leaveRun, finishedGuardLeave, transactionGuardLeave, emitEvent, hb,
            transactionGuardEnter, poll]
      · intro h
        obtain ⟨r₀, h₀, hp⟩ := hc h
        refine ⟨r₀, h₀, ?_⟩
        rw [hr', ← hp]
        cases completed <;> rfl

/-! ## Transactions -/

theorem foldl_step_body (body : List Event) (p v : List Event)
    (h : ∀ e ∈ body, e.isBodyEvent = true) :
    body.foldl Connection.step { pending := some p, visible := v } =
      { pending := some (p ++ statements body), visible := v } := by
  induction body generalizing p with
  | nil => simp [statements]
  | cons e rest ih =>
    have he := h e (List.mem_cons_self _ _)
    have hrest : ∀ x ∈ rest, x.isBodyEvent = true :=
      fun x hx => h x (List.mem_cons_of_mem _ hx)
    rw [List.foldl_cons]
    by_cases hs : e.isStatement = true
    · have hstep : Connection.step { pending := some p, visible := v } e =
          { pending := some (p ++ [e]), visible := v } := by
        cases e <;> simp_all [Connection.step, Event.isStatement, Event.isBodyEvent]
      rw [hstep, ih _ hrest]
      simp [statements, List.filter, hs]
    · have hstep : Connection.step { pending := some p, visible := v } e =
          { pending := some p, visible := v } := by
        cases e <;> simp_all [Connection.step, Event.isStatement, Event.isBodyEvent]
      rw [hstep, ih _ hrest]
      simp [statements, List.filter, hs]

theorem committedStatements_transaction (body : List Event)
    (h : ∀ e ∈ body, e.isBodyEvent = true) :
    committedStatements (Event.transaction :: body ++ [Event.commit, Event.finished]) =
      statements (Event.transaction :: body ++ [Event.commit, Event.finished]) := by
  unfold committedStatements
  rw [List.cons_append, List.foldl_cons, List.foldl_append]
  have h0 : Connection.step { pending := none, visible := [] } Event.transaction =
      { pending := some [], visible := [] } := rfl
  rw [h0, foldl_step_body body [] [] h]
  simp [Connection.step, statements, Event.isStatement, List.filter_append]

theorem committedStatements_rolled_back (body : List Event)
    (h : ∀ e ∈ body, e.isBodyEvent = true) :
    committedStatements (Event.transaction :: body ++ [Event.finished]) = [] := by
  unfold committedStatements
  rw [List.cons_append, List.foldl_cons, List.foldl_append]
  have h0 : Connection.step { pending := none, visible := [] } Event.transaction =
      { pending := some [], visible := [] } := rfl
  rw [h0, foldl_step_body body [] [] h]
  simp [Connection.step, Event.isStatement]

/-! ## The orchestrator claims -/

/-- C1. Whatever the environment (cancelled before the start, database not
opened, index query failed, cancelled at a later checkpoint, or completed),
the notifications a run emits contain `finished` exactly once, as their last
element. -/
theorem run_emits_finished_once_and_last (env : Env) (r : Runnable) :
    ∃ out, (run env r).trace = r.trace ++ out ∧
      (notifications out).count Event.finished = 1 ∧
      (notifications out).getLast? = some Event.finished := by
  rcases run_shape env r with h | ⟨body, completed, h, hall, -⟩
  · exact ⟨[Event.finished], h, by decide, by decide⟩
  · have hn : notifications (Event.transaction :: body ++
        (if completed then [Event.commit] else []) ++ [Event.finished]) =
        notifications body ++ [Event.finished] := by
      cases completed <;>
        simp [notifications, List.filter_append, List.filter, Event.isNotification]
    refine ⟨_, h, ?_, ?_⟩
    · have hb : (notifications body).count Event.finished = 0 := by
        rw [List.count_eq_zero]
        intro hmem
        have := hall _ (List.mem_of_mem_filter hmem)
        simp [Event.isBodyEvent] at this
      rw [hn, List.count_append, hb]
      decide
    · rw [hn]
      simp

/-- C2. Cancellation requested before the run starts, the flag already set,
or at any point up to the last read of the flag the run makes, which follows
the extracting: the run ends without a commit, and no statement it executed is
visible afterwards. -/
theorem cancelled_run_commits_nothing (env : Env) (r : Runnable)
    (hcancel : r.mCancel = true ∨ ∃ k, env.cancelAt = some k ∧ k < (run env r).polls) :
    ∃ out, (run env r).trace = r.trace ++ out ∧
      Event.commit ∉ out ∧
      committedStatements out = [] := by
  rcases run_shape env r with h | ⟨body, completed, h, hall, hc⟩
  · exact ⟨[Event.finished], h, by decide, by decide⟩
  · cases completed with
    | false =>
      refine ⟨_, h, ?_, ?_⟩
      · intro hmem
        have hb : Event.commit ∈ body := by simpa using hmem
        have := hall _ hb
        simp [Event.isBodyEvent] at this
      · simp only [Bool.false_eq_true, if_false, List.append_nil]
        exact committedStatements_rolled_back body hall
    | true =>
      exfalso
      obtain ⟨r₀, h₀, hp⟩ := hc rfl
      have hfirst : cancelRequested env r = false := by
        by_contra hne
        have hyes : cancelRequested env r = true := by simpa using hne
        have : (run env r).trace = r.trace ++ [Event.finished] := by
          unfold run
          rw [if_pos hyes]
          rfl
        rw [this] at h
        have := congrArg List.length (List.append_cancel_left h)
        simp at this
      rcases hcancel with hflag | ⟨k, hk, hlt⟩
      · simp [cancelRequested, hflag] at hfirst
      · simp only [cancelRequested, hk, Bool.or_eq_false_iff, decide_eq_false_iff_not] at h₀
        omega

/-- Witness of C2: in the sample library the control thread cancels while the
files are being extracted, after the first insert. The run has executed the
delete of the two old rows and the insert of the first file, and none of them
is visible afterwards. -/
theorem cancelled_run_commits_nothing_witness :
    statements (run (sampleEnv (some 11)) newRunnable).trace =
      [Event.removeTracksFromDbByIds [2, 1],
       Event.addTrackToDatabase "/music/A/s1.mp3".toList 11 sampleInfo [] []] ∧
    ∃ out, (run (sampleEnv (some 11)) newRunnable).trace = newRunnable.trace ++ out ∧
      Event.commit ∉ out ∧
      committedStatements out = [] :=
  ⟨by decide, cancelled_run_commits_nothing (sampleEnv (some 11)) newRunnable
    (Or.inr ⟨11, rfl, by decide⟩)⟩

/-- The other side of the guard: in the sample library a run that is never
cancelled ends with a commit, and every statement it executed is visible
afterwards. -/
theorem completed_sample_run_is_committed :
    Event.commit ∈ (run (sampleEnv none) newRunnable).trace ∧
    committedStatements (run (sampleEnv none) newRunnable).trace =
      statements (run (sampleEnv none) newRunnable).trace ∧
    (statements (run (sampleEnv none) newRunnable).trace).length = 5 := by
  decide

/-- C6. When the index query fails, `getTracksFromDatabase` returns an empty
result, leaves `tracksToRemove` as it was and sets the cancel flag; the run
then emits no `stageChanged` and executes no statement: after the transaction
is opened the run returns, without a commit, and `finished` is emitted. -/
theorem query_failure_aborts_run (env : Env) (hq : env.tracksQuery = none) :
    (∀ (r : Runnable) (tracksToRemove : List Int) (noMedia : List (QString × Bool)),
      (getTracksFromDatabase env r tracksToRemove noMedia).result =
        { tracksInDb := [], mediaArtDirectoriesInDbHash := [] } ∧
      (getTracksFromDatabase env r tracksToRemove noMedia).tracksToRemove = tracksToRemove ∧
      (getTracksFromDatabase env r tracksToRemove noMedia).runnable.mCancel = true) ∧
    (∀ r : Runnable, ∃ out, (run env r).trace = r.trace ++ out ∧
      (out = [Event.finished] ∨ out = [Event.transaction, Event.finished]) ∧
      ∀ e ∈ out, (∀ stage, e ≠ Event.stageChanged stage) ∧ e.isStatement = false) := by
  have hget : ∀ (r : Runnable) (tracksToRemove : List Int) (noMedia : List (QString × Bool)),
      getTracksFromDatabase env r tracksToRemove noMedia =
        { result := { tracksInDb := [], mediaArtDirectoriesInDbHash := [] }
          tracksToRemove := tracksToRemove
          noMediaDirectories := noMedia
          runnable := { r with mCancel := true } } := by
    intro r tracksToRemove noMedia
    unfold getTracksFromDatabase
    rw [hq]
  refine ⟨fun r t n => by rw [hget]; exact ⟨rfl, rfl, rfl⟩, ?_⟩
  intro r
  have hshape : (run env r).trace = r.trace ++ [Event.finished] ∨
      (run env r).trace = r.trace ++ [Event.transaction, Event.finished] := by
    unfold run
    by_cases c0 : cancelRequested env r = true
    · rw [if_pos c0]; exact Or.inl rfl
    · rw [if_neg c0]
      simp only []
      by_cases hopen : (!env.databaseOpens) = true
      · rw [if_pos hopen]; exact Or.inl rfl
      · rw [if_neg hopen]
        right
        unfold runInTransaction loadStage
        simp only [hget]
        rw [if_pos (by simp [cancelRequested])]
        simp [leaveRun, finishedGuardLeave, transactionGuardLeave, emitEvent, poll,
          transactionGuardEnter, withDirectories]
  rcases hshape with h | h
  · refine ⟨_, h, Or.inl rfl, ?_⟩
    intro e he
    simp at he
    subst he
    exact ⟨fun _ h => (by cases h), rfl⟩
  · refine ⟨_, h, Or.inr rfl, ?_⟩
    intro e he
    simp at he
    rcases he with rfl | rfl <;> exact ⟨fun _ h => (by cases h), rfl⟩

/-- C5. With the query successful and no cancellation during the loop,
`getTracksFromDatabase` appends to `tracksToRemove` exactly the ids of the rows
that are excluded (file missing, a directory, unreadable, under no library
root, blacklisted, or in a directory with a `.nomedia` marker), in row order;
an excluded row's path is not a key of the surviving map, and every other
row's path is a key whose record carries that row's id and stored
modification time. The paths of the rows are distinct, as the index keeps
them. -/
theorem getTracksFromDatabase_partition (env : Env) (r : Runnable) (rows : List TrackRow)
    (tracksToRemove : List Int) (noMedia : List (QString × Bool))
    (hq : env.tracksQuery = some rows)
    (hnc : NoCancelDuring env r rows.length)
    (hm : MemoConsistent env.fs noMedia)
    (hpaths : (rows.map TrackRow.filePath).Nodup) :
    (getTracksFromDatabase env r tracksToRemove noMedia).tracksToRemove =
      tracksToRemove ++
        (rows.filter (fun row => excludedFromLibrary env r row.filePath)).map TrackRow.id ∧
    ∀ row ∈ rows,
      (excludedFromLibrary env r row.filePath = true →
        mapFind (getTracksFromDatabase env r tracksToRemove noMedia).result.tracksInDb
          row.filePath = none) ∧
      (excludedFromLibrary env r row.filePath = false →
        ∃ t, mapFind (getTracksFromDatabase env r tracksToRemove noMedia).result.tracksInDb
            row.filePath = some t ∧
          t.id = row.id ∧ t.modificationTime = row.modificationTime) := by
  obtain ⟨st', hrun, hrem, -, -, hnone, hsome⟩ := loadRows_spec env rows r
    { tracksInDb := [], mediaArtDirectoriesInDbHash := [], embeddedMediaArtExistanceHash := []
      tracksToRemove := tracksToRemove, noMediaDirectories := noMedia } hnc hm
  have hout : getTracksFromDatabase env r tracksToRemove noMedia =
      { result := { tracksInDb := st'.tracksInDb
                    mediaArtDirectoriesInDbHash := st'.mediaArtDirectoriesInDbHash }
        tracksToRemove := st'.tracksToRemove
        noMediaDirectories := st'.noMediaDirectories
        runnable := { r with polls := r.polls + rows.length } } := by
    unfold getTracksFromDatabase
    rw [hq]
    simp only [hrun]
  rw [hout]
  refine ⟨hrem, ?_⟩
  intro row hrow
  constructor
  · intro hx
    apply hnone row.filePath rfl
    intro row' hrow' hp
    have : row' = row := by
      by_contra hne
      have hinj := List.inj_on_of_nodup_map hpaths hrow' hrow hp
      exact hne hinj
    rw [this]
    exact hx
  · intro hx
    exact hsome hpaths row hrow hx rfl

/-- Witness of C5 in the sample library: row 2, whose file is gone, is queued for
removal and row 1 survives with its id and stored modification time. -/
theorem getTracksFromDatabase_partition_witness :
    (getTracksFromDatabase (sampleEnv none) sampleRunnable [] []).tracksToRemove = [2] ∧
    ∃ t, mapFind (getTracksFromDatabase (sampleEnv none) sampleRunnable [] []).result.tracksInDb
        "/music/A/s1.mp3".toList = some t ∧ t.id = 1 ∧ t.modificationTime = 10 := by
  have h := getTracksFromDatabase_partition (sampleEnv none) sampleRunnable sampleRows [] []
    rfl (fun _ _ => rfl) (memoConsistent_nil _) (by decide)
  refine ⟨h.1.trans (by decide), ?_⟩
  exact (h.2 { id := 1, filePath := "/music/A/s1.mp3".toList, modificationTime := 10
               directoryMediaArt := [], embeddedMediaArt := [] } (by decide)).2 (by decide)

/-- Witness of C6: the sample library with a failing index query. -/
theorem query_failure_aborts_run_witness :
    ({ sampleEnv none with tracksQuery := none } : Env).tracksQuery = none ∧
    ∃ out, (run { sampleEnv none with tracksQuery := none } newRunnable).trace =
        newRunnable.trace ++ out ∧
      (out = [Event.finished] ∨ out = [Event.transaction, Event.finished]) ∧
      ∀ e ∈ out, (∀ stage, e ≠ Event.stageChanged stage) ∧ e.isStatement = false :=
  ⟨rfl, (query_failure_aborts_run { sampleEnv none with tracksQuery := none } rfl).2 newRunnable⟩

/-! ## Scanner facts -/

theorem fileInfoPath_ne_nil (filePath : QString) : fileInfoPath filePath ≠ [] := by
  unfold fileInfoPath
  generalize filePath.reverse.dropWhile (fun c => c != '/') = l
  match l with
  | [] => simp
  | [_] => simp
  | _ :: b :: rest => simp

theorem enterDirectory_fields (env : Env) (filePath : QString) (st : ScanState) :
    (enterDirectory env filePath st).tracksToAdd = st.tracksToAdd ∧
    (enterDirectory env filePath st).tracksToRemove = st.tracksToRemove ∧
    (enterDirectory env filePath st).noMediaDirectories = st.noMediaDirectories ∧
    (enterDirectory env filePath st).runnable.mBlacklistedDirectories =
      st.runnable.mBlacklistedDirectories ∧
    (enterDirectory env filePath st).runnable.mLibraryDirectories =
      st.runnable.mLibraryDirectories ∧
    (enterDirectory env filePath st).runnable.mCancel = st.runnable.mCancel ∧
    (enterDirectory env filePath st).runnable.polls = st.runnable.polls ∧
    (enterDirectory env filePath st).directory = fileInfoPath filePath ∧
    (enterDirectory env filePath st).directoryMediaArt =
      if fileInfoPath filePath = st.directory then st.directoryMediaArt
      else env.findMediaArtForDirectory (fileInfoPath filePath) := by
  unfold enterDirectory
  by_cases hd : fileInfoPath filePath = st.directory
  · simp [hd]
  · have hb : (fileInfoPath filePath != st.directory) = true := by simpa using hd
    rw [if_pos hb, if_neg hd]
    simp only []
    cases mapFind st.mediaArtDirectoriesInDbHash (fileInfoPath filePath) with
    | none => simp
    | some inDb =>
      simp only []
      split <;> simp [emitEvent]

theorem enterDirectory_art (env : Env) (filePath : QString) (st : ScanState)
    (h : DirectoryArtResolved env st) :
    (enterDirectory env filePath st).directoryMediaArt =
      env.findMediaArtForDirectory (fileInfoPath filePath) := by
  rw [(enterDirectory_fields env filePath st).2.2.2.2.2.2.2.2]
  split
  · rename_i heq
    rcases h with h | h
    · exact absurd (heq.trans h) (fileInfoPath_ne_nil filePath)
    · rw [h, heq]
  · rfl

/-- C8. For a recognised file that is not a key of the surviving map, the loop
body of `scanFilesystem` leaves `tracksToRemove` alone; it appends the file to
the to-add list, with the art resolved for its directory, when the directory
has no `.nomedia` marker and no blacklisted directory is a prefix of the path,
and leaves the to-add list alone otherwise. -/
theorem scanFile_new_file (env : Env) (tracksInDb : List (QString × TrackInDb))
    (filePath : QString) (st : ScanState)
    (hrec : recognised env filePath = true)
    (hnew : mapFind tracksInDb filePath = none)
    (hmemo : MemoConsistent env.fs st.noMediaDirectories)
    (hart : DirectoryArtResolved env st) :
    (scanFile env tracksInDb filePath st).tracksToRemove = st.tracksToRemove ∧
    (hasNoMediaMarker env.fs (fileInfoPath filePath) = false →
      (∀ d ∈ st.runnable.mBlacklistedDirectories, ¬ d <+: filePath) →
      (scanFile env tracksInDb filePath st).tracksToAdd = st.tracksToAdd ++
        [{ filePath := filePath
           directoryMediaArt := env.findMediaArtForDirectory (fileInfoPath filePath)
           extension := env.extensionFromSuffix (fileInfoSuffix filePath) }]) ∧
    ((hasNoMediaMarker env.fs (fileInfoPath filePath) = true ∨
        ∃ d ∈ st.runnable.mBlacklistedDirectories, d <+: filePath) →
      (scanFile env tracksInDb filePath st).tracksToAdd = st.tracksToAdd) := by
  have hext : env.extensionFromSuffix (fileInfoSuffix filePath) ≠ Extension.Other := by
    simpa [recognised] using hrec
  obtain ⟨hadd, hrem, hnm, hbl, -, -, -, -, -⟩ := enterDirectory_fields env filePath st
  have hartv := enterDirectory_art env filePath st hart
  obtain ⟨hmark, -⟩ := isNoMediaDirectory_spec env.fs (fileInfoPath filePath)
    st.noMediaDirectories hmemo
  have hblack : isBlacklisted (enterDirectory env filePath st).runnable filePath = true ↔
      ∃ d ∈ st.runnable.mBlacklistedDirectories, d <+: filePath := by
    unfold isBlacklisted
    rw [hbl, List.any_eq_true]
    simp only [startsWith_iff]
  unfold scanFile
  simp only []
  rw [if_neg hext]
  unfold reconcileFile
  rw [hnew]
  simp only [hnm, hmark]
  cases hmk : hasNoMediaMarker env.fs (fileInfoPath filePath) with
  | true =>
    simp only [if_true]
    exact ⟨hrem, fun h => absurd h (by decide), fun _ => hadd⟩
  | false =>
    simp only [Bool.false_eq_true, if_false]
    by_cases hb : isBlacklisted (enterDirectory env filePath st).runnable filePath = true
    · rw [if_pos hb]
      refine ⟨hrem, fun _ hno => ?_, fun _ => hadd⟩
      obtain ⟨d, hd, hpre⟩ := hblack.mp hb
      exact absurd hpre (hno d hd)
    · rw [if_neg hb]
      refine ⟨hrem, fun _ _ => ?_, fun h => ?_⟩
      · simp only [hadd, hartv]
      · rcases h with h | h
        · exact absurd h (by decide)
        · exact absurd (hblack.mpr h) hb

/-- C9. For a recognised file that is a key of the surviving map, the loop
body of `scanFilesystem` appends the stored row id to `tracksToRemove` and the
path, once, to the to-add list when the current modification time differs
from the stored one, and changes neither list when the two are equal. -/
theorem scanFile_indexed_file (env : Env) (tracksInDb : List (QString × TrackInDb))
    (filePath : QString) (st : ScanState) (file : TrackInDb)
    (hrec : recognised env filePath = true)
    (hfound : mapFind tracksInDb filePath = some file) :
    (env.fs.lastModified filePath ≠ file.modificationTime →
      (scanFile env tracksInDb filePath st).tracksToRemove = st.tracksToRemove ++ [file.id] ∧
      ∃ art, (scanFile env tracksInDb filePath st).tracksToAdd = st.tracksToAdd ++
        [{ filePath := filePath, directoryMediaArt := art
           extension := env.extensionFromSuffix (fileInfoSuffix filePath) }]) ∧
    (env.fs.lastModified filePath = file.modificationTime →
      (scanFile env tracksInDb filePath st).tracksToRemove = st.tracksToRemove ∧
      (scanFile env tracksInDb filePath st).tracksToAdd = st.tracksToAdd) := by
  have hext : env.extensionFromSuffix (fileInfoSuffix filePath) ≠ Extension.Other := by
    simpa [recognised] using hrec
  obtain ⟨hadd, hrem, -, -, -, -, -, -, -⟩ := enterDirectory_fields env filePath st
  unfold scanFile
  simp only []
  rw [if_neg hext]
  unfold reconcileFile
  rw [hfound]
  simp only []
  constructor
  · intro hne
    rw [if_neg hne]
    exact ⟨by simp only [hrem], (enterDirectory env filePath st).directoryMediaArt,
      by simp only [hadd]⟩
  · intro heq
    rw [if_pos heq]
    split
    · exact ⟨hrem, hadd⟩
    · exact ⟨hrem, hadd⟩

/-- Witness of C9 in the sample library: `s1.mp3` is indexed with time 10 and
was modified at 11. -/
theorem scanFile_indexed_file_witness :
    (scanFile (sampleEnv none) sampleTracksInDb "/music/A/s1.mp3".toList
        sampleScanState).tracksToRemove = [2, 1] ∧
    ∃ art, (scanFile (sampleEnv none) sampleTracksInDb "/music/A/s1.mp3".toList
        sampleScanState).tracksToAdd =
      [{ filePath := "/music/A/s1.mp3".toList, directoryMediaArt := art
         extension := Extension.MP3 }] :=
  (scanFile_indexed_file (sampleEnv none) sampleTracksInDb "/music/A/s1.mp3".toList
    sampleScanState { id := 1, embeddedMediaArtDeleted := false, modificationTime := 10 }
    (by decide) (by decide)).1 (by decide)

/-- Witness of C8 in the sample library: `new.mp3` is not indexed, is not
blacklisted and its directory has no marker. -/
theorem scanFile_new_file_witness :
    (scanFile (sampleEnv none) sampleTracksInDb "/music/A/new.mp3".toList
        sampleScanState).tracksToAdd =
      [{ filePath := "/music/A/new.mp3".toList, directoryMediaArt := []
         extension := Extension.MP3 }] :=
  (scanFile_new_file (sampleEnv none) sampleTracksInDb "/music/A/new.mp3".toList
    sampleScanState (by decide) (by decide) (memoConsistent_nil _) (Or.inl rfl)).2.1
    (by decide) (by decide)

/-- One round of the file loop keeps the scanner's two invariants. -/
theorem scanFile_invariants (env : Env) (tracksInDb : List (QString × TrackInDb))
    (filePath : QString) (st : ScanState)
    (hmemo : MemoConsistent env.fs st.noMediaDirectories)
    (hart : DirectoryArtResolved env st) :
    MemoConsistent env.fs (scanFile env tracksInDb filePath st).noMediaDirectories ∧
    DirectoryArtResolved env (scanFile env tracksInDb filePath st) := by
  obtain ⟨-, -, hnm, -, -, -, -, hdir, -⟩ := enterDirectory_fields env filePath st
  have hartv := enterDirectory_art env filePath st hart
  obtain ⟨-, hmemo'⟩ := isNoMediaDirectory_spec env.fs (fileInfoPath filePath)
    st.noMediaDirectories hmemo
  have hres : DirectoryArtResolved env (enterDirectory env filePath st) := by
    right; rw [hartv, hdir]
  unfold scanFile
  simp only []
  split
  · exact ⟨hmemo, hart⟩
  · unfold reconcileFile
    cases mapFind tracksInDb filePath with
    | none =>
      simp only [hnm]
      split
      · exact ⟨hmemo', hres⟩
      · split
        · exact ⟨hmemo', hres⟩
        · exact ⟨hmemo', hres⟩
    | some file =>
      simp only []
      split
      · split
        · exact ⟨hnm ▸ hmemo, hres⟩
        · exact ⟨hnm ▸ hmemo, hres⟩
      · exact ⟨hnm ▸ hmemo, hres⟩

/-- One round of the file loop appends at most the file itself to the paths
of the to-add list. -/
theorem scanFile_paths (env : Env) (tracksInDb : List (QString × TrackInDb))
    (filePath : QString) (st : ScanState) :
    ∃ l, (scanFile env tracksInDb filePath st).tracksToAdd.map TrackToAdd.filePath =
        st.tracksToAdd.map TrackToAdd.filePath ++ l ∧ List.Sublist l [filePath] := by
  obtain ⟨hadd, -, -, -, -, -, -, -, -⟩ := enterDirectory_fields env filePath st
  have hsame : ∀ x : ScanState, x.tracksToAdd = st.tracksToAdd →
      ∃ l, x.tracksToAdd.map TrackToAdd.filePath =
        st.tracksToAdd.map TrackToAdd.filePath ++ l ∧ List.Sublist l [filePath] :=
    fun x hx => ⟨[], by simp [hx], by simp⟩
  unfold scanFile
  simp only []
  split
  · exact hsame _ rfl
  · unfold reconcileFile
    cases mapFind tracksInDb filePath with
    | none =>
      simp only []
      split
      · exact hsame _ hadd
      · split
        · exact hsame _ hadd
        · exact ⟨[filePath], by simp [hadd], List.Sublist.refl _⟩
    | some file =>
      simp only []
      split
      · split
        · exact hsame _ hadd
        · exact hsame _ hadd
      · exact ⟨[filePath], by simp [hadd], List.Sublist.refl _⟩

theorem scanFiles_paths (env : Env) (tracksInDb : List (QString × TrackInDb))
    (files : List QString) (st : ScanState) :
    ∃ l, (scanFiles env tracksInDb files st).2.tracksToAdd.map TrackToAdd.filePath =
        st.tracksToAdd.map TrackToAdd.filePath ++ l ∧ List.Sublist l files := by
  induction files generalizing st with
  | nil => exact ⟨[], by simp [scanFiles], List.Sublist.refl _⟩
  | cons f rest ih =>
    unfold scanFiles
    split
    · exact ⟨[], by simp, by simp⟩
    · obtain ⟨l₁, h₁, s₁⟩ := scanFile_paths env tracksInDb f { st with runnable := poll st.runnable }
      obtain ⟨l₂, h₂, s₂⟩ := ih (scanFile env tracksInDb f { st with runnable := poll st.runnable })
      refine ⟨l₁ ++ l₂, ?_, ?_⟩
      · rw [h₂, h₁, List.append_assoc]
      · exact List.Sublist.append s₁ s₂

theorem scanRoots_paths (env : Env) (tracksInDb : List (QString × TrackInDb))
    (roots : List QString) (st : ScanState) :
    ∃ l, (scanRoots env tracksInDb roots st).tracksToAdd.map TrackToAdd.filePath =
        st.tracksToAdd.map TrackToAdd.filePath ++ l ∧
      List.Sublist l (roots.flatMap env.fs.entries) := by
  induction roots generalizing st with
  | nil => exact ⟨[], by simp [scanRoots], List.Sublist.refl _⟩
  | cons top rest ih =>
    unfold scanRoots
    split
    · exact ⟨[], by simp, by simp⟩
    · obtain ⟨l₁, h₁, s₁⟩ := scanFiles_paths env tracksInDb (env.fs.entries top)
        { st with runnable := poll st.runnable }
      split <;> rename_i heq <;> rw [heq] at h₁
      · refine ⟨l₁, h₁, ?_⟩
        rw [List.flatMap_cons]
        exact s₁.trans (List.sublist_append_left _ _)
      · rename_i st'
        obtain ⟨l₂, h₂, s₂⟩ := ih st'
        refine ⟨l₁ ++ l₂, ?_, ?_⟩
        · rw [h₂, h₁, List.append_assoc]
        · rw [List.flatMap_cons]
          exact List.Sublist.append s₁ s₂

theorem prepareLibraryDirectories_eq (dirs : List QString) :
    prepareLibraryDirectories dirs =
      removeNested (removeDuplicates (dirs.map appendSlash)).length
        (removeDuplicates (dirs.map appendSlash)) := by
  unfold prepareLibraryDirectories
  cases dirs with
  | nil => rfl
  | cons d ds => rfl

theorem prepareLibraryDirectories_prefix_free (dirs : List QString) :
    (prepareLibraryDirectories dirs).Nodup ∧
    ∀ d ∈ prepareLibraryDirectories dirs, ∀ e ∈ prepareLibraryDirectories dirs,
      e <+: d → e = d := by
  rw [prepareLibraryDirectories_eq]
  obtain ⟨hsub, hpre, -⟩ := removeNested_spec (removeDuplicates (dirs.map appendSlash))
  exact ⟨hsub.nodup (nodup_removeDuplicatesAux [] _), hpre⟩

/-- C10. When the library roots come from `prepareLibraryDirectories` and the
enumeration of each root gives pairwise distinct paths that start with the
root, no path occurs twice in the to-add list `scanFilesystem` returns. -/
theorem scanFilesystem_paths_distinct (env : Env) (r : Runnable) (res : TracksInDbResult)
    (tracksToRemove : List Int) (noMedia : List (QString × Bool)) (dirs : List QString)
    (hroots : r.mLibraryDirectories = prepareLibraryDirectories dirs)
    (hfs : ∀ root ∈ r.mLibraryDirectories,
      (env.fs.entries root).Nodup ∧ ∀ p ∈ env.fs.entries root, root <+: p) :
    ((scanFilesystem env r res tracksToRemove noMedia).tracksToAdd.map
      TrackToAdd.filePath).Nodup := by
  obtain ⟨hnodup, hfree⟩ := prepareLibraryDirectories_prefix_free dirs
  rw [← hroots] at hnodup hfree
  obtain ⟨l, hl, hsub⟩ := scanRoots_paths env res.tracksInDb r.mLibraryDirectories
    { tracksToAdd := []
      tracksToRemove := tracksToRemove
      noMediaDirectories := noMedia
      mediaArtDirectoriesInDbHash := res.mediaArtDirectoriesInDbHash
      directory := []
      directoryMediaArt := []
      runnable := r }
  unfold scanFilesystem
  rw [hl]
  simp only [List.map_nil, List.nil_append]
  refine hsub.nodup (List.nodup_flatMap.mpr ⟨fun root hroot => (hfs root hroot).1, ?_⟩)
  refine hnodup.pairwise_of_forall_ne ?_
  intro a ha b hb hab
  intro p hpa hpb
  have h1 := (hfs a ha).2 p hpa
  have h2 := (hfs b hb).2 p hpb
  rcases Nat.le_total a.length b.length with hle | hle
  · exact hab (hfree b hb a ha (List.prefix_of_prefix_length_le h1 h2 hle))
  · exact hab (hfree a ha b hb (List.prefix_of_prefix_length_le h2 h1 hle)).symm

/-- Witness of C10 in the sample library. -/
theorem scanFilesystem_paths_distinct_witness :
    ((scanFilesystem (sampleEnv none) sampleRunnable
        { tracksInDb := sampleTracksInDb, mediaArtDirectoriesInDbHash := [] } [2] []).tracksToAdd.map
      TrackToAdd.filePath).Nodup :=
  scanFilesystem_paths_distinct (sampleEnv none) sampleRunnable
    { tracksInDb := sampleTracksInDb, mediaArtDirectoriesInDbHash := [] } [2] []
    ["/music".toList] rfl (by decide)

/-! ## Idempotence -/

theorem scanFile_stable (env : Env) (tracksInDb : List (QString × TrackInDb))
    (filePath : QString) (st : ScanState)
    (h : recognised env filePath = true →
      (mapFind tracksInDb filePath).map TrackInDb.modificationTime =
        some (env.fs.lastModified filePath)) :
    (scanFile env tracksInDb filePath st).tracksToAdd = st.tracksToAdd ∧
    (scanFile env tracksInDb filePath st).tracksToRemove = st.tracksToRemove := by
  obtain ⟨hadd, hrem, -⟩ := enterDirectory_fields env filePath st
  unfold scanFile
  simp only []
  split
  · exact ⟨rfl, rfl⟩
  · rename_i hext
    have hrec : recognised env filePath = true := by simpa [recognised] using hext
    have hm := h hrec
    unfold reconcileFile
    cases hf : mapFind tracksInDb filePath with
    | none => rw [hf] at hm; simp at hm
    | some file =>
      rw [hf] at hm
      have heq : env.fs.lastModified filePath = file.modificationTime := by
        simpa using hm.symm
      simp only []
      rw [if_pos heq]
      split <;> exact ⟨hadd, hrem⟩

theorem scanFiles_stable (env : Env) (tracksInDb : List (QString × TrackInDb))
    (files : List QString) (st : ScanState)
    (h : ∀ p ∈ files, recognised env p = true →
      (mapFind tracksInDb p).map TrackInDb.modificationTime = some (env.fs.lastModified p)) :
    (scanFiles env tracksInDb files st).2.tracksToAdd = st.tracksToAdd ∧
    (scanFiles env tracksInDb files st).2.tracksToRemove = st.tracksToRemove := by
  induction files generalizing st with
  | nil => exact ⟨rfl, rfl⟩
  | cons f rest ih =>
    unfold scanFiles
    split
    · exact ⟨rfl, rfl⟩
    · obtain ⟨h1, h2⟩ := scanFile_stable env tracksInDb f { st with runnable := poll st.runnable }
        (h f (List.mem_cons_self _ _))
      obtain ⟨h3, h4⟩ := ih (scanFile env tracksInDb f { st with runnable := poll st.runnable })
        (fun p hp => h p (List.mem_cons_of_mem _ hp))
      exact ⟨h3.trans h1, h4.trans h2⟩

theorem scanRoots_stable (env : Env) (tracksInDb : List (QString × TrackInDb))
    (roots : List QString) (st : ScanState)
    (h : ∀ root ∈ roots, ∀ p ∈ env.fs.entries root, recognised env p = true →
      (mapFind tracksInDb p).map TrackInDb.modificationTime = some (env.fs.lastModified p)) :
    (scanRoots env tracksInDb roots st).tracksToAdd = st.tracksToAdd ∧
    (scanRoots env tracksInDb roots st).tracksToRemove = st.tracksToRemove := by
  induction roots generalizing st with
  | nil => exact ⟨rfl, rfl⟩
  | cons top rest ih =>
    unfold scanRoots
    split
    · exact ⟨rfl, rfl⟩
    · obtain ⟨h1, h2⟩ := scanFiles_stable env tracksInDb (env.fs.entries top)
        { st with runnable := poll st.runnable } (h top (List.mem_cons_self _ _))
      split <;> rename_i heq <;> rw [heq] at h1 h2
      · exact ⟨h1, h2⟩
      · rename_i st'
        obtain ⟨h3, h4⟩ := ih st' (fun root hr => h root (List.mem_cons_of_mem _ hr))
        exact ⟨h3.trans h1, h4.trans h2⟩

theorem loadRows_directories (env : Env) (rows : List TrackRow) (r : Runnable)
    (st : LoaderState) :
    (loadRows env rows r st).2.1.mLibraryDirectories = r.mLibraryDirectories := by
  induction rows generalizing r st with
  | nil => rfl
  | cons row rows ih =>
    unfold loadRows
    split
    · rfl
    · rw [ih]; rfl

theorem getTracksFromDatabase_directories (env : Env) (r : Runnable)
    (tracksToRemove : List Int) (noMedia : List (QString × Bool)) :
    (getTracksFromDatabase env r tracksToRemove noMedia).runnable.mLibraryDirectories =
      r.mLibraryDirectories := by
  unfold getTracksFromDatabase
  split
  · rfl
  · rename_i rows _
    have h := loadRows_directories env rows r
      { tracksInDb := [], mediaArtDirectoriesInDbHash := [], embeddedMediaArtExistanceHash := []
        tracksToRemove := tracksToRemove, noMediaDirectories := noMedia }
    split <;> rename_i heq <;> rw [heq] at h <;> exact h

theorem not_delete_insert_of_isScanEvent (e : Event) (h : e.isScanEvent = true) :
    e.isTrackDelete = false ∧ e.isTrackInsert = false := by
  cases e <;> simp_all [Event.isScanEvent, Event.isTrackDelete, Event.isTrackInsert]

/-- C7. If the loader of a run queued no deletion and every recognised file
enumerated under the library roots is a key of the surviving map with its
current modification time, then the scan of that run returns an empty to-add
list and leaves `tracksToRemove` empty, and the run executes no delete and no
insert of a track. -/
theorem unchanged_library_scan_is_idempotent (env : Env) (r : Runnable)
    (hload : (loadStage env (transactionGuardEnter (poll r))).tracksToRemove = [])
    (hfiles : ∀ root ∈ prepareLibraryDirectories env.libraryDirectories,
      ∀ p ∈ env.fs.entries root, recognised env p = true →
        (mapFind (loadStage env (transactionGuardEnter (poll r))).result.tracksInDb p).map
          TrackInDb.modificationTime = some (env.fs.lastModified p)) :
    (scanStage env (loadStage env (transactionGuardEnter (poll r)))).tracksToAdd = [] ∧
    (scanStage env (loadStage env (transactionGuardEnter (poll r)))).tracksToRemove = [] ∧
    ∃ out, (run env r).trace = r.trace ++ out ∧
      ∀ e ∈ out, e.isTrackDelete = false ∧ e.isTrackInsert = false := by
  have hdirs : (loadStage env (transactionGuardEnter (poll r))).runnable.mLibraryDirectories =
      prepareLibraryDirectories env.libraryDirectories := by
    unfold loadStage
    rw [getTracksFromDatabase_directories]
    rfl
  have hscan : (scanStage env (loadStage env (transactionGuardEnter (poll r)))).tracksToAdd = [] ∧
      (scanStage env (loadStage env (transactionGuardEnter (poll r)))).tracksToRemove = [] := by
    have := scanRoots_stable env (loadStage env (transactionGuardEnter (poll r))).result.tracksInDb
      (prepareLibraryDirectories env.libraryDirectories)
      { tracksToAdd := []
        tracksToRemove := (loadStage env (transactionGuardEnter (poll r))).tracksToRemove
        noMediaDirectories := (loadStage env (transactionGuardEnter (poll r))).noMediaDirectories
        mediaArtDirectoriesInDbHash :=
          (loadStage env (transactionGuardEnter (poll r))).result.mediaArtDirectoriesInDbHash
        directory := []
        directoryMediaArt := []
        runnable := emitEvent (poll (loadStage env (transactionGuardEnter (poll r))).runnable)
          (Event.stageChanged Stage.ScanningStage) } hfiles
    unfold scanStage scanFilesystem
    have hd : (emitEvent (poll (loadStage env (transactionGuardEnter (poll r))).runnable)
        (Event.stageChanged Stage.ScanningStage)).mLibraryDirectories =
        prepareLibraryDirectories env.libraryDirectories := hdirs
    rw [hd]
    exact ⟨this.1, this.2.trans hload⟩
  refine ⟨hscan.1, hscan.2, ?_⟩
  have hq : ∀ e : Event, e.isTrackDelete = false ∧ e.isTrackInsert = false →
      e.isTrackDelete = false ∧ e.isTrackInsert = false := fun _ h => h
  have hfin : ∀ (completed : Bool) (x : Runnable),
      Emits (fun e => e.isTrackDelete = false ∧ e.isTrackInsert = false) x
        (leaveRun completed x) := by
    intro completed x
    cases completed
    · exact Emits.emitEvent x Event.finished ⟨rfl, rfl⟩
    · exact Emits.trans (Emits.emitEvent x Event.commit ⟨rfl, rfl⟩)
        (Emits.emitEvent _ Event.finished ⟨rfl, rfl⟩)
  have hrun : Emits (fun e => e.isTrackDelete = false ∧ e.isTrackInsert = false) r (run env r) := by
    unfold run
    split
    · exact Emits.trans (poll_emits _ _) (Emits.emitEvent _ Event.finished ⟨rfl, rfl⟩)
    · simp only []
      split
      · exact Emits.trans (poll_emits _ _) (Emits.emitEvent _ Event.finished ⟨rfl, rfl⟩)
      · have h0 : Emits (fun e => e.isTrackDelete = false ∧ e.isTrackInsert = false) r
            (transactionGuardEnter (poll r)) :=
          Emits.trans (poll_emits _ _) (Emits.emitEvent _ Event.transaction ⟨rfl, rfl⟩)
        have h1 : Emits (fun e => e.isTrackDelete = false ∧ e.isTrackInsert = false)
            (transactionGuardEnter (poll r))
            (loadStage env (transactionGuardEnter (poll r))).runnable :=
          Emits.of_trace_eq (by unfold loadStage; rw [getTracksFromDatabase_trace]; rfl)
        have h2 : Emits (fun e => e.isTrackDelete = false ∧ e.isTrackInsert = false)
            (loadStage env (transactionGuardEnter (poll r))).runnable
            (scanStage env (loadStage env (transactionGuardEnter (poll r)))).runnable := by
          refine Emits.trans (poll_emits _ _) (Emits.trans
            (Emits.emitEvent _ (Event.stageChanged Stage.ScanningStage) ⟨rfl, rfl⟩) ?_)
          exact Emits.mono not_delete_insert_of_isScanEvent (scanFilesystem_emits env _ _ _ _)
        refine h0.trans ?_
        unfold runInTransaction
        simp only []
        split
        · exact h1.trans ((poll_emits _ _).trans (hfin _ _))
        · split
          · exact (h1.trans h2).trans ((poll_emits _ _).trans (hfin _ _))
          · refine (h1.trans h2).trans ((poll_emits _ _).trans ?_)
            rw [hscan.1, hscan.2]
            unfold runAfterScan deleteStage extractStage
            simp only [List.isEmpty_nil, Bool.not_true, Bool.false_eq_true, if_false]
            split
            · exact (poll_emits _ _).trans (hfin _ _)
            · split
              · exact (poll_emits _ _).trans ((poll_emits _ _).trans (hfin _ _))
              · refine (poll_emits _ _).trans ((poll_emits _ _).trans ?_)
                refine Emits.trans ?_ (hfin _ _)
                exact Emits.trans
                  (Emits.trans (Emits.emitEvent _ (Event.stageChanged Stage.FinishingStage) ⟨rfl, rfl⟩)
                    (Emits.emitEvent _ Event.removeUnusedCategories ⟨rfl, rfl⟩))
                  (Emits.emitEvent _ Event.removeUnusedMediaArt ⟨rfl, rfl⟩)
  exact hrun

/-- Witness of C7: the sample library after a completed scan. -/
theorem unchanged_library_scan_is_idempotent_witness :
    (scanStage settledEnv (loadStage settledEnv (transactionGuardEnter (poll newRunnable)))).tracksToAdd
      = [] ∧
    (scanStage settledEnv
      (loadStage settledEnv (transactionGuardEnter (poll newRunnable)))).tracksToRemove = [] ∧
    ∃ out, (run settledEnv newRunnable).trace = newRunnable.trace ++ out ∧
      ∀ e ∈ out, e.isTrackDelete = false ∧ e.isTrackInsert = false :=
  unchanged_library_scan_is_idempotent settledEnv newRunnable (by decide) (by decide)

/-! ## The scanner's invariants hold throughout a run -/

theorem loadRows_memoConsistent (env : Env) (rows : List TrackRow) (r : Runnable)
    (st : LoaderState) (hm : MemoConsistent env.fs st.noMediaDirectories) :
    MemoConsistent env.fs (loadRows env rows r st).2.2.noMediaDirectories := by
  induction rows generalizing r st with
  | nil => exact hm
  | cons row rows ih =>
    unfold loadRows
    split
    · exact hm
    · exact ih _ _ (loadRow_spec env r row st hm).1

theorem getTracksFromDatabase_memoConsistent (env : Env) (r : Runnable)
    (tracksToRemove : List Int) (noMedia : List (QString × Bool))
    (hm : MemoConsistent env.fs noMedia) :
    MemoConsistent env.fs (getTracksFromDatabase env r tracksToRemove noMedia).noMediaDirectories := by
  unfold getTracksFromDatabase
  split
  · exact hm
  · rename_i rows _
    have h := loadRows_memoConsistent env rows r
      { tracksInDb := [], mediaArtDirectoriesInDbHash := [], embeddedMediaArtExistanceHash := []
        tracksToRemove := tracksToRemove, noMediaDirectories := noMedia } hm
    split <;> rename_i heq <;> rw [heq] at h <;> exact h

theorem scanFiles_invariants (env : Env) (tracksInDb : List (QString × TrackInDb))
    (files : List QString) (st : ScanState)
    (hmemo : MemoConsistent env.fs st.noMediaDirectories)
    (hart : DirectoryArtResolved env st) :
    MemoConsistent env.fs (scanFiles env tracksInDb files st).2.noMediaDirectories ∧
    DirectoryArtResolved env (scanFiles env tracksInDb files st).2 := by
  induction files generalizing st with
  | nil => exact ⟨hmemo, hart⟩
  | cons f rest ih =>
    unfold scanFiles
    split
    · exact ⟨hmemo, hart⟩
    · obtain ⟨h1, h2⟩ := scanFile_invariants env tracksInDb f
        { st with runnable := poll st.runnable } hmemo hart
      exact ih _ h1 h2

/-! ## The `.nomedia` marker -/

theorem loadRow_excluded_not_key (env : Env) (r : Runnable) (row : TrackRow) (st : LoaderState)
    (hm : MemoConsistent env.fs st.noMediaDirectories)
    (h : ∀ p, excludedFromLibrary env r p = true → mapFind st.tracksInDb p = none) :
    ∀ p, excludedFromLibrary env r p = true →
      mapFind (loadRow env r row st).tracksInDb p = none := by
  intro p hp
  obtain ⟨-, hex, hin⟩ := loadRow_spec env r row st hm
  cases hx : excludedFromLibrary env r row.filePath with
  | true => rw [(hex hx).2]; exact h p hp
  | false =>
    obtain ⟨flag, hmap⟩ := (hin hx).2
    rw [hmap]
    have hne : row.filePath ≠ p := by
      intro heq
      rw [heq, hp] at hx
      exact Bool.noConfusion hx
    rw [mapFind_mapInsert_of_ne _ _ _ _ hne]
    exact h p hp

theorem loadRows_excluded_not_key (env : Env) (rows : List TrackRow) (r : Runnable)
    (st : LoaderState) (hm : MemoConsistent env.fs st.noMediaDirectories)
    (h : ∀ p, excludedFromLibrary env r p = true → mapFind st.tracksInDb p = none) :
    ∀ p, excludedFromLibrary env r p = true →
      mapFind (loadRows env rows r st).2.2.tracksInDb p = none := by
  induction rows generalizing r st with
  | nil => exact h
  | cons row rows ih =>
    unfold loadRows
    split
    · exact h
    · exact ih (poll r) (loadRow env r row st) (loadRow_spec env r row st hm).1
        (loadRow_excluded_not_key env r row st hm h)

theorem getTracksFromDatabase_excluded_not_key (env : Env) (r : Runnable)
    (tracksToRemove : List Int) (noMedia : List (QString × Bool))
    (hm : MemoConsistent env.fs noMedia) (p : QString)
    (hp : excludedFromLibrary env r p = true) :
    mapFind (getTracksFromDatabase env r tracksToRemove noMedia).result.tracksInDb p = none := by
  unfold getTracksFromDatabase
  split
  · rfl
  · rename_i rows _
    have h := loadRows_excluded_not_key env rows r
      { tracksInDb := [], mediaArtDirectoriesInDbHash := [], embeddedMediaArtExistanceHash := []
        tracksToRemove := tracksToRemove, noMediaDirectories := noMedia } hm
      (fun _ _ => rfl) p hp
    split <;> rename_i heq <;> rw [heq] at h
    · rfl
    · exact h

theorem excludedFromLibrary_of_marker (env : Env) (r : Runnable) (p : QString)
    (h : hasNoMediaMarker env.fs (fileInfoPath p) = true) :
    excludedFromLibrary env r p = true := by
  unfold excludedFromLibrary
  rw [h]
  simp

theorem scanFile_skips_marked (env : Env) (tracksInDb : List (QString × TrackInDb))
    (filePath : QString) (st : ScanState)
    (hnew : mapFind tracksInDb filePath = none)
    (hmemo : MemoConsistent env.fs st.noMediaDirectories)
    (hmark : hasNoMediaMarker env.fs (fileInfoPath filePath) = true) :
    (scanFile env tracksInDb filePath st).tracksToAdd = st.tracksToAdd := by
  obtain ⟨hadd, -, hnm, -⟩ := enterDirectory_fields env filePath st
  obtain ⟨hm1, -⟩ := isNoMediaDirectory_spec env.fs (fileInfoPath filePath)
    st.noMediaDirectories hmemo
  unfold scanFile
  simp only []
  split
  · rfl
  · unfold reconcileFile
    rw [hnew]
    simp only [hnm, hm1, hmark, if_true]
    exact hadd

/-- C11, as amended. When a directory holds a `.nomedia` marker, the files
located directly in it are excluded: the loader queues the row of such a file
for deletion and keeps it out of the surviving map, and the scanner, working
with the loader's map, appends no such file to the to-add list. -/
theorem nomedia_directory_is_excluded (env : Env) (r : Runnable) (directory : QString)
    (hmark : hasNoMediaMarker env.fs directory = true) :
    (∀ (row : TrackRow) (st : LoaderState), fileInfoPath row.filePath = directory →
      MemoConsistent env.fs st.noMediaDirectories →
      (loadRow env r row st).tracksToRemove = st.tracksToRemove ++ [row.id] ∧
      (loadRow env r row st).tracksInDb = st.tracksInDb) ∧
    (∀ (tracksToRemove : List Int) (filePath : QString) (st : ScanState),
      fileInfoPath filePath = directory →
      MemoConsistent env.fs st.noMediaDirectories →
      (scanFile env (getTracksFromDatabase env r tracksToRemove []).result.tracksInDb
        filePath st).tracksToAdd = st.tracksToAdd) := by
  constructor
  · intro row st hdir hm
    have hx := excludedFromLibrary_of_marker env r row.filePath (by rw [hdir]; exact hmark)
    exact (loadRow_spec env r row st hm).2.1 hx
  · intro tracksToRemove filePath st hdir hm
    have hmk : hasNoMediaMarker env.fs (fileInfoPath filePath) = true := by
      rw [hdir]; exact hmark
    have hx := excludedFromLibrary_of_marker env r filePath hmk
    exact scanFile_skips_marked env _ filePath st
      (getTracksFromDatabase_excluded_not_key env r tracksToRemove [] (memoConsistent_nil _)
        filePath hx) hm hmk

/-- Witness of C11 as amended: the directory `/music/A` of the library with
the marker. -/
theorem nomedia_directory_is_excluded_witness :
    hasNoMediaMarker nestedEnv.fs "/music/A".toList = true ∧
    ∀ (row : TrackRow) (st : LoaderState), fileInfoPath row.filePath = "/music/A".toList →
      MemoConsistent nestedEnv.fs st.noMediaDirectories →
      (loadRow nestedEnv sampleRunnable row st).tracksToRemove = st.tracksToRemove ++ [row.id] ∧
      (loadRow nestedEnv sampleRunnable row st).tracksInDb = st.tracksInDb :=
  ⟨by decide,
    (nomedia_directory_is_excluded nestedEnv sampleRunnable "/music/A".toList (by decide)).1⟩

/-- C11, as stated, fails. The marker is in `/music/A` and both files are
below it, in `/music/A/sub`: the loader queues no deletion and keeps the
indexed file, and the scanner queues the new file for adding. -/
theorem nomedia_marker_does_not_reach_subdirectories :
    hasNoMediaMarker nestedEnv.fs "/music/A".toList = true ∧
    "/music/A/".toList <+: "/music/A/sub/old.mp3".toList ∧
    "/music/A/".toList <+: "/music/A/sub/new.mp3".toList ∧
    (loadStage nestedEnv (transactionGuardEnter (poll newRunnable))).tracksToRemove = [] ∧
    (mapFind (loadStage nestedEnv (transactionGuardEnter (poll newRunnable))).result.tracksInDb
      "/music/A/sub/old.mp3".toList).map TrackInDb.id = some 1 ∧
    (scanStage nestedEnv
      (loadStage nestedEnv (transactionGuardEnter (poll newRunnable)))).tracksToAdd.map
        TrackToAdd.filePath = ["/music/A/sub/new.mp3".toList] := by
  decide

/-! ## Adder bookkeeping -/

@[simp] theorem record_log (a : LibraryTracksAdder) (e : AdderEvent) :
    (a.record e).log = a.log ++ [e] := rfl

@[simp] theorem record_titles (a : LibraryTracksAdder) (e : AdderEvent) (which : TitleTable) :
    (a.record e).titles which = a.titles which := by
  cases which <;> rfl

@[simp] theorem record_mAlbums (a : LibraryTracksAdder) (e : AdderEvent) :
    (a.record e).mAlbums = a.mAlbums := rfl

@[simp] theorem record_mLastTrackId (a : LibraryTracksAdder) (e : AdderEvent) :
    (a.record e).mLastTrackId = a.mLastTrackId := rfl

@[simp] theorem attempt_log (a : LibraryTracksAdder) : a.attempt.2.log = a.log := by
  unfold LibraryTracksAdder.attempt
  cases a.outcomes <;> rfl

@[simp] theorem attempt_titles (a : LibraryTracksAdder) (which : TitleTable) :
    a.attempt.2.titles which = a.titles which := by
  unfold LibraryTracksAdder.attempt
  cases a.outcomes <;> cases which <;> rfl

@[simp] theorem attempt_mAlbums (a : LibraryTracksAdder) : a.attempt.2.mAlbums = a.mAlbums := by
  unfold LibraryTracksAdder.attempt
  cases a.outcomes <;> rfl

@[simp] theorem attempt_mLastTrackId (a : LibraryTracksAdder) :
    a.attempt.2.mLastTrackId = a.mLastTrackId := by
  unfold LibraryTracksAdder.attempt
  cases a.outcomes <;> rfl

@[simp] theorem setTitles_log (a : LibraryTracksAdder) (which : TitleTable)
    (ids : ArtistsOrGenres) : (a.setTitles which ids).log = a.log := by
  cases which <;> rfl

@[simp] theorem setTitles_mAlbums (a : LibraryTracksAdder) (which : TitleTable)
    (ids : ArtistsOrGenres) : (a.setTitles which ids).mAlbums = a.mAlbums := by
  cases which <;> rfl

@[simp] theorem setTitles_mLastTrackId (a : LibraryTracksAdder) (which : TitleTable)
    (ids : ArtistsOrGenres) : (a.setTitles which ids).mLastTrackId = a.mLastTrackId := by
  cases which <;> rfl

@[simp] theorem setLastTrackId_titles (a : LibraryTracksAdder) (id : Int)
    (which : TitleTable) : (a.setLastTrackId id).titles which = a.titles which := by
  cases which <;> rfl

@[simp] theorem setLastTrackId_log (a : LibraryTracksAdder) (id : Int) :
    (a.setLastTrackId id).log = a.log := rfl

@[simp] theorem setLastTrackId_mAlbums (a : LibraryTracksAdder) (id : Int) :
    (a.setLastTrackId id).mAlbums = a.mAlbums := rfl

@[simp] theorem setLastTrackId_mLastTrackId (a : LibraryTracksAdder) (id : Int) :
    (a.setLastTrackId id).mLastTrackId = id := rfl

theorem setTitles_titles_same (a : LibraryTracksAdder) (which : TitleTable)
    (ids : ArtistsOrGenres) : (a.setTitles which ids).titles which = ids := by
  cases which <;> rfl

theorem setTitles_titles_other (a : LibraryTracksAdder) (which other : TitleTable)
    (ids : ArtistsOrGenres) (h : other ≠ which) :
    (a.setTitles which ids).titles other = a.titles other := by
  cases which <;> cases other <;> first | rfl | exact absurd rfl h

theorem albumFind_append (m₁ m₂ : List ((QString × List Int) × Int)) (key : QString × List Int) :
    albumFind (m₁ ++ m₂) key =
      match albumFind m₁ key with
      | some v => some v
      | none => albumFind m₂ key := by
  induction m₁ with
  | nil => simp [albumFind]
  | cons p rest ih =>
    obtain ⟨k, v⟩ := p
    by_cases hk : k = key
    · simp [albumFind, hk]
    · simp [albumFind, hk, ih]

theorem albumFind_albumInsert_self (m : List ((QString × List Int) × Int))
    (key : QString × List Int) (v : Int) (h : albumFind m key = none) :
    albumFind (albumInsert m key v) key = some v := by
  unfold albumInsert
  rw [h]
  simp [albumFind_append, h, albumFind]

theorem albumFind_albumInsert_of_some (m : List ((QString × List Int) × Int))
    (key key' : QString × List Int) (v w : Int) (h : albumFind m key' = some w) :
    albumFind (albumInsert m key v) key' = some w := by
  unfold albumInsert
  cases hf : albumFind m key with
  | some x => exact h
  | none => simp [albumFind_append, h]

/-! ## What the adder appends to its log -/

theorem AdderEmits.nothing (p : AdderEvent → Prop) (a : LibraryTracksAdder) : AdderEmits p a a :=
  ⟨[], by simp, by simp⟩

theorem AdderEmits.append {p : AdderEvent → Prop} {a₁ a₂ a₃ : LibraryTracksAdder}
    (h₁ : AdderEmits p a₁ a₂) (h₂ : AdderEmits p a₂ a₃) : AdderEmits p a₁ a₃ := by
  obtain ⟨o₁, e₁, q₁⟩ := h₁
  obtain ⟨o₂, e₂, q₂⟩ := h₂
  refine ⟨o₁ ++ o₂, by rw [e₂, e₁, List.append_assoc], ?_⟩
  intro e he
  rcases List.mem_append.mp he with h | h
  · exact q₁ e h
  · exact q₂ e h

theorem AdderEmits.of_log_eq {p : AdderEvent → Prop} {a₁ a₂ : LibraryTracksAdder}
    (h : a₂.log = a₁.log) : AdderEmits p a₁ a₂ :=
  ⟨[], by simp [h], by simp⟩

theorem AdderEmits.of_log_snoc {p : AdderEvent → Prop} {a₁ a₂ : LibraryTracksAdder}
    (e : AdderEvent) (h : a₂.log = a₁.log ++ [e]) (hp : p e) : AdderEmits p a₁ a₂ :=
  ⟨[e], h, by simpa using hp⟩

theorem AdderEmits.record {p : AdderEvent → Prop} (a : LibraryTracksAdder) (e : AdderEvent)
    (hp : p e) : AdderEmits p a (a.record e) :=
  ⟨[e], rfl, by simpa using hp⟩

theorem AdderEmits.attempt (p : AdderEvent → Prop) (a : LibraryTracksAdder) :
    AdderEmits p a a.attempt.2 :=
  AdderEmits.of_log_eq (attempt_log a)

theorem addRelationship_emits (p : AdderEvent → Prop) (a : LibraryTracksAdder)
    (firstId secondId : Int) (table : QString)
    (h : ∀ ok, p (AdderEvent.insertRelationship table firstId secondId ok)) :
    AdderEmits p a (addRelationship a firstId secondId table) :=
  (AdderEmits.attempt p a).append (AdderEmits.record _ _ (h _))

theorem addArtistOrGenre_emits (p : AdderEvent → Prop) (a : LibraryTracksAdder)
    (title : QString) (which : TitleTable)
    (h : ∀ ok, p (AdderEvent.insertArtistOrGenre (a.titles which).table title ok)) :
    AdderEmits p a (addArtistOrGenre a title which).2 := by
  have h0 : AdderEmits p a (a.attempt.2.record
      (AdderEvent.insertArtistOrGenre (a.titles which).table title a.attempt.1)) :=
    (AdderEmits.attempt p a).append (AdderEmits.record _ _ (h _))
  unfold addArtistOrGenre
  simp only []
  split
  · exact h0
  · exact h0.append (AdderEmits.of_log_eq (by simp))

theorem getArtistOrGenreId_emits (p : AdderEvent → Prop) (a : LibraryTracksAdder)
    (title : QString) (which : TitleTable)
    (h₁ : ∀ ok, p (AdderEvent.insertArtistOrGenre (a.titles which).table title ok))
    (h₂ : ∀ r, p (AdderEvent.resolvedArtistOrGenre which title r)) :
    AdderEmits p a (getArtistOrGenreId a title which).2 := by
  have hcore : AdderEmits p a (getArtistOrGenreIdCore a title which).2 := by
    unfold getArtistOrGenreIdCore
    split
    · exact AdderEmits.nothing _ _
    · split
      · exact addArtistOrGenre_emits p a title which h₁
      · exact AdderEmits.nothing _ _
  exact hcore.append (AdderEmits.record _ _ (h₂ _))

/-! ## The lookup tables only grow -/

theorem LookupTablesKept.same (a : LibraryTracksAdder) : LookupTablesKept a a :=
  ⟨fun _ _ _ h => h, fun _ _ h => h, fun _ => rfl⟩

theorem LookupTablesKept.andThen {a₁ a₂ a₃ : LibraryTracksAdder}
    (h₁ : LookupTablesKept a₁ a₂) (h₂ : LookupTablesKept a₂ a₃) : LookupTablesKept a₁ a₃ :=
  ⟨fun w t i h => h₂.1 w t i (h₁.1 w t i h), fun k i h => h₂.2.1 k i (h₁.2.1 k i h),
    fun w => (h₂.2.2 w).trans (h₁.2.2 w)⟩

theorem LookupTablesKept.of_eq {a a' : LibraryTracksAdder}
    (ht : ∀ which, a'.titles which = a.titles which) (ha : a'.mAlbums = a.mAlbums) :
    LookupTablesKept a a' :=
  ⟨fun w t i h => by rw [ht]; exact h, fun k i h => by rw [ha]; exact h,
    fun w => by rw [ht]⟩

theorem addRelationship_titles (a : LibraryTracksAdder) (firstId secondId : Int)
    (table : QString) (which : TitleTable) :
    (addRelationship a firstId secondId table).titles which = a.titles which := by
  simp [addRelationship]

theorem addRelationship_mAlbums (a : LibraryTracksAdder) (firstId secondId : Int)
    (table : QString) : (addRelationship a firstId secondId table).mAlbums = a.mAlbums := by
  simp [addRelationship]

theorem addRelationship_mLastTrackId (a : LibraryTracksAdder) (firstId secondId : Int)
    (table : QString) :
    (addRelationship a firstId secondId table).mLastTrackId = a.mLastTrackId := by
  simp [addRelationship]

theorem addRelationship_kept (a : LibraryTracksAdder) (firstId secondId : Int)
    (table : QString) : LookupTablesKept a (addRelationship a firstId secondId table) :=
  LookupTablesKept.of_eq (addRelationship_titles a firstId secondId table)
    (addRelationship_mAlbums a firstId secondId table)

theorem addArtistOrGenre_kept (a : LibraryTracksAdder) (title : QString) (which : TitleTable) :
    LookupTablesKept a (addArtistOrGenre a title which).2 := by
  unfold addArtistOrGenre
  simp only []
  split
  · exact LookupTablesKept.of_eq (by simp) (by simp)
  · refine ⟨?_, ?_, ?_⟩
    · intro w t i h
      by_cases hw : w = which
      · subst hw
        rw [setTitles_titles_same]
        exact mapFind_mapInsert_of_some _ _ _ _ _ h
      · rw [setTitles_titles_other _ _ _ _ hw]
        simpa using h
    · intro k i h
      simpa using h
    · intro w
      by_cases hw : w = which
      · subst hw
        rw [setTitles_titles_same]
      · rw [setTitles_titles_other _ _ _ _ hw]
        simp

theorem getArtistOrGenreIdCore_kept (a : LibraryTracksAdder) (title : QString)
    (which : TitleTable) : LookupTablesKept a (getArtistOrGenreIdCore a title which).2 := by
  unfold getArtistOrGenreIdCore
  split
  · exact LookupTablesKept.same a
  · split
    · exact addArtistOrGenre_kept a title which
    · exact LookupTablesKept.same a

theorem getArtistOrGenreId_kept (a : LibraryTracksAdder) (title : QString)
    (which : TitleTable) : LookupTablesKept a (getArtistOrGenreId a title which).2 :=
  (getArtistOrGenreIdCore_kept a title which).andThen
    (LookupTablesKept.of_eq (fun w => record_titles _ _ w) (record_mAlbums _ _))

theorem addAlbumArtists_fields (albumId : Int) (artistIds : List Int) (a : LibraryTracksAdder) :
    (∀ which, (addAlbumArtists albumId artistIds a).titles which = a.titles which) ∧
    (addAlbumArtists albumId artistIds a).mAlbums = a.mAlbums ∧
    (addAlbumArtists albumId artistIds a).mLastTrackId = a.mLastTrackId := by
  induction artistIds generalizing a with
  | nil => exact ⟨fun _ => rfl, rfl, rfl⟩
  | cons i rest ih =>
    unfold addAlbumArtists
    obtain ⟨h1, h2, h3⟩ := ih (addRelationship a albumId i "albums_artists".toList)
    exact ⟨fun w => (h1 w).trans (addRelationship_titles _ _ _ _ w),
      h2.trans (addRelationship_mAlbums _ _ _ _), h3.trans (addRelationship_mLastTrackId _ _ _ _)⟩

@[simp] theorem setAlbums_titles (a : LibraryTracksAdder) (albums : Albums)
    (which : TitleTable) : (a.setAlbums albums).titles which = a.titles which := by
  cases which <;> rfl

@[simp] theorem setAlbums_log (a : LibraryTracksAdder) (albums : Albums) :
    (a.setAlbums albums).log = a.log := rfl

@[simp] theorem setAlbums_mAlbums (a : LibraryTracksAdder) (albums : Albums) :
    (a.setAlbums albums).mAlbums = albums := rfl

@[simp] theorem setAlbums_mLastTrackId (a : LibraryTracksAdder) (albums : Albums) :
    (a.setAlbums albums).mLastTrackId = a.mLastTrackId := rfl

/-- What a successful or failed `addAlbum` leaves in the tables. -/
theorem addAlbum_fields (a : LibraryTracksAdder) (title : QString) (artistIds : List Int) :
    (∀ which, (addAlbum a title artistIds).2.titles which = a.titles which) ∧
    (addAlbum a title artistIds).2.mLastTrackId = a.mLastTrackId ∧
    (a.attempt.1 = false →
      (addAlbum a title artistIds).1 = 0 ∧ (addAlbum a title artistIds).2.mAlbums = a.mAlbums) ∧
    (a.attempt.1 = true →
      (addAlbum a title artistIds).1 = a.mAlbums.lastId + 1 ∧
      (addAlbum a title artistIds).2.mAlbums =
        { ids := albumInsert a.mAlbums.ids (title, artistIds) (a.mAlbums.lastId + 1)
          lastId := a.mAlbums.lastId + 1 }) := by
  obtain ⟨h1, h2, h3⟩ := addAlbumArtists_fields (a.mAlbums.lastId + 1) artistIds
    ((a.attempt.2.record (AdderEvent.insertAlbum title a.attempt.1)).setAlbums
      { a.mAlbums with lastId := a.mAlbums.lastId + 1 })
  unfold addAlbum
  simp only [record_mAlbums, attempt_mAlbums] at h1 h2 h3 ⊢
  cases hok : a.attempt.1 with
  | false => simp
  | true =>
    simp only [Bool.not_true, Bool.false_eq_true, if_false]
    refine ⟨?_, ?_, fun h => absurd h (by decide), fun _ => ⟨trivial, ?_⟩⟩
    · intro w
      rw [hok] at h1
      rw [setAlbums_titles, h1]
      simp
    · rw [hok] at h3
      rw [setAlbums_mLastTrackId, h3]
      simp
    · rw [hok] at h2
      rw [setAlbums_mAlbums, h2]
      simp

theorem addAlbum_kept (a : LibraryTracksAdder) (title : QString) (artistIds : List Int) :
    LookupTablesKept a (addAlbum a title artistIds).2 := by
  obtain ⟨ht, -, hf, hs⟩ := addAlbum_fields a title artistIds
  cases hok : a.attempt.1 with
  | false => exact LookupTablesKept.of_eq ht (hf hok).2
  | true =>
    refine ⟨fun w t i h => by rw [ht]; exact h, ?_, fun w => by rw [ht]⟩
    intro k i h
    rw [(hs hok).2]
    exact albumFind_albumInsert_of_some _ _ _ _ _ h

theorem getAlbumIdCore_kept (a : LibraryTracksAdder) (title : QString) (artistIds : List Int) :
    LookupTablesKept a (getAlbumIdCore a title artistIds).2 := by
  unfold getAlbumIdCore
  split
  · exact LookupTablesKept.same a
  · split
    · exact addAlbum_kept a title artistIds
    · exact LookupTablesKept.same a

theorem getAlbumId_kept (a : LibraryTracksAdder) (title : QString) (artistIds : List Int) :
    LookupTablesKept a (getAlbumId a title artistIds).2 :=
  (getAlbumIdCore_kept a title artistIds).andThen
    (LookupTablesKept.of_eq (fun w => record_titles _ _ w) (record_mAlbums _ _))

/-! ## Resolving a title -/

/-- What a successful or failed `addArtistOrGenre` leaves in the tables. -/
theorem addArtistOrGenre_fields (a : LibraryTracksAdder) (title : QString)
    (which : TitleTable) :
    (addArtistOrGenre a title which).2.mAlbums = a.mAlbums ∧
    (addArtistOrGenre a title which).2.mLastTrackId = a.mLastTrackId ∧
    (∀ other, other ≠ which →
      (addArtistOrGenre a title which).2.titles other = a.titles other) ∧
    (a.attempt.1 = false →
      (addArtistOrGenre a title which).1 = 0 ∧
      (addArtistOrGenre a title which).2.titles which = a.titles which) ∧
    (a.attempt.1 = true →
      (addArtistOrGenre a title which).1 = (a.titles which).lastId + 1 ∧
      (addArtistOrGenre a title which).2.titles which =
        { table := (a.titles which).table
          ids := mapInsert (a.titles which).ids title ((a.titles which).lastId + 1)
          lastId := (a.titles which).lastId + 1 }) := by
  unfold addArtistOrGenre
  cases hok : a.attempt.1 with
  | false => simp [hok]
  | true =>
    simp only [hok, Bool.not_true, Bool.false_eq_true, if_false]
    refine ⟨by simp, by simp, ?_, fun h => absurd h (by decide), fun _ => ⟨by trivial, ?_⟩⟩
    · intro other hne
      rw [setTitles_titles_other _ _ _ _ hne]
      simp
    · rw [setTitles_titles_same]

/-- The log of `addArtistOrGenre`: one attempted insert. -/
theorem addArtistOrGenre_log (a : LibraryTracksAdder) (title : QString) (which : TitleTable) :
    (addArtistOrGenre a title which).2.log =
      a.log ++ [AdderEvent.insertArtistOrGenre (a.titles which).table title a.attempt.1] := by
  unfold addArtistOrGenre
  simp only []
  split <;> simp

theorem linkArtists_emits (p : AdderEvent → Prop) (trackId : Int) (artists : List QString)
    (a : LibraryTracksAdder)
    (hI : ∀ tbl t ok, p (AdderEvent.insertArtistOrGenre tbl t ok))
    (hR : ∀ tbl t r, p (AdderEvent.resolvedArtistOrGenre tbl t r))
    (hL : ∀ tbl f s ok, s ≠ 0 → p (AdderEvent.insertRelationship tbl f s ok)) :
    AdderEmits p a (linkArtists trackId artists a) := by
  induction artists generalizing a with
  | nil => exact AdderEmits.nothing _ _
  | cons artist rest ih =>
    unfold linkArtists
    simp only []
    refine AdderEmits.append ?_ (ih _)
    have h1 : AdderEmits p a (getArtistId a artist).2 :=
      getArtistOrGenreId_emits p a artist TitleTable.artists (hI _ _) (hR _ _)
    split
    · rename_i hne
      exact h1.append (addRelationship_emits p _ _ _ _ (fun ok => hL _ _ _ ok (by simpa using hne)))
    · exact h1

theorem linkGenres_emits (p : AdderEvent → Prop) (trackId : Int) (genres : List QString)
    (a : LibraryTracksAdder)
    (hI : ∀ tbl t ok, p (AdderEvent.insertArtistOrGenre tbl t ok))
    (hR : ∀ tbl t r, p (AdderEvent.resolvedArtistOrGenre tbl t r))
    (hL : ∀ tbl f s ok, s ≠ 0 → p (AdderEvent.insertRelationship tbl f s ok)) :
    AdderEmits p a (linkGenres trackId genres a) := by
  induction genres generalizing a with
  | nil => exact AdderEmits.nothing _ _
  | cons genre rest ih =>
    unfold linkGenres
    simp only []
    refine AdderEmits.append ?_ (ih _)
    have h1 : AdderEmits p a (getGenreId a genre).2 :=
      getArtistOrGenreId_emits p a genre TitleTable.genres (hI _ _) (hR _ _)
    split
    · rename_i hne
      exact h1.append (addRelationship_emits p _ _ _ _ (fun ok => hL _ _ _ ok (by simpa using hne)))
    · exact h1

theorem resolveAlbumArtists_emits (p : AdderEvent → Prop) (albumArtists : List QString)
    (artistIds : List Int) (a : LibraryTracksAdder)
    (hI : ∀ tbl t ok, p (AdderEvent.insertArtistOrGenre tbl t ok))
    (hR : ∀ tbl t r, p (AdderEvent.resolvedArtistOrGenre tbl t r)) :
    AdderEmits p a (resolveAlbumArtists albumArtists artistIds a).2 := by
  induction albumArtists generalizing a artistIds with
  | nil => exact AdderEmits.nothing _ _
  | cons x rest ih =>
    unfold resolveAlbumArtists
    simp only []
    exact AdderEmits.append
      (getArtistOrGenreId_emits p a x TitleTable.artists (hI _ _) (hR _ _)) (ih _ _)

theorem resolveAlbumArtists_nonzero (albumArtists : List QString) (artistIds : List Int)
    (a : LibraryTracksAdder) (h : ∀ i ∈ artistIds, i ≠ 0) :
    ∀ i ∈ (resolveAlbumArtists albumArtists artistIds a).1, i ≠ 0 := by
  induction albumArtists generalizing a artistIds with
  | nil => exact h
  | cons x rest ih =>
    unfold resolveAlbumArtists
    simp only []
    apply ih
    split
    · rename_i hne
      intro i hi
      rcases List.mem_append.mp hi with h1 | h1
      · exact h i h1
      · have : i = (getArtistId a x).1 := by simpa using h1
        rw [this]
        simpa using hne
    · exact h

theorem albumArtistIds_nonzero (a : LibraryTracksAdder) (artists albumArtists : List QString) :
    ∀ i ∈ (albumArtistIds a artists albumArtists).1, i ≠ 0 := by
  intro i hi
  unfold albumArtistIds at hi
  simp only [] at hi
  have hperm := List.perm_insertionSort (fun x y : Int => x ≤ y)
    (resolveAlbumArtists (promoteFirstArtist artists albumArtists) [] a).1
  exact resolveAlbumArtists_nonzero _ [] a (by simp) i (hperm.subset hi)

theorem albumArtistIds_sorted (a : LibraryTracksAdder) (artists albumArtists : List QString) :
    List.Sorted (fun x y : Int => x ≤ y) (albumArtistIds a artists albumArtists).1 := by
  unfold albumArtistIds
  exact List.sorted_insertionSort _ _

theorem addAlbumArtists_emits (p : AdderEvent → Prop) (albumId : Int) (artistIds : List Int)
    (a : LibraryTracksAdder)
    (hL : ∀ tbl f s ok, s ≠ 0 → p (AdderEvent.insertRelationship tbl f s ok))
    (hS : ∀ i ∈ artistIds, i ≠ 0) :
    AdderEmits p a (addAlbumArtists albumId artistIds a) := by
  induction artistIds generalizing a with
  | nil => exact AdderEmits.nothing _ _
  | cons i rest ih =>
    unfold addAlbumArtists
    exact AdderEmits.append
      (addRelationship_emits p a _ _ _ (fun ok => hL _ _ _ ok (hS i (List.mem_cons_self _ _))))
      (ih _ (fun j hj => hS j (List.mem_cons_of_mem _ hj)))

theorem addAlbum_emits (p : AdderEvent → Prop) (a : LibraryTracksAdder) (title : QString)
    (artistIds : List Int)
    (hA : ∀ ok, p (AdderEvent.insertAlbum title ok))
    (hL : ∀ tbl f s ok, s ≠ 0 → p (AdderEvent.insertRelationship tbl f s ok))
    (hS : ∀ i ∈ artistIds, i ≠ 0) :
    AdderEmits p a (addAlbum a title artistIds).2 := by
  have h0 : AdderEmits p a (a.attempt.2.record (AdderEvent.insertAlbum title a.attempt.1)) :=
    (AdderEmits.attempt p a).append (AdderEmits.record _ _ (hA _))
  unfold addAlbum
  simp only []
  split
  · exact h0
  · have h1 : AdderEmits p (a.attempt.2.record (AdderEvent.insertAlbum title a.attempt.1))
        ((a.attempt.2.record (AdderEvent.insertAlbum title a.attempt.1)).setAlbums
          { a.mAlbums with lastId := a.mAlbums.lastId + 1 }) :=
      AdderEmits.of_log_eq (setAlbums_log _ _)
    have h2 := addAlbumArtists_emits p (a.mAlbums.lastId + 1) artistIds
      ((a.attempt.2.record (AdderEvent.insertAlbum title a.attempt.1)).setAlbums
        { a.mAlbums with lastId := a.mAlbums.lastId + 1 }) hL hS
    simp only [record_mAlbums, attempt_mAlbums]
    exact ((h0.append h1).append h2).append (AdderEmits.of_log_eq (setAlbums_log _ _))

theorem getAlbumId_emits (p : AdderEvent → Prop) (a : LibraryTracksAdder) (title : QString)
    (artistIds : List Int)
    (hA : ∀ ok, p (AdderEvent.insertAlbum title ok))
    (hL : ∀ tbl f s ok, s ≠ 0 → p (AdderEvent.insertRelationship tbl f s ok))
    (hK : ∀ r, p (AdderEvent.resolvedAlbum title artistIds r))
    (hS : ∀ i ∈ artistIds, i ≠ 0) :
    AdderEmits p a (getAlbumId a title artistIds).2 := by
  have hcore : AdderEmits p a (getAlbumIdCore a title artistIds).2 := by
    unfold getAlbumIdCore
    split
    · exact AdderEmits.nothing _ _
    · split
      · exact addAlbum_emits p a title artistIds hA hL hS
      · exact AdderEmits.nothing _ _
  exact hcore.append (AdderEmits.record _ _ (hK _))

theorem linkAlbums_emits (p : AdderEvent → Prop) (trackId : Int) (artistIds : List Int)
    (albums : List QString) (a : LibraryTracksAdder)
    (hA : ∀ t ok, p (AdderEvent.insertAlbum t ok))
    (hL : ∀ tbl f s ok, s ≠ 0 → p (AdderEvent.insertRelationship tbl f s ok))
    (hK : ∀ t r, p (AdderEvent.resolvedAlbum t artistIds r))
    (hS : ∀ i ∈ artistIds, i ≠ 0) :
    AdderEmits p a (linkAlbums trackId artistIds albums a) := by
  induction albums generalizing a with
  | nil => exact AdderEmits.nothing _ _
  | cons album rest ih =>
    unfold linkAlbums
    simp only []
    refine AdderEmits.append ?_ (ih _)
    have h1 := getAlbumId_emits p a album artistIds (hA _) hL (hK _) hS
    split
    · rename_i hne
      exact h1.append (addRelationship_emits p _ _ _ _ (fun ok => hL _ _ _ ok (by simpa using hne)))
    · exact h1

theorem linkArtists_kept (trackId : Int) (artists : List QString) (a : LibraryTracksAdder) :
    LookupTablesKept a (linkArtists trackId artists a) ∧
    (linkArtists trackId artists a).mLastTrackId = a.mLastTrackId := by
  induction artists generalizing a with
  | nil => exact ⟨LookupTablesKept.same a, rfl⟩
  | cons artist rest ih =>
    unfold linkArtists
    simp only []
    have h1 := getArtistOrGenreId_kept a artist TitleTable.artists
    have h1' : (getArtistId a artist).2.mLastTrackId = a.mLastTrackId := by
      unfold getArtistId getArtistOrGenreId getArtistOrGenreIdCore
      simp only [record_mLastTrackId]
      split
      · rfl
      · split
        · exact (addArtistOrGenre_fields a artist TitleTable.artists).2.1
        · rfl
    split
    · obtain ⟨h2, h3⟩ := ih (addRelationship (getArtistId a artist).2 trackId
        (getArtistId a artist).1 "tracks_artists".toList)
      exact ⟨(h1.andThen (addRelationship_kept _ _ _ _)).andThen h2,
        h3.trans ((addRelationship_mLastTrackId _ _ _ _).trans h1')⟩
    · obtain ⟨h2, h3⟩ := ih (getArtistId a artist).2
      exact ⟨h1.andThen h2, h3.trans h1'⟩

theorem linkGenres_kept (trackId : Int) (genres : List QString) (a : LibraryTracksAdder) :
    LookupTablesKept a (linkGenres trackId genres a) := by
  induction genres generalizing a with
  | nil => exact LookupTablesKept.same a
  | cons genre rest ih =>
    unfold linkGenres
    simp only []
    have h1 := getArtistOrGenreId_kept a genre TitleTable.genres
    split
    · exact (h1.andThen (addRelationship_kept _ _ _ _)).andThen (ih _)
    · exact h1.andThen (ih _)

theorem resolveAlbumArtists_kept (albumArtists : List QString) (artistIds : List Int)
    (a : LibraryTracksAdder) :
    LookupTablesKept a (resolveAlbumArtists albumArtists artistIds a).2 := by
  induction albumArtists generalizing a artistIds with
  | nil => exact LookupTablesKept.same a
  | cons x rest ih =>
    unfold resolveAlbumArtists
    simp only []
    exact (getArtistOrGenreId_kept a x TitleTable.artists).andThen (ih _ _)

theorem linkAlbums_kept (trackId : Int) (artistIds : List Int) (albums : List QString)
    (a : LibraryTracksAdder) : LookupTablesKept a (linkAlbums trackId artistIds albums a) := by
  induction albums generalizing a with
  | nil => exact LookupTablesKept.same a
  | cons album rest ih =>
    unfold linkAlbums
    simp only []
    have h1 := getAlbumId_kept a album artistIds
    split
    · exact (h1.andThen (addRelationship_kept _ _ _ _)).andThen (ih _)
    · exact h1.andThen (ih _)

theorem linkAlbumsOfTrack_kept (trackId : Int) (artists : List QString) (info : Info)
    (a : LibraryTracksAdder) : LookupTablesKept a (linkAlbumsOfTrack trackId artists info a) := by
  unfold linkAlbumsOfTrack
  split
  · simp only []
    unfold albumArtistIds
    exact (resolveAlbumArtists_kept _ _ a).andThen (linkAlbums_kept _ _ _ _)
  · exact LookupTablesKept.same a

/-- Adding a track keeps every entry of the lookup tables. -/
theorem addTrackToDatabase_kept (a : LibraryTracksAdder) (filePath : QString)
    (modificationTime : Int) (info : Info) :
    LookupTablesKept a (addTrackToDatabase a filePath modificationTime info) := by
  have h0 : LookupTablesKept a (a.attempt.2.record
      (AdderEvent.insertTrack filePath modificationTime info.title a.attempt.1)) :=
    LookupTablesKept.of_eq (by simp) (by simp)
  unfold addTrackToDatabase
  simp only []
  split
  · exact h0
  · have h1 : LookupTablesKept
        (a.attempt.2.record (AdderEvent.insertTrack filePath modificationTime info.title a.attempt.1))
        ((a.attempt.2.record
            (AdderEvent.insertTrack filePath modificationTime info.title a.attempt.1)).setLastTrackId
          ((a.attempt.2.record
            (AdderEvent.insertTrack filePath modificationTime info.title a.attempt.1)).mLastTrackId + 1)) :=
      LookupTablesKept.of_eq (fun w => setLastTrackId_titles _ _ w) rfl
    exact (((h0.andThen h1).andThen (linkArtists_kept _ _ _).1).andThen
      (linkAlbumsOfTrack_kept _ _ _ _)).andThen (linkGenres_kept _ _ _)

theorem linkAlbumsOfTrack_emits (p : AdderEvent → Prop) (trackId : Int)
    (artists : List QString) (info : Info) (a : LibraryTracksAdder)
    (hI : ∀ tbl t ok, p (AdderEvent.insertArtistOrGenre tbl t ok))
    (hR : ∀ tbl t r, p (AdderEvent.resolvedArtistOrGenre tbl t r))
    (hL : ∀ tbl f s ok, s ≠ 0 → p (AdderEvent.insertRelationship tbl f s ok))
    (hA : ∀ t ok, p (AdderEvent.insertAlbum t ok))
    (hK : ∀ t r, p (AdderEvent.resolvedAlbum t (albumArtistIds a artists info.albumArtists).1 r)) :
    AdderEmits p a (linkAlbumsOfTrack trackId artists info a) := by
  unfold linkAlbumsOfTrack
  split
  · simp only []
    have h1 : AdderEmits p a (albumArtistIds a artists info.albumArtists).2 := by
      unfold albumArtistIds
      exact resolveAlbumArtists_emits p _ _ a hI hR
    exact h1.append (linkAlbums_emits p trackId _ info.albums _ hA hL hK
      (albumArtistIds_nonzero a artists info.albumArtists))
  · exact AdderEmits.nothing _ _

/-- What `addTrackToDatabase` appends to the log: relationship rows only with
a non-zero second id, album resolutions only with a sorted key without 0. -/
theorem addTrackToDatabase_emits (p : AdderEvent → Prop) (a : LibraryTracksAdder)
    (filePath : QString) (modificationTime : Int) (info : Info)
    (hT : ∀ ok, p (AdderEvent.insertTrack filePath modificationTime info.title ok))
    (hI : ∀ tbl t ok, p (AdderEvent.insertArtistOrGenre tbl t ok))
    (hR : ∀ tbl t r, p (AdderEvent.resolvedArtistOrGenre tbl t r))
    (hL : ∀ tbl f s ok, s ≠ 0 → p (AdderEvent.insertRelationship tbl f s ok))
    (hA : ∀ t ok, p (AdderEvent.insertAlbum t ok))
    (hK : ∀ t artistIds r, (∀ i ∈ artistIds, i ≠ 0) →
      List.Sorted (fun x y : Int => x ≤ y) artistIds →
      p (AdderEvent.resolvedAlbum t artistIds r)) :
    AdderEmits p a (addTrackToDatabase a filePath modificationTime info) := by
  have h0 : AdderEmits p a (a.attempt.2.record
      (AdderEvent.insertTrack filePath modificationTime info.title a.attempt.1)) :=
    (AdderEmits.attempt p a).append (AdderEmits.record _ _ (hT _))
  unfold addTrackToDatabase
  simp only []
  split
  · exact h0
  · have h1 : AdderEmits p
        (a.attempt.2.record (AdderEvent.insertTrack filePath modificationTime info.title a.attempt.1))
        ((a.attempt.2.record
            (AdderEvent.insertTrack filePath modificationTime info.title a.attempt.1)).setLastTrackId
          ((a.attempt.2.record
            (AdderEvent.insertTrack filePath modificationTime info.title a.attempt.1)).mLastTrackId + 1)) :=
      AdderEmits.of_log_eq rfl
    refine (((h0.append h1).append (linkArtists_emits p _ _ _ hI hR hL)).append
      (linkAlbumsOfTrack_emits p _ _ info _ hI hR hL hA ?_)).append
      (linkGenres_emits p _ _ _ hI hR hL)
    intro t r
    exact hK t _ r (albumArtistIds_nonzero _ _ _) (albumArtistIds_sorted _ _ _)

/-! ## The deduplicator claims -/

/-- C12. Resolving an empty title, as artist, genre or album, returns 0 and
leaves the adder as it was but for the record of the call: no insert, the
lookup tables and last ids unchanged. And every relationship row
`addTrackToDatabase` inserts has a non-zero second id: none is inserted for an
entity resolved to 0. -/
theorem empty_title_resolves_to_zero (a : LibraryTracksAdder) (which : TitleTable)
    (artistIds : List Int) (filePath : QString) (modificationTime : Int) (info : Info) :
    getArtistOrGenreId a [] which =
      (0, a.record (AdderEvent.resolvedArtistOrGenre which [] 0)) ∧
    getAlbumId a [] artistIds = (0, a.record (AdderEvent.resolvedAlbum [] artistIds 0)) ∧
    AdderEmits (fun e => e.linksToZero = false) a
      (addTrackToDatabase a filePath modificationTime info) := by
  refine ⟨rfl, rfl, ?_⟩
  apply addTrackToDatabase_emits
  · intro ok; rfl
  · intro tbl t ok; rfl
  · intro tbl t r; rfl
  · intro tbl f s ok hs
    simpa [AdderEvent.linksToZero] using hs
  · intro t ok; rfl
  · intro t S r _ _; rfl

/-- The log of a call that finds the title in the table. -/
theorem getArtistOrGenreId_found (a : LibraryTracksAdder) (title : QString)
    (which : TitleTable) (id : Int) (ht : title ≠ [])
    (h : mapFind (a.titles which).ids title = some id) :
    getArtistOrGenreId a title which =
      (id, a.record (AdderEvent.resolvedArtistOrGenre which title id)) := by
  unfold getArtistOrGenreId getArtistOrGenreIdCore
  have : title.isEmpty = false := by
    cases title with
    | nil => exact absurd rfl ht
    | cons c cs => rfl
  simp [this, h]

/-- C13. A non-empty title absent from its table, with the insert succeeding:
`getArtistOrGenreId` executes one insert, returns the last id plus one, makes
it the last id and records the title with it. In every later state of the
adder, one that kept the entries, the call returns the same id without an
insert; adding a track leads to such a state again. -/
theorem new_title_gets_next_id (a : LibraryTracksAdder) (title : QString) (which : TitleTable)
    (ht : title ≠ [])
    (habsent : mapFind (a.titles which).ids title = none)
    (hok : a.attempt.1 = true) :
    (getArtistOrGenreId a title which).1 = (a.titles which).lastId + 1 ∧
    (getArtistOrGenreId a title which).2.log = a.log ++
      [AdderEvent.insertArtistOrGenre (a.titles which).table title true,
       AdderEvent.resolvedArtistOrGenre which title
         ((a.titles which).lastId + 1)] ∧
    ((getArtistOrGenreId a title which).2.titles which).lastId = (a.titles which).lastId + 1 ∧
    mapFind ((getArtistOrGenreId a title which).2.titles which).ids title =
      some ((a.titles which).lastId + 1) ∧
    ∀ a', LookupTablesKept (getArtistOrGenreId a title which).2 a' →
      getArtistOrGenreId a' title which =
        ((a.titles which).lastId + 1,
          a'.record (AdderEvent.resolvedArtistOrGenre which title
            ((a.titles which).lastId + 1))) ∧
      ∀ filePath modificationTime info, LookupTablesKept (getArtistOrGenreId a title which).2
        (addTrackToDatabase a' filePath modificationTime info) := by
  have hempty : title.isEmpty = false := by
    cases title with
    | nil => exact absurd rfl ht
    | cons c cs => rfl
  obtain ⟨-, -, -, -, hs⟩ := addArtistOrGenre_fields a title which
  obtain ⟨hid, htab⟩ := hs hok
  have hlog := addArtistOrGenre_log a title which
  have hcore : getArtistOrGenreIdCore a title which = addArtistOrGenre a title which := by
    unfold getArtistOrGenreIdCore
    simp [hempty, habsent]
  have hres : (getArtistOrGenreId a title which).1 = (a.titles which).lastId + 1 := by
    unfold getArtistOrGenreId
    simp only [hcore]
    exact hid
  have htitles : (getArtistOrGenreId a title which).2.titles which =
      { table := (a.titles which).table
        ids := mapInsert (a.titles which).ids title ((a.titles which).lastId + 1)
        lastId := (a.titles which).lastId + 1 } := by
    unfold getArtistOrGenreId
    simp only [hcore, record_titles]
    exact htab
  have hfind : mapFind ((getArtistOrGenreId a title which).2.titles which).ids title =
      some ((a.titles which).lastId + 1) := by
    rw [htitles]
    exact mapFind_mapInsert_self _ _ _ habsent
  refine ⟨hres, ?_, by rw [htitles], hfind, ?_⟩
  · unfold getArtistOrGenreId
    simp only [hcore, record_log, hlog, hok, hid]
    simp
  · intro a' hkept
    have hfind' := hkept.1 which title _ hfind
    refine ⟨?_, fun fp mt info => hkept.andThen (addTrackToDatabase_kept a' fp mt info)⟩
    rw [getArtistOrGenreId_found a' title which _ ht hfind']

/-- Witness of C13: the artist X in an adder with empty tables. -/
theorem new_title_gets_next_id_witness :
    (getArtistOrGenreId (blankLibraryTracksAdder 0 []) "X".toList TitleTable.artists).1 = 1 :=
  (new_title_gets_next_id (blankLibraryTracksAdder 0 []) "X".toList TitleTable.artists
    (by decide) (by decide) (by decide)).1

/-! ## Every entity of a track is resolved -/

theorem getArtistOrGenreId_log (a : LibraryTracksAdder) (title : QString) (which : TitleTable) :
    ∃ seg, (getArtistOrGenreId a title which).2.log = a.log ++ seg ∧
      AdderEvent.resolvedArtistOrGenre which title
        (getArtistOrGenreId a title which).1 ∈ seg := by
  obtain ⟨seg, hseg, -⟩ := getArtistOrGenreId_emits (fun _ => True) a title which
    (fun _ => trivial) (fun _ => trivial)
  have hlast : (getArtistOrGenreId a title which).2.log =
      (getArtistOrGenreIdCore a title which).2.log ++
        [AdderEvent.resolvedArtistOrGenre which title
          (getArtistOrGenreId a title which).1] := rfl
  obtain ⟨seg', hseg', -⟩ : AdderEmits (fun _ => True) a
      (getArtistOrGenreIdCore a title which).2 := by
    unfold getArtistOrGenreIdCore
    split
    · exact AdderEmits.nothing _ _
    · split
      · exact addArtistOrGenre_emits _ a title which (fun _ => trivial)
      · exact AdderEmits.nothing _ _
  refine ⟨seg' ++ [AdderEvent.resolvedArtistOrGenre which title
      (getArtistOrGenreId a title which).1], ?_, by simp⟩
  rw [hlast, hseg', List.append_assoc]

theorem getAlbumId_log (a : LibraryTracksAdder) (title : QString) (artistIds : List Int) :
    ∃ seg, (getAlbumId a title artistIds).2.log = a.log ++ seg ∧
      AdderEvent.resolvedAlbum title artistIds (getAlbumId a title artistIds).1 ∈ seg := by
  have hlast : (getAlbumId a title artistIds).2.log =
      (getAlbumIdCore a title artistIds).2.log ++
        [AdderEvent.resolvedAlbum title artistIds (getAlbumId a title artistIds).1] := rfl
  obtain ⟨seg', hseg', -⟩ : AdderEmits (fun _ => True) a
      (getAlbumIdCore a title artistIds).2 := by
    unfold getAlbumIdCore
    split
    · exact AdderEmits.nothing _ _
    · split
      · unfold addAlbum
        simp only []
        split
        · exact (AdderEmits.attempt _ a).append (AdderEmits.record _ _ trivial)
        · have h1 : AdderEmits (fun _ => True) a
              ((a.attempt.2.record (AdderEvent.insertAlbum title a.attempt.1)).setAlbums
                { a.mAlbums with lastId := a.mAlbums.lastId + 1 }) :=
            ((AdderEmits.attempt _ a).append (AdderEmits.record _ _ trivial)).append
              (AdderEmits.of_log_eq (setAlbums_log _ _))
          have h2 : ∀ (l : List Int) (x : LibraryTracksAdder),
              AdderEmits (fun _ => True) x (addAlbumArtists (a.mAlbums.lastId + 1) l x) := by
            intro l
            induction l with
            | nil => intro x; exact AdderEmits.nothing _ _
            | cons i rest ih =>
              intro x
              unfold addAlbumArtists
              exact (addRelationship_emits _ x _ _ _ (fun _ => trivial)).append (ih _)
          simp only [record_mAlbums, attempt_mAlbums]
          exact (h1.append (h2 artistIds _)).append (AdderEmits.of_log_eq (setAlbums_log _ _))
      · exact AdderEmits.nothing _ _
  refine ⟨seg' ++ [AdderEvent.resolvedAlbum title artistIds (getAlbumId a title artistIds).1],
    ?_, by simp⟩
  rw [hlast, hseg', List.append_assoc]

theorem addRelationship_log (a : LibraryTracksAdder) (firstId secondId : Int)
    (table : QString) :
    (addRelationship a firstId secondId table).log =
      a.log ++ [AdderEvent.insertRelationship table firstId secondId a.attempt.1] := by
  simp [addRelationship]

theorem linkArtists_resolves (trackId : Int) (artists : List QString) (a : LibraryTracksAdder) :
    ∃ seg, (linkArtists trackId artists a).log = a.log ++ seg ∧
      ∀ artist ∈ artists, ∃ r,
        AdderEvent.resolvedArtistOrGenre TitleTable.artists artist r ∈ seg := by
  induction artists generalizing a with
  | nil => exact ⟨[], by simp [linkArtists], by simp⟩
  | cons artist rest ih =>
    obtain ⟨seg₁, h₁, hmem⟩ := getArtistOrGenreId_log a artist TitleTable.artists
    unfold linkArtists
    simp only []
    split
    · obtain ⟨seg₂, h₂, hall⟩ := ih (addRelationship (getArtistId a artist).2 trackId
        (getArtistId a artist).1 "tracks_artists".toList)
      refine ⟨seg₁ ++ [AdderEvent.insertRelationship "tracks_artists".toList trackId
        (getArtistId a artist).1 (getArtistId a artist).2.attempt.1] ++ seg₂, ?_, ?_⟩
      · rw [h₂, addRelationship_log]
        unfold getArtistId
        rw [h₁]
        simp
      · intro x hx
        rcases List.mem_cons.mp hx with rfl | hx
        · exact ⟨_, by
            apply List.mem_append_left
            apply List.mem_append_left
            exact hmem⟩
        · obtain ⟨r, hr⟩ := hall x hx
          exact ⟨r, List.mem_append_right _ hr⟩
    · obtain ⟨seg₂, h₂, hall⟩ := ih (getArtistId a artist).2
      refine ⟨seg₁ ++ seg₂, ?_, ?_⟩
      · rw [h₂]
        unfold getArtistId
        rw [h₁, List.append_assoc]
      · intro x hx
        rcases List.mem_cons.mp hx with rfl | hx
        · exact ⟨_, List.mem_append_left _ hmem⟩
        · obtain ⟨r, hr⟩ := hall x hx
          exact ⟨r, List.mem_append_right _ hr⟩

theorem linkGenres_resolves (trackId : Int) (genres : List QString) (a : LibraryTracksAdder) :
    ∃ seg, (linkGenres trackId genres a).log = a.log ++ seg ∧
      ∀ genre ∈ genres, ∃ r,
        AdderEvent.resolvedArtistOrGenre TitleTable.genres genre r ∈ seg := by
  induction genres generalizing a with
  | nil => exact ⟨[], by simp [linkGenres], by simp⟩
  | cons genre rest ih =>
    obtain ⟨seg₁, h₁, hmem⟩ := getArtistOrGenreId_log a genre TitleTable.genres
    unfold linkGenres
    simp only []
    split
    · obtain ⟨seg₂, h₂, hall⟩ := ih (addRelationship (getGenreId a genre).2 trackId
        (getGenreId a genre).1 "tracks_genres".toList)
      refine ⟨seg₁ ++ [AdderEvent.insertRelationship "tracks_genres".toList trackId
        (getGenreId a genre).1 (getGenreId a genre).2.attempt.1] ++ seg₂, ?_, ?_⟩
      · rw [h₂, addRelationship_log]
        unfold getGenreId
        rw [h₁]
        simp
      · intro x hx
        rcases List.mem_cons.mp hx with rfl | hx
        · exact ⟨_, by
            apply List.mem_append_left
            apply List.mem_append_left
            exact hmem⟩
        · obtain ⟨r, hr⟩ := hall x hx
          exact ⟨r, List.mem_append_right _ hr⟩
    · obtain ⟨seg₂, h₂, hall⟩ := ih (getGenreId a genre).2
      refine ⟨seg₁ ++ seg₂, ?_, ?_⟩
      · rw [h₂]
        unfold getGenreId
        rw [h₁, List.append_assoc]
      · intro x hx
        rcases List.mem_cons.mp hx with rfl | hx
        · exact ⟨_, List.mem_append_left _ hmem⟩
        · obtain ⟨r, hr⟩ := hall x hx
          exact ⟨r, List.mem_append_right _ hr⟩

theorem linkAlbums_resolves (trackId : Int) (artistIds : List Int) (albums : List QString)
    (a : LibraryTracksAdder) :
    ∃ seg, (linkAlbums trackId artistIds albums a).log = a.log ++ seg ∧
      ∀ album ∈ albums, ∃ r, AdderEvent.resolvedAlbum album artistIds r ∈ seg := by
  induction albums generalizing a with
  | nil => exact ⟨[], by simp [linkAlbums], by simp⟩
  | cons album rest ih =>
    obtain ⟨seg₁, h₁, hmem⟩ := getAlbumId_log a album artistIds
    unfold linkAlbums
    simp only []
    split
    · obtain ⟨seg₂, h₂, hall⟩ := ih (addRelationship (getAlbumId a album artistIds).2 trackId
        (getAlbumId a album artistIds).1 "tracks_albums".toList)
      refine ⟨seg₁ ++ [AdderEvent.insertRelationship "tracks_albums".toList trackId
        (getAlbumId a album artistIds).1 (getAlbumId a album artistIds).2.attempt.1] ++ seg₂,
        ?_, ?_⟩
      · rw [h₂, addRelationship_log, h₁]
        simp
      · intro x hx
        rcases List.mem_cons.mp hx with rfl | hx
        · exact ⟨_, by
            apply List.mem_append_left
            apply List.mem_append_left
            exact hmem⟩
        · obtain ⟨r, hr⟩ := hall x hx
          exact ⟨r, List.mem_append_right _ hr⟩
    · obtain ⟨seg₂, h₂, hall⟩ := ih (getAlbumId a album artistIds).2
      refine ⟨seg₁ ++ seg₂, ?_, ?_⟩
      · rw [h₂, h₁, List.append_assoc]
      · intro x hx
        rcases List.mem_cons.mp hx with rfl | hx
        · exact ⟨_, List.mem_append_left _ hmem⟩
        · obtain ⟨r, hr⟩ := hall x hx
          exact ⟨r, List.mem_append_right _ hr⟩

theorem linkAlbumsOfTrack_resolves (trackId : Int) (artists : List QString) (info : Info)
    (a : LibraryTracksAdder) :
    ∃ seg, (linkAlbumsOfTrack trackId artists info a).log = a.log ++ seg ∧
      ∀ album ∈ info.albums, ∃ r,
        AdderEvent.resolvedAlbum album (albumArtistIds a artists info.albumArtists).1 r ∈ seg := by
  unfold linkAlbumsOfTrack
  split
  · simp only []
    obtain ⟨seg₁, h₁, -⟩ : AdderEmits (fun _ => True) a
        (albumArtistIds a artists info.albumArtists).2 := by
      unfold albumArtistIds
      exact resolveAlbumArtists_emits _ _ _ a (fun _ _ _ => trivial) (fun _ _ _ => trivial)
    obtain ⟨seg₂, h₂, hall⟩ := linkAlbums_resolves trackId
      (albumArtistIds a artists info.albumArtists).1 info.albums
      (albumArtistIds a artists info.albumArtists).2
    refine ⟨seg₁ ++ seg₂, by rw [h₂, h₁, List.append_assoc], ?_⟩
    intro album halbum
    obtain ⟨r, hr⟩ := hall album halbum
    exact ⟨r, List.mem_append_right _ hr⟩
  · rename_i hempty
    refine ⟨[], by simp, ?_⟩
    intro album halbum
    have : info.albums = [] := by simpa using hempty
    rw [this] at halbum
    simp at halbum

/-! ## Seeding -/

/-- C15: the code at the failing input. The queries return the rows with id 2
before the rows with id 1: each last id is 1, the maximum id is 2, and the
next artist is handed the id 2, which the artist b already has. -/
theorem seeded_last_id_is_the_last_row :
    (newLibraryTracksAdder descendingQueries 0 []).mArtists.lastId = 1 ∧
    (newLibraryTracksAdder descendingQueries 0 []).mAlbums.lastId = 1 ∧
    (newLibraryTracksAdder descendingQueries 0 []).mGenres.lastId = 1 ∧
    maxId [2, 1] = 2 ∧
    mapFind (newLibraryTracksAdder descendingQueries 0 []).mArtists.ids "b".toList = some 2 ∧
    (getArtistId (newLibraryTracksAdder descendingQueries 0 []) "c".toList).1 = 2 := by
  decide

/-- C16: the code at the failing inputs. With one album Y by the artist 5 in
the database the lookup table stays empty; with the albums A (artist 5), B
(artists 6 and 7) and C (no artist) it gets the two entries (B, [5, 6]) for
album 1 and (C, [7]) for album 2, and none for album 3. -/
theorem seeded_album_table_is_wrong :
    (getAlbums (some [{ id := 1, title := "Y".toList, artistId := 5 }])
      { ids := [], lastId := 0 }).ids = [] ∧
    (getAlbums (some [{ id := 1, title := "A".toList, artistId := 5 },
                      { id := 2, title := "B".toList, artistId := 6 },
                      { id := 2, title := "B".toList, artistId := 7 },
                      { id := 3, title := "C".toList, artistId := 0 }])
      { ids := [], lastId := 0 }).ids =
      [(("B".toList, [5, 6]), 1), (("C".toList, [7]), 2)] := by
  decide

/-- C19: the code at the failing input. The album artist X is named twice:
the album Y is resolved with the key [1, 1] and linked to the artist 1
twice. -/
theorem repeated_album_artist_is_repeated_in_key :
    AdderEvent.resolvedAlbum "Y".toList [1, 1] 1 ∈
      (addTrackToDatabase (blankLibraryTracksAdder 0 []) "/a.mp3".toList 1
        repeatedAlbumArtistInfo).log ∧
    ((addTrackToDatabase (blankLibraryTracksAdder 0 []) "/a.mp3".toList 1
        repeatedAlbumArtistInfo).log.count
      (AdderEvent.insertRelationship "albums_artists".toList 1 1 true)) = 2 := by
  decide

/-- The part of C19 that holds: every album key of `addTrackToDatabase` is
sorted and holds no 0. -/
theorem album_keys_sorted_without_zero (a : LibraryTracksAdder) (filePath : QString)
    (modificationTime : Int) (info : Info) :
    AdderEmits (fun e => ∀ t key r, e = AdderEvent.resolvedAlbum t key r →
        List.Sorted (fun x y : Int => x ≤ y) key ∧ ∀ i ∈ key, i ≠ 0) a
      (addTrackToDatabase a filePath modificationTime info) := by
  apply addTrackToDatabase_emits
  · intro ok t key r h; cases h
  · intro tbl t ok t' key r h; cases h
  · intro tbl t r t' key r' h; cases h
  · intro tbl f s ok _ t' key r h; cases h
  · intro t ok t' key r h; cases h
  · intro t key r hnz hs t' key' r' h
    cases h
    exact ⟨hs, hnz⟩

/-! ## Album keys -/

theorem addTrackToDatabase_eq (a : LibraryTracksAdder) (filePath : QString)
    (modificationTime : Int) (info : Info) (hok : a.attempt.1 = true) :
    addTrackToDatabase a filePath modificationTime info =
      linkGenres (a.mLastTrackId + 1) info.genres
        (linkAlbumsOfTrack (a.mLastTrackId + 1) (artistsOfTrack info) info
          (artistsLinked a filePath modificationTime info)) := by
  unfold addTrackToDatabase artistsLinked artistsOfTrack
  simp [hok]

theorem artistsLinked_emits (p : AdderEvent → Prop) (a : LibraryTracksAdder)
    (filePath : QString) (modificationTime : Int) (info : Info)
    (hT : p (AdderEvent.insertTrack filePath modificationTime info.title true))
    (hI : ∀ tbl t ok, p (AdderEvent.insertArtistOrGenre tbl t ok))
    (hR : ∀ tbl t r, p (AdderEvent.resolvedArtistOrGenre tbl t r))
    (hL : ∀ tbl f s ok, s ≠ 0 → p (AdderEvent.insertRelationship tbl f s ok)) :
    AdderEmits p a (artistsLinked a filePath modificationTime info) := by
  unfold artistsLinked
  have h0 : AdderEmits p a ((a.attempt.2.record
      (AdderEvent.insertTrack filePath modificationTime info.title true)).setLastTrackId
      (a.mLastTrackId + 1)) :=
    ((AdderEmits.attempt p a).append (AdderEmits.record _ _ hT)).append
      (AdderEmits.of_log_eq (setLastTrackId_log _ _))
  exact h0.append (linkArtists_emits p _ _ _ hI hR hL)

theorem promoteFirstArtist_of_nonempty (artists albumArtists : List QString)
    (h : albumArtists ≠ []) : promoteFirstArtist artists albumArtists = albumArtists := by
  unfold promoteFirstArtist
  cases albumArtists with
  | nil => exact absurd rfl h
  | cons x xs => simp

theorem artistsOfTrack_head (info : Info) (first : QString) (rest : List QString)
    (hartists : info.artists = first :: rest) (hnone : info.albumArtists = []) :
    ∃ tail, artistsOfTrack info = first :: tail := by
  unfold artistsOfTrack removeDuplicates
  rw [hartists, hnone]
  simp [removeDuplicatesAux]

/-- C20. A track with albums, no album artist and at least one artist: once
the track is inserted, the first artist is resolved again and every album of
the track is resolved with the list that holds just its id, or with the empty
list when that id is 0; no album is resolved with another list. With an album
artist present no artist is promoted. -/
theorem first_artist_is_promoted (a : LibraryTracksAdder) (filePath : QString)
    (modificationTime : Int) (info : Info) (first : QString) (rest : List QString)
    (hok : a.attempt.1 = true)
    (hartists : info.artists = first :: rest)
    (hnone : info.albumArtists = []) :
    (albumArtistIds (artistsLinked a filePath modificationTime info) (artistsOfTrack info)
        info.albumArtists).1 =
      (if (getArtistId (artistsLinked a filePath modificationTime info) first).1 != 0 then
        [(getArtistId (artistsLinked a filePath modificationTime info) first).1]
      else []) ∧
    (∃ seg, (addTrackToDatabase a filePath modificationTime info).log = a.log ++ seg ∧
      (∀ album ∈ info.albums, ∃ r, AdderEvent.resolvedAlbum album
        (albumArtistIds (artistsLinked a filePath modificationTime info) (artistsOfTrack info)
          info.albumArtists).1 r ∈ seg) ∧
      (∀ t key r, AdderEvent.resolvedAlbum t key r ∈ seg →
        key = (albumArtistIds (artistsLinked a filePath modificationTime info)
          (artistsOfTrack info) info.albumArtists).1)) ∧
    (∀ artists albumArtists : List QString, albumArtists ≠ [] →
      promoteFirstArtist artists albumArtists = albumArtists) := by
  obtain ⟨tail, htail⟩ := artistsOfTrack_head info first rest hartists hnone
  refine ⟨?_, ?_, promoteFirstArtist_of_nonempty⟩
  · unfold albumArtistIds
    rw [htail, hnone]
    simp only [promoteFirstArtist, List.isEmpty_nil, List.isEmpty_cons, Bool.not_false,
      Bool.and_self, if_true, List.nil_append, resolveAlbumArtists]
    split <;> simp
  · rw [addTrackToDatabase_eq a filePath modificationTime info hok]
    generalize hkey : (albumArtistIds (artistsLinked a filePath modificationTime info)
      (artistsOfTrack info) info.albumArtists).1 = key
    obtain ⟨seg₁, h₁, hp₁⟩ := artistsLinked_emits
      (fun e => ∀ t k r, e = AdderEvent.resolvedAlbum t k r → k = key) a filePath
      modificationTime info (fun _ _ _ h => by cases h) (fun _ _ _ _ _ _ h => by cases h)
      (fun _ _ _ _ _ _ h => by cases h) (fun _ _ _ _ _ _ _ _ h => by cases h)
    obtain ⟨seg₂, h₂, hall⟩ := linkAlbumsOfTrack_resolves (a.mLastTrackId + 1)
      (artistsOfTrack info) info (artistsLinked a filePath modificationTime info)
    rw [hkey] at hall
    obtain ⟨seg₂', h₂', hp₂⟩ := linkAlbumsOfTrack_emits
      (fun e => ∀ t k r, e = AdderEvent.resolvedAlbum t k r → k = key) (a.mLastTrackId + 1)
      (artistsOfTrack info) info (artistsLinked a filePath modificationTime info)
      (fun _ _ _ _ _ _ h => by cases h) (fun _ _ _ _ _ _ h => by cases h)
      (fun _ _ _ _ _ _ _ _ h => by cases h) (fun _ _ _ _ _ h => by cases h)
      (fun t r t' k r' h => by cases h; exact hkey)
    have hseg : seg₂' = seg₂ := List.append_cancel_left (h₂'.symm.trans h₂)
    rw [hseg] at hp₂
    obtain ⟨seg₃, h₃, hp₃⟩ := linkGenres_emits
      (fun e => ∀ t k r, e = AdderEvent.resolvedAlbum t k r → k = key) (a.mLastTrackId + 1)
      info.genres (linkAlbumsOfTrack (a.mLastTrackId + 1) (artistsOfTrack info) info
        (artistsLinked a filePath modificationTime info))
      (fun _ _ _ _ _ _ h => by cases h) (fun _ _ _ _ _ _ h => by cases h)
      (fun _ _ _ _ _ _ _ _ h => by cases h)
    refine ⟨seg₁ ++ seg₂ ++ seg₃, ?_, ?_, ?_⟩
    · rw [h₃, h₂, h₁]
      simp
    · intro album halbum
      obtain ⟨r, hr⟩ := hall album halbum
      exact ⟨r, by simp [hr]⟩
    · intro t k r hmem
      rcases List.mem_append.mp hmem with h | h
      · rcases List.mem_append.mp h with h | h
        · exact hp₁ _ h t k r rfl
        · exact hp₂ _ h t k r rfl
      · exact hp₃ _ h t k r rfl

/-- Witness of C20: a track of the artist X with the album Y and no album
artist, added to an adder with empty tables; the key is the id of X. -/
theorem first_artist_is_promoted_witness :
    (albumArtistIds (artistsLinked (blankLibraryTracksAdder 0 []) "/a.mp3".toList 1
        { sampleInfo with artists := ["X".toList], albums := ["Y".toList] })
      (artistsOfTrack { sampleInfo with artists := ["X".toList], albums := ["Y".toList] })
      []).1 = [1] :=
  (first_artist_is_promoted (blankLibraryTracksAdder 0 []) "/a.mp3".toList 1
    { sampleInfo with artists := ["X".toList], albums := ["Y".toList] } "X".toList []
    (by decide) rfl rfl).1.trans (by decide)

/-- What holds of a new album key while the last album id bounds the ids in
use. A non-empty title with a key that is not in the album table, the
insert succeeding, in an adder whose last album id is at least every id of the
table and of the database: `getAlbumId` inserts an album row and returns the
last id plus one, which no entry of the table and no album of the database
has, whatever other keys with the same title the table holds. The new key is
recorded with that id and the last id still bounds the table. -/
theorem new_album_key_gets_fresh_id (a : LibraryTracksAdder) (title : QString)
    (artistIds : List Int) (databaseIds : List Int)
    (ht : title ≠ [])
    (habsent : albumFind a.mAlbums.ids (title, artistIds) = none)
    (hok : a.attempt.1 = true)
    (htable : ∀ key id, albumFind a.mAlbums.ids key = some id → id ≤ a.mAlbums.lastId)
    (hdatabase : ∀ id ∈ databaseIds, id ≤ a.mAlbums.lastId) :
    (getAlbumId a title artistIds).1 = a.mAlbums.lastId + 1 ∧
    AdderEvent.insertAlbum title true ∈ (getAlbumId a title artistIds).2.log ∧
    (∀ key id, albumFind a.mAlbums.ids key = some id → id ≠ (getAlbumId a title artistIds).1) ∧
    (getAlbumId a title artistIds).1 ∉ databaseIds ∧
    albumFind (getAlbumId a title artistIds).2.mAlbums.ids (title, artistIds) =
      some (a.mAlbums.lastId + 1) ∧
    (∀ key id, albumFind (getAlbumId a title artistIds).2.mAlbums.ids key = some id →
      id ≤ (getAlbumId a title artistIds).2.mAlbums.lastId) := by
  have hempty : title.isEmpty = false := by
    cases title with
    | nil => exact absurd rfl ht
    | cons c cs => rfl
  obtain ⟨-, -, -, hs⟩ := addAlbum_fields a title artistIds
  obtain ⟨hid, htab⟩ := hs hok
  have hcore : getAlbumIdCore a title artistIds = addAlbum a title artistIds := by
    unfold getAlbumIdCore
    simp [hempty, habsent]
  have hres : (getAlbumId a title artistIds).1 = a.mAlbums.lastId + 1 := by
    unfold getAlbumId
    simp only [hcore]
    exact hid
  have hal : (getAlbumId a title artistIds).2.mAlbums =
      { ids := albumInsert a.mAlbums.ids (title, artistIds) (a.mAlbums.lastId + 1)
        lastId := a.mAlbums.lastId + 1 } := by
    unfold getAlbumId
    simp only [hcore, record_mAlbums]
    exact htab
  have hlog : AdderEvent.insertAlbum title true ∈ (addAlbum a title artistIds).2.log := by
    have h0 : AdderEvent.insertAlbum title true ∈
        (a.attempt.2.record (AdderEvent.insertAlbum title a.attempt.1)).log := by
      rw [hok]; simp
    have h1 : ∀ (albumId : Int) (l : List Int) (x : LibraryTracksAdder),
        AdderEvent.insertAlbum title true ∈ x.log →
        AdderEvent.insertAlbum title true ∈ (addAlbumArtists albumId l x).log := by
      intro albumId l
      induction l with
      | nil => intro x hx; exact hx
      | cons i rest ih =>
        intro x hx
        unfold addAlbumArtists
        apply ih
        rw [addRelationship_log]
        exact List.mem_append_left _ hx
    unfold addAlbum
    simp only [hok, Bool.not_true, Bool.false_eq_true, if_false, setAlbums_log]
    apply h1
    simp
  refine ⟨hres, ?_, ?_, ?_, ?_, ?_⟩
  · unfold getAlbumId
    simp only [hcore, record_log]
    exact List.mem_append_left _ hlog
  · intro key id hfind heq
    have := htable key id hfind
    rw [heq, hres] at this
    omega
  · intro hmem
    have := hdatabase _ hmem
    rw [hres] at this
    omega
  · rw [hal]
    exact albumFind_albumInsert_self _ _ _ habsent
  · intro key id hfind
    rw [hal] at hfind ⊢
    simp only [] at hfind ⊢
    unfold albumInsert at hfind
    rw [habsent] at hfind
    simp only [albumFind_append] at hfind
    cases hk : albumFind a.mAlbums.ids key with
    | some v =>
      rw [hk] at hfind
      have := htable key v hk
      have hv : v = id := by simpa using hfind
      omega
    | none =>
      rw [hk] at hfind
      simp only [albumFind] at hfind
      split at hfind
      · have hv : a.mAlbums.lastId + 1 = id := by simpa using hfind
        omega
      · cases hfind

/-- An instance of `new_album_key_gets_fresh_id`: the album Y with the artist 2
in an adder that already has an album Y, with the artist 1 and the id 1. -/
theorem new_album_key_gets_fresh_id_witness :
    (getAlbumId ((blankLibraryTracksAdder 0 []).setAlbums
      { ids := [(("Y".toList, [1]), 1)], lastId := 1 }) "Y".toList [2]).1 = 2 :=
  (new_album_key_gets_fresh_id ((blankLibraryTracksAdder 0 []).setAlbums
      { ids := [(("Y".toList, [1]), 1)], lastId := 1 }) "Y".toList [2] [1]
    (by decide) (by decide) (by decide)
    (by
      intro key id h
      simp only [LibraryTracksAdder.setAlbums, albumFind] at h
      split at h
      · have : (1 : Int) = id := by simpa using h
        simp [LibraryTracksAdder.setAlbums, ← this]
      · cases h)
    (by decide)).1

/-! ## One album for one key -/

theorem albumFind_albumInsert_of_ne (m : List ((QString × List Int) × Int))
    (key key' : QString × List Int) (v : Int) (h : key ≠ key') :
    albumFind (albumInsert m key v) key' = albumFind m key' := by
  unfold albumInsert
  cases hf : albumFind m key with
  | some w => rfl
  | none =>
    simp only [albumFind_append, albumFind, if_neg h]
    cases albumFind m key' <;> rfl

theorem addAlbumArtists_log (albumId : Int) (artistIds : List Int) (a : LibraryTracksAdder) :
    ∃ rels, (addAlbumArtists albumId artistIds a).log = a.log ++ rels ∧
      ∀ e ∈ rels, ∃ tbl f s ok, e = AdderEvent.insertRelationship tbl f s ok := by
  induction artistIds generalizing a with
  | nil => exact ⟨[], by simp [addAlbumArtists], by simp⟩
  | cons i rest ih =>
    unfold addAlbumArtists
    obtain ⟨rels, h, hall⟩ := ih (addRelationship a albumId i "albums_artists".toList)
    refine ⟨AdderEvent.insertRelationship "albums_artists".toList albumId i a.attempt.1 :: rels,
      ?_, ?_⟩
    · rw [h, addRelationship_log]
      simp
    · intro e he
      rcases List.mem_cons.mp he with rfl | he
      · exact ⟨_, _, _, _, rfl⟩
      · exact hall e he

/-- The log and result of `getAlbumId`, by cases: the events before the record
of the call are at most one insert of an album with this title, followed by
relationship rows. -/
theorem getAlbumId_cases (a : LibraryTracksAdder) (title : QString) (artistIds : List Int) :
    ∃ core, (getAlbumId a title artistIds).2.log =
        a.log ++ core ++ [AdderEvent.resolvedAlbum title artistIds
          (getAlbumId a title artistIds).1] ∧
      (∀ e ∈ core, e = AdderEvent.insertAlbum title false ∨
        e = AdderEvent.insertAlbum title true ∨
        ∃ tbl f s ok, e = AdderEvent.insertRelationship tbl f s ok) ∧
      core.count (AdderEvent.insertAlbum title true) ≤ 1 ∧
      (∀ id, albumFind a.mAlbums.ids (title, artistIds) = some id → title ≠ [] →
        (getAlbumId a title artistIds).1 = id ∧ core = []) ∧
      ((getAlbumId a title artistIds).1 ≠ 0 → title ≠ [] ∧
        albumFind (getAlbumId a title artistIds).2.mAlbums.ids (title, artistIds) =
          some (getAlbumId a title artistIds).1) ∧
      (AdderEvent.insertAlbum title true ∈ core →
        ∃ id, albumFind (getAlbumId a title artistIds).2.mAlbums.ids (title, artistIds) =
          some id) ∧
      (∀ key id, albumFind (getAlbumId a title artistIds).2.mAlbums.ids key = some id →
        albumFind a.mAlbums.ids key = some id ∨
        (key = (title, artistIds) ∧ AdderEvent.insertAlbum title true ∈ core)) := by
  have hlast : (getAlbumId a title artistIds).2.log =
      (getAlbumIdCore a title artistIds).2.log ++
        [AdderEvent.resolvedAlbum title artistIds (getAlbumId a title artistIds).1] := rfl
  have hres : (getAlbumId a title artistIds).1 = (getAlbumIdCore a title artistIds).1 := rfl
  have hal : (getAlbumId a title artistIds).2.mAlbums =
      (getAlbumIdCore a title artistIds).2.mAlbums := rfl
  rw [hlast, hres, hal]
  cases title with
  | nil =>
    refine ⟨[], by simp [getAlbumIdCore], by simp, by simp, ?_, ?_, by simp, ?_⟩
    · intro id _ h; exact absurd rfl h
    · intro h; exact absurd rfl h
    · intro key id h
      exact Or.inl h
  | cons c cs =>
    have hempty : (c :: cs).isEmpty = false := rfl
    cases hf : albumFind a.mAlbums.ids (c :: cs, artistIds) with
    | some found =>
      have hcore : getAlbumIdCore a (c :: cs) artistIds = (found, a) := by
        unfold getAlbumIdCore
        simp [hf]
      rw [hcore]
      refine ⟨[], by simp, by simp, by simp, ?_, ?_, by simp, ?_⟩
      · intro id hid _
        exact ⟨by simpa using hid, rfl⟩
      · intro _
        exact ⟨by simp, hf⟩
      · intro key id h
        exact Or.inl h
    | none =>
      have hcore : getAlbumIdCore a (c :: cs) artistIds = addAlbum a (c :: cs) artistIds := by
        unfold getAlbumIdCore
        simp [hf]
      rw [hcore]
      obtain ⟨-, -, hfail, hsucc⟩ := addAlbum_fields a (c :: cs) artistIds
      cases hok : a.attempt.1 with
      | false =>
        have hlog : (addAlbum a (c :: cs) artistIds).2.log =
            a.log ++ [AdderEvent.insertAlbum (c :: cs) false] := by
          unfold addAlbum
          simp [hok]
        refine ⟨[AdderEvent.insertAlbum (c :: cs) false], by rw [hlog], ?_, by simp, ?_, ?_, ?_,
          ?_⟩
        · intro e he
          left
          simpa using he
        · intro id hid; cases hid
        · intro h
          exact absurd (hfail hok).1 h
        · intro h
          simp at h
        · intro key id h
          rw [(hfail hok).2] at h
          exact Or.inl h
      | true =>
        obtain ⟨rels, hrels, hall⟩ := addAlbumArtists_log (a.mAlbums.lastId + 1) artistIds
          ((a.attempt.2.record (AdderEvent.insertAlbum (c :: cs) true)).setAlbums
            { a.mAlbums with lastId := a.mAlbums.lastId + 1 })
        have hlog : (addAlbum a (c :: cs) artistIds).2.log =
            a.log ++ (AdderEvent.insertAlbum (c :: cs) true :: rels) := by
          unfold addAlbum
          simp only [hok, Bool.not_true, Bool.false_eq_true, if_false, setAlbums_log,
            record_mAlbums, attempt_mAlbums]
          rw [hrels]
          simp
        have hkey : albumFind (addAlbum a (c :: cs) artistIds).2.mAlbums.ids (c :: cs, artistIds) =
            some (a.mAlbums.lastId + 1) := by
          rw [(hsucc hok).2]
          exact albumFind_albumInsert_self _ _ _ hf
        refine ⟨AdderEvent.insertAlbum (c :: cs) true :: rels, by rw [hlog], ?_, ?_, ?_, ?_, ?_,
          ?_⟩
        · intro e he
          rcases List.mem_cons.mp he with rfl | he
          · exact Or.inr (Or.inl rfl)
          · exact Or.inr (Or.inr (hall e he))
        · rw [List.count_cons_self]
          have : rels.count (AdderEvent.insertAlbum (c :: cs) true) = 0 := by
            rw [List.count_eq_zero]
            intro hmem
            obtain ⟨tbl, f, s, ok, h⟩ := hall _ hmem
            cases h
          omega
        · intro id hid; cases hid
        · intro _
          refine ⟨by simp, ?_⟩
          rw [(hsucc hok).1]
          exact hkey
        · intro _
          exact ⟨_, hkey⟩
        · intro key id h
          by_cases hk : (c :: cs, artistIds) = key
          · exact Or.inr ⟨hk.symm, List.mem_cons_self _ _⟩
          · rw [(hsucc hok).2] at h
            simp only [] at h
            rw [albumFind_albumInsert_of_ne _ _ _ _ hk] at h
            exact Or.inl h

/-- The album loop of a track: every call uses the key of the track; a
non-zero result is in the table afterwards and the track is linked to it; a
key already in the table is found, not inserted; and an album title is
inserted successfully at most once. -/
theorem linkAlbums_facts (trackId : Int) (artistIds : List Int) (albums : List QString)
    (a : LibraryTracksAdder) :
    ∃ seg, (linkAlbums trackId artistIds albums a).log = a.log ++ seg ∧
      (∀ e ∈ seg, e.isAlbumEvent = true ∨ ∃ tbl f s ok, e = AdderEvent.insertRelationship tbl f s ok) ∧
      (∀ t k r, AdderEvent.resolvedAlbum t k r ∈ seg → k = artistIds ∧
        (r ≠ 0 → t ≠ [] ∧
          albumFind (linkAlbums trackId artistIds albums a).mAlbums.ids (t, artistIds) = some r ∧
          ∃ ok, AdderEvent.insertRelationship "tracks_albums".toList trackId r ok ∈ seg)) ∧
      (∀ t id, albumFind a.mAlbums.ids (t, artistIds) = some id → t ≠ [] →
        (∀ k r, AdderEvent.resolvedAlbum t k r ∈ seg → r = id) ∧
        AdderEvent.insertAlbum t true ∉ seg) ∧
      (∀ t, seg.count (AdderEvent.insertAlbum t true) ≤ 1) ∧
      (∀ t id, albumFind (linkAlbums trackId artistIds albums a).mAlbums.ids (t, artistIds) =
          some id →
        albumFind a.mAlbums.ids (t, artistIds) = some id ∨
        AdderEvent.insertAlbum t true ∈ seg) := by
  induction albums generalizing a with
  | nil =>
    refine ⟨[], by simp [linkAlbums], by simp, by simp, ?_, by simp, ?_⟩
    · intro t id _ _
      exact ⟨by simp, by simp⟩
    · intro t id h
      exact Or.inl h
  | cons album rest ih =>
    obtain ⟨core, hlog, hcore, hcount, hfound, hrec, hins, horigin⟩ :=
      getAlbumId_cases a album artistIds
    -- the state after the call and the optional link
    generalize hstep : (if (getAlbumId a album artistIds).1 != 0 then
        addRelationship (getAlbumId a album artistIds).2 trackId (getAlbumId a album artistIds).1
          "tracks_albums".toList
      else (getAlbumId a album artistIds).2) = a₁
    have hlink : ∃ link, a₁.log = (getAlbumId a album artistIds).2.log ++ link ∧
        (∀ e ∈ link, ∃ tbl f s ok, e = AdderEvent.insertRelationship tbl f s ok) ∧
        ((getAlbumId a album artistIds).1 ≠ 0 → ∃ ok, AdderEvent.insertRelationship
          "tracks_albums".toList trackId (getAlbumId a album artistIds).1 ok ∈ link) := by
      rw [← hstep]
      split
      · rename_i hne
        refine ⟨[AdderEvent.insertRelationship "tracks_albums".toList trackId
          (getAlbumId a album artistIds).1 (getAlbumId a album artistIds).2.attempt.1],
          addRelationship_log _ _ _ _, ?_, ?_⟩
        · intro e he
          exact ⟨_, _, _, _, by simpa using he⟩
        · intro _
          exact ⟨(getAlbumId a album artistIds).2.attempt.1, by simp⟩
      · rename_i hz
        refine ⟨[], by simp, by simp, ?_⟩
        intro hne
        exact absurd (by simpa using hne) hz
    obtain ⟨link, hlinklog, hlinkall, hlinkmem⟩ := hlink
    have hkept₁ : LookupTablesKept (getAlbumId a album artistIds).2 a₁ := by
      rw [← hstep]
      split
      · exact addRelationship_kept _ _ _ _
      · exact LookupTablesKept.same _
    have hkept₀ : LookupTablesKept a a₁ := (getAlbumId_kept a album artistIds).andThen hkept₁
    have hdef : linkAlbums trackId artistIds (album :: rest) a =
        linkAlbums trackId artistIds rest a₁ := by
      rw [← hstep]
      rfl
    obtain ⟨seg, hseg, hkind, h1, h2, h3, h4⟩ := ih a₁
    have halbums₁ : a₁.mAlbums = (getAlbumId a album artistIds).2.mAlbums := by
      rw [← hstep]
      split
      · exact addRelationship_mAlbums _ _ _ _
      · rfl
    have hkeptRest := linkAlbums_kept trackId artistIds rest a₁
    rw [hdef]
    have hnoalb : ∀ e ∈ link, e.isAlbumEvent = false := by
      intro e he
      obtain ⟨tbl, f, s, ok, rfl⟩ := hlinkall e he
      rfl
    refine ⟨core ++ [AdderEvent.resolvedAlbum album artistIds (getAlbumId a album artistIds).1]
      ++ link ++ seg, ?_, ?_, ?_, ?_, ?_, ?_⟩
    · rw [hseg, hlinklog, hlog]
      simp
    · intro e he
      simp only [List.mem_append, List.mem_singleton] at he
      rcases he with ((he | he) | he) | he
      · rcases hcore e he with h | h | h
        · left; rw [h]; rfl
        · left; rw [h]; rfl
        · exact Or.inr h
      · left; rw [he]; rfl
      · exact Or.inr (hlinkall e he)
      · exact hkind e he
    · intro t k r hmem
      simp only [List.mem_append, List.mem_singleton] at hmem
      rcases hmem with ((hmem | hmem) | hmem) | hmem
      · rcases hcore _ hmem with h | h | h
        · cases h
        · cases h
        · obtain ⟨tbl, f, s, ok, h⟩ := h
          cases h
      · cases hmem
        refine ⟨rfl, fun hne => ?_⟩
        obtain ⟨hnonempty, hfind⟩ := hrec hne
        obtain ⟨ok, hok⟩ := hlinkmem hne
        exact ⟨hnonempty, hkeptRest.2.1 _ _ (hkept₁.2.1 _ _ hfind), ok,
          List.mem_append_left _ (List.mem_append_right _ hok)⟩
      · have := hnoalb _ hmem
        simp [AdderEvent.isAlbumEvent] at this
      · obtain ⟨hk, hr⟩ := h1 t k r hmem
        refine ⟨hk, fun hne => ?_⟩
        obtain ⟨hx, hy, ok, hz⟩ := hr hne
        exact ⟨hx, hy, ok, List.mem_append_right _ hz⟩
    · intro t id hpresent hnonempty
      obtain ⟨hr, hni⟩ := h2 t id (hkept₀.2.1 _ _ hpresent) hnonempty
      by_cases heq : album = t
      · subst heq
        obtain ⟨hres, hnil⟩ := hfound id hpresent hnonempty
        refine ⟨?_, ?_⟩
        · intro k r hmem
          simp only [hnil, List.nil_append, List.mem_append, List.mem_singleton] at hmem
          rcases hmem with (hmem | hmem) | hmem
          · cases hmem
            exact hres
          · have := hnoalb _ hmem
            simp [AdderEvent.isAlbumEvent] at this
          · exact hr k r hmem
        · intro hmem
          simp only [hnil, List.nil_append, List.mem_append, List.mem_singleton] at hmem
          rcases hmem with (hmem | hmem) | hmem
          · cases hmem
          · have := hnoalb _ hmem
            simp [AdderEvent.isAlbumEvent] at this
          · exact hni hmem
      · refine ⟨?_, ?_⟩
        · intro k r hmem
          simp only [List.mem_append, List.mem_singleton] at hmem
          rcases hmem with ((hmem | hmem) | hmem) | hmem
          · rcases hcore _ hmem with h | h | h
            · cases h
            · cases h
            · obtain ⟨tbl, f, s, ok, h⟩ := h
              cases h
          · cases hmem
            exact absurd rfl heq
          · have := hnoalb _ hmem
            simp [AdderEvent.isAlbumEvent] at this
          · exact hr k r hmem
        · intro hmem
          simp only [List.mem_append, List.mem_singleton] at hmem
          rcases hmem with ((hmem | hmem) | hmem) | hmem
          · rcases hcore _ hmem with h | h | h
            · cases h
            · cases h
              exact absurd rfl heq
            · obtain ⟨tbl, f, s, ok, h⟩ := h
              cases h
          · cases hmem
          · have := hnoalb _ hmem
            simp [AdderEvent.isAlbumEvent] at this
          · exact hni hmem
    · intro t
      have hlinkcount : link.count (AdderEvent.insertAlbum t true) = 0 := by
        rw [List.count_eq_zero]
        intro hmem
        have := hnoalb _ hmem
        simp [AdderEvent.isAlbumEvent] at this
      have hrescount : [AdderEvent.resolvedAlbum album artistIds
          (getAlbumId a album artistIds).1].count (AdderEvent.insertAlbum t true) = 0 := by
        simp
      simp only [List.count_append, hlinkcount, hrescount]
      by_cases hmem : AdderEvent.insertAlbum t true ∈ core
      · have ht : album = t := by
          rcases hcore _ hmem with h | h | h
          · cases h
          · cases h; rfl
          · obtain ⟨tbl, f, s, ok, h⟩ := h
            cases h
        subst ht
        obtain ⟨id, hid⟩ := hins hmem
        have hnonempty : album ≠ [] := by
          intro h
          subst h
          have : (getAlbumId a [] artistIds).2.log =
              a.log ++ [AdderEvent.resolvedAlbum [] artistIds 0] := rfl
          rw [hlog] at this
          have hc : core = [] := by
            have h' := List.append_cancel_left (by simpa [List.append_assoc] using this :
              a.log ++ (core ++ [AdderEvent.resolvedAlbum [] artistIds
                (getAlbumId a [] artistIds).1]) = a.log ++ [AdderEvent.resolvedAlbum [] artistIds 0])
            cases core with
            | nil => rfl
            | cons x xs =>
              have := congrArg List.length h'
              simp at this
          rw [hc] at hmem
          simp at hmem
        have hrest : seg.count (AdderEvent.insertAlbum album true) = 0 := by
          rw [List.count_eq_zero]
          exact (h2 album id (hkept₁.2.1 _ _ hid) hnonempty).2
        omega
      · have : core.count (AdderEvent.insertAlbum t true) = 0 := List.count_eq_zero.mpr hmem
        have := h3 t
        omega
    · intro t id hfinal
      rcases h4 t id hfinal with h | h
      · rw [halbums₁] at h
        rcases horigin _ _ h with h' | ⟨hk, hmem⟩
        · exact Or.inl h'
        · have ht : t = album := congrArg Prod.fst hk
          subst ht
          right
          apply List.mem_append_left
          apply List.mem_append_left
          exact List.mem_append_left _ hmem
      · exact Or.inr (List.mem_append_right _ h)

/-! ## What the artist and genre loops leave alone -/

theorem getArtistOrGenreId_mAlbums (a : LibraryTracksAdder) (title : QString)
    (which : TitleTable) :
    (getArtistOrGenreId a title which).2.mAlbums = a.mAlbums ∧
    (getArtistOrGenreId a title which).2.mLastTrackId = a.mLastTrackId := by
  have h := addArtistOrGenre_fields a title which
  unfold getArtistOrGenreId getArtistOrGenreIdCore
  simp only [record_mAlbums, record_mLastTrackId]
  split
  · exact ⟨rfl, rfl⟩
  · split
    · exact ⟨h.1, h.2.1⟩
    · exact ⟨rfl, rfl⟩

theorem linkArtists_mAlbums (trackId : Int) (artists : List QString) (a : LibraryTracksAdder) :
    (linkArtists trackId artists a).mAlbums = a.mAlbums ∧
    (linkArtists trackId artists a).mLastTrackId = a.mLastTrackId := by
  induction artists generalizing a with
  | nil => exact ⟨rfl, rfl⟩
  | cons artist rest ih =>
    have h := getArtistOrGenreId_mAlbums a artist TitleTable.artists
    unfold linkArtists
    simp only []
    split
    · rw [(ih _).1, (ih _).2, addRelationship_mAlbums, addRelationship_mLastTrackId]
      exact h
    · rw [(ih _).1, (ih _).2]
      exact h

theorem linkGenres_mAlbums (trackId : Int) (genres : List QString) (a : LibraryTracksAdder) :
    (linkGenres trackId genres a).mAlbums = a.mAlbums ∧
    (linkGenres trackId genres a).mLastTrackId = a.mLastTrackId := by
  induction genres generalizing a with
  | nil => exact ⟨rfl, rfl⟩
  | cons genre rest ih =>
    have h := getArtistOrGenreId_mAlbums a genre TitleTable.genres
    unfold linkGenres
    simp only []
    split
    · rw [(ih _).1, (ih _).2, addRelationship_mAlbums, addRelationship_mLastTrackId]
      exact h
    · rw [(ih _).1, (ih _).2]
      exact h

theorem resolveAlbumArtists_mAlbums (albumArtists : List QString) (artistIds : List Int)
    (a : LibraryTracksAdder) :
    (resolveAlbumArtists albumArtists artistIds a).2.mAlbums = a.mAlbums ∧
    (resolveAlbumArtists albumArtists artistIds a).2.mLastTrackId = a.mLastTrackId := by
  induction albumArtists generalizing a artistIds with
  | nil => exact ⟨rfl, rfl⟩
  | cons x rest ih =>
    have h := getArtistOrGenreId_mAlbums a x TitleTable.artists
    unfold resolveAlbumArtists
    simp only []
    rw [(ih _ _).1, (ih _ _).2]
    exact h

theorem artistsLinked_mAlbums (a : LibraryTracksAdder) (filePath : QString)
    (modificationTime : Int) (info : Info) :
    (artistsLinked a filePath modificationTime info).mAlbums = a.mAlbums ∧
    (artistsLinked a filePath modificationTime info).mLastTrackId = a.mLastTrackId + 1 := by
  unfold artistsLinked
  rw [(linkArtists_mAlbums _ _ _).1, (linkArtists_mAlbums _ _ _).2]
  simp

theorem getAlbumId_mLastTrackId (a : LibraryTracksAdder) (title : QString)
    (artistIds : List Int) : (getAlbumId a title artistIds).2.mLastTrackId = a.mLastTrackId := by
  have h := (addAlbum_fields a title artistIds).2.1
  unfold getAlbumId getAlbumIdCore
  simp only [record_mLastTrackId]
  split
  · rfl
  · split
    · exact h
    · rfl

theorem linkAlbums_mLastTrackId (trackId : Int) (artistIds : List Int) (albums : List QString)
    (a : LibraryTracksAdder) :
    (linkAlbums trackId artistIds albums a).mLastTrackId = a.mLastTrackId := by
  induction albums generalizing a with
  | nil => rfl
  | cons album rest ih =>
    have h := getAlbumId_mLastTrackId a album artistIds
    unfold linkAlbums
    simp only []
    split
    · rw [ih, addRelationship_mLastTrackId]
      exact h
    · rw [ih]
      exact h

theorem linkAlbumsOfTrack_mLastTrackId (trackId : Int) (artists : List QString) (info : Info)
    (a : LibraryTracksAdder) :
    (linkAlbumsOfTrack trackId artists info a).mLastTrackId = a.mLastTrackId := by
  unfold linkAlbumsOfTrack
  split
  · simp only []
    rw [linkAlbums_mLastTrackId]
    unfold albumArtistIds
    exact (resolveAlbumArtists_mAlbums _ _ _).2
  · rfl

/-! ## Albums of one track -/

theorem AlbumsResolved.of_none (trackId : Int) (a a' : LibraryTracksAdder)
    (seg : List AdderEvent) (hlog : a'.log = a.log ++ seg)
    (hnone : ∀ e ∈ seg, e.isAlbumEvent = false) : AlbumsResolved trackId a a' seg := by
  refine ⟨hlog, ?_, ?_⟩
  · intro t k r hmem
    have := hnone _ hmem
    simp [AdderEvent.isAlbumEvent] at this
  · intro t
    have : seg.count (AdderEvent.insertAlbum t true) = 0 := by
      rw [List.count_eq_zero]
      intro hmem
      have := hnone _ hmem
      simp [AdderEvent.isAlbumEvent] at this
    omega

theorem AlbumsResolved.extend_left {trackId : Int} {a₀ a a' : LibraryTracksAdder}
    {segP seg : List AdderEvent} (h : AlbumsResolved trackId a a' seg)
    (hlog : a.log = a₀.log ++ segP) (hnone : ∀ e ∈ segP, e.isAlbumEvent = false)
    (halbums : a.mAlbums = a₀.mAlbums) : AlbumsResolved trackId a₀ a' (segP ++ seg) := by
  obtain ⟨h0, h1, h2⟩ := h
  have hnotin : ∀ e, e.isAlbumEvent = true → (e ∈ segP ++ seg ↔ e ∈ seg) := by
    intro e he
    rw [List.mem_append]
    constructor
    · rintro (h | h)
      · rw [hnone e h] at he
        cases he
      · exact h
    · exact Or.inr
  refine ⟨by rw [h0, hlog, List.append_assoc], ?_, ?_⟩
  · intro t k r hmem
    rw [hnotin (AdderEvent.resolvedAlbum t k r) rfl] at hmem
    obtain ⟨hx, hy⟩ := h1 t k r hmem
    rw [halbums] at hx hy
    refine ⟨fun hr => ?_, fun id hid ht => ?_⟩
    · obtain ⟨p1, p2, ⟨ok, p3⟩, p4⟩ := hx hr
      exact ⟨p1, p2, ⟨ok, List.mem_append_right _ p3⟩, fun hn => (hnotin (AdderEvent.insertAlbum t true) rfl).mpr (p4 hn)⟩
    · obtain ⟨q1, q2⟩ := hy id hid ht
      exact ⟨q1, fun hm => q2 ((hnotin (AdderEvent.insertAlbum t true) rfl).mp hm)⟩
  · intro t
    have : segP.count (AdderEvent.insertAlbum t true) = 0 := by
      rw [List.count_eq_zero]
      intro hmem
      have := hnone _ hmem
      simp [AdderEvent.isAlbumEvent] at this
    rw [List.count_append, this]
    have := h2 t
    omega

theorem AlbumsResolved.extend_right {trackId : Int} {a a' a'' : LibraryTracksAdder}
    {seg segQ : List AdderEvent} (h : AlbumsResolved trackId a a' seg)
    (hlog : a''.log = a'.log ++ segQ) (hnone : ∀ e ∈ segQ, e.isAlbumEvent = false)
    (halbums : a''.mAlbums = a'.mAlbums) : AlbumsResolved trackId a a'' (seg ++ segQ) := by
  obtain ⟨h0, h1, h2⟩ := h
  have hnotin : ∀ e, e.isAlbumEvent = true → (e ∈ seg ++ segQ ↔ e ∈ seg) := by
    intro e he
    rw [List.mem_append]
    constructor
    · rintro (h | h)
      · exact h
      · rw [hnone e h] at he
        cases he
    · exact Or.inl
  refine ⟨by rw [hlog, h0, List.append_assoc], ?_, ?_⟩
  · intro t k r hmem
    rw [hnotin (AdderEvent.resolvedAlbum t k r) rfl] at hmem
    obtain ⟨hx, hy⟩ := h1 t k r hmem
    rw [halbums]
    refine ⟨fun hr => ?_, fun id hid ht => ?_⟩
    · obtain ⟨p1, p2, ⟨ok, p3⟩, p4⟩ := hx hr
      exact ⟨p1, p2, ⟨ok, List.mem_append_left _ p3⟩, fun hn => (hnotin (AdderEvent.insertAlbum t true) rfl).mpr (p4 hn)⟩
    · obtain ⟨q1, q2⟩ := hy id hid ht
      exact ⟨q1, fun hm => q2 ((hnotin (AdderEvent.insertAlbum t true) rfl).mp hm)⟩
  · intro t
    have : segQ.count (AdderEvent.insertAlbum t true) = 0 := by
      rw [List.count_eq_zero]
      intro hmem
      have := hnone _ hmem
      simp [AdderEvent.isAlbumEvent] at this
    rw [List.count_append, this]
    have := h2 t
    omega

theorem linkAlbums_albumsResolved (trackId : Int) (artistIds : List Int)
    (albums : List QString) (a : LibraryTracksAdder) :
    ∃ seg, AlbumsResolved trackId a (linkAlbums trackId artistIds albums a) seg := by
  obtain ⟨seg, hlog, -, h1, h2, h3, h4⟩ := linkAlbums_facts trackId artistIds albums a
  refine ⟨seg, hlog, ?_, h3⟩
  intro t k r hmem
  obtain ⟨hk, hr⟩ := h1 t k r hmem
  subst hk
  refine ⟨fun hne => ?_, fun id hid ht => ?_⟩
  · obtain ⟨p1, p2, p3⟩ := hr hne
    refine ⟨p1, p2, p3, fun hn => ?_⟩
    rcases h4 t r p2 with h | h
    · rw [hn] at h
      cases h
    · exact h
  · obtain ⟨q1, q2⟩ := h2 t id hid ht
    exact ⟨q1 _ _ hmem, q2⟩

theorem linkAlbumsOfTrack_albumsResolved (trackId : Int) (artists : List QString) (info : Info)
    (a : LibraryTracksAdder) :
    ∃ seg, AlbumsResolved trackId a (linkAlbumsOfTrack trackId artists info a) seg := by
  unfold linkAlbumsOfTrack
  split
  · simp only []
    obtain ⟨segR, hR, hnone⟩ : AdderEmits (fun e => e.isAlbumEvent = false) a
        (albumArtistIds a artists info.albumArtists).2 := by
      unfold albumArtistIds
      exact resolveAlbumArtists_emits _ _ _ a (fun _ _ _ => rfl) (fun _ _ _ => rfl)
    obtain ⟨seg, h⟩ := linkAlbums_albumsResolved trackId
      (albumArtistIds a artists info.albumArtists).1 info.albums
      (albumArtistIds a artists info.albumArtists).2
    exact ⟨segR ++ seg, h.extend_left hR hnone (by
      unfold albumArtistIds
      exact (resolveAlbumArtists_mAlbums _ _ _).1)⟩
  · exact ⟨[], AlbumsResolved.of_none _ _ _ _ (by simp) (by simp)⟩

theorem addTrackToDatabase_albumsResolved (a : LibraryTracksAdder) (filePath : QString)
    (modificationTime : Int) (info : Info) :
    ∃ seg, AlbumsResolved (a.mLastTrackId + 1) a
      (addTrackToDatabase a filePath modificationTime info) seg := by
  cases hok : a.attempt.1 with
  | false =>
    refine ⟨[AdderEvent.insertTrack filePath modificationTime info.title false],
      AlbumsResolved.of_none _ _ _ _ ?_ ?_⟩
    · unfold addTrackToDatabase
      simp [hok]
    · intro e he
      rw [List.mem_singleton.mp he]
      rfl
  | true =>
    rw [addTrackToDatabase_eq a filePath modificationTime info hok]
    obtain ⟨segL, hL, hnoneL⟩ := artistsLinked_emits (fun e => e.isAlbumEvent = false) a
      filePath modificationTime info rfl (fun _ _ _ => rfl) (fun _ _ _ => rfl)
      (fun _ _ _ _ _ => rfl)
    obtain ⟨seg, h⟩ := linkAlbumsOfTrack_albumsResolved (a.mLastTrackId + 1)
      (artistsOfTrack info) info (artistsLinked a filePath modificationTime info)
    obtain ⟨segG, hG, hnoneG⟩ := linkGenres_emits (fun e => e.isAlbumEvent = false)
      (a.mLastTrackId + 1) info.genres
      (linkAlbumsOfTrack (a.mLastTrackId + 1) (artistsOfTrack info) info
        (artistsLinked a filePath modificationTime info))
      (fun _ _ _ => rfl) (fun _ _ _ => rfl) (fun _ _ _ _ _ => rfl)
    exact ⟨segL ++ seg ++ segG, ((h.extend_left hL hnoneL
      (artistsLinked_mAlbums a filePath modificationTime info).1).extend_right hG hnoneG
      (linkGenres_mAlbums _ _ _).1)⟩

/-! ## Artists of one track -/

theorem getArtistOrGenreId_present (a : LibraryTracksAdder) (title : QString)
    (which : TitleTable) (n : QString) (id : Int) (hn : n ≠ [])
    (h : mapFind (a.titles TitleTable.artists).ids n = some id) :
    AdderEmits (fun e => ∀ r, e = AdderEvent.resolvedArtistOrGenre TitleTable.artists n r →
      r = id) a (getArtistOrGenreId a title which).2 := by
  have hcore : AdderEmits (fun e => ∀ r,
      e = AdderEvent.resolvedArtistOrGenre TitleTable.artists n r → r = id) a
      (getArtistOrGenreIdCore a title which).2 := by
    unfold getArtistOrGenreIdCore
    split
    · exact AdderEmits.nothing _ _
    · split
      · exact addArtistOrGenre_emits _ a title which (fun ok r h => by cases h)
      · exact AdderEmits.nothing _ _
  refine hcore.append (AdderEmits.record _ _ ?_)
  intro r heq
  injection heq with h1 h2 h3
  subst h1 h2
  rw [← h3]
  have := getArtistOrGenreId_found a title TitleTable.artists id hn h
  exact congrArg Prod.fst this

theorem getArtistOrGenreId_recorded (a : LibraryTracksAdder) (title : QString)
    (which : TitleTable) (h : (getArtistOrGenreId a title which).1 ≠ 0) :
    title ≠ [] ∧ mapFind ((getArtistOrGenreId a title which).2.titles which).ids title =
      some (getArtistOrGenreId a title which).1 := by
  have hres : (getArtistOrGenreId a title which).1 = (getArtistOrGenreIdCore a title which).1 :=
    rfl
  have htab : (getArtistOrGenreId a title which).2.titles which =
      (getArtistOrGenreIdCore a title which).2.titles which := record_titles _ _ _
  rw [hres] at h ⊢
  rw [htab]
  cases title with
  | nil => exact absurd rfl h
  | cons c cs =>
    refine ⟨by simp, ?_⟩
    have hempty : (c :: cs).isEmpty = false := rfl
    cases hf : mapFind (a.titles which).ids (c :: cs) with
    | some found =>
      have hcore : getArtistOrGenreIdCore a (c :: cs) which = (found, a) := by
        unfold getArtistOrGenreIdCore
        simp [hf]
      rw [hcore]
      exact hf
    | none =>
      have hcore : getArtistOrGenreIdCore a (c :: cs) which =
          addArtistOrGenre a (c :: cs) which := by
        unfold getArtistOrGenreIdCore
        simp [hf]
      rw [hcore] at h ⊢
      obtain ⟨-, -, -, hfail, hsucc⟩ := addArtistOrGenre_fields a (c :: cs) which
      cases hok : a.attempt.1 with
      | false => exact absurd (hfail hok).1 h
      | true =>
        rw [(hsucc hok).1, (hsucc hok).2]
        exact mapFind_mapInsert_self _ _ _ hf

theorem linkArtists_present (trackId : Int) (artists : List QString) (a : LibraryTracksAdder)
    (n : QString) (id : Int) (hn : n ≠ [])
    (h : mapFind (a.titles TitleTable.artists).ids n = some id) :
    AdderEmits (fun e => ∀ r, e = AdderEvent.resolvedArtistOrGenre TitleTable.artists n r →
      r = id) a (linkArtists trackId artists a) := by
  induction artists generalizing a with
  | nil => exact AdderEmits.nothing _ _
  | cons artist rest ih =>
    unfold linkArtists
    simp only []
    have h1 := getArtistOrGenreId_present a artist TitleTable.artists n id hn h
    have hk := (getArtistOrGenreId_kept a artist TitleTable.artists).1 _ _ _ h
    split
    · refine (h1.append (addRelationship_emits _ _ _ _ _ (fun ok r h => by cases h))).append
        (ih _ ?_)
      rw [addRelationship_titles]
      exact hk
    · exact h1.append (ih _ hk)

theorem linkGenres_present (trackId : Int) (genres : List QString) (a : LibraryTracksAdder)
    (n : QString) (id : Int) (hn : n ≠ [])
    (h : mapFind (a.titles TitleTable.artists).ids n = some id) :
    AdderEmits (fun e => ∀ r, e = AdderEvent.resolvedArtistOrGenre TitleTable.artists n r →
      r = id) a (linkGenres trackId genres a) := by
  induction genres generalizing a with
  | nil => exact AdderEmits.nothing _ _
  | cons genre rest ih =>
    unfold linkGenres
    simp only []
    have h1 := getArtistOrGenreId_present a genre TitleTable.genres n id hn h
    have hk := (getArtistOrGenreId_kept a genre TitleTable.genres).1 _ _ _ h
    split
    · refine (h1.append (addRelationship_emits _ _ _ _ _ (fun ok r h => by cases h))).append
        (ih _ ?_)
      rw [addRelationship_titles]
      exact hk
    · exact h1.append (ih _ hk)

theorem resolveAlbumArtists_present (albumArtists : List QString) (artistIds : List Int)
    (a : LibraryTracksAdder) (n : QString) (id : Int) (hn : n ≠ [])
    (h : mapFind (a.titles TitleTable.artists).ids n = some id) :
    AdderEmits (fun e => ∀ r, e = AdderEvent.resolvedArtistOrGenre TitleTable.artists n r →
      r = id) a (resolveAlbumArtists albumArtists artistIds a).2 := by
  induction albumArtists generalizing a artistIds with
  | nil => exact AdderEmits.nothing _ _
  | cons x rest ih =>
    unfold resolveAlbumArtists
    simp only []
    exact (getArtistOrGenreId_present a x TitleTable.artists n id hn h).append
      (ih _ _ ((getArtistOrGenreId_kept a x TitleTable.artists).1 _ _ _ h))

theorem linkAlbumsOfTrack_present (trackId : Int) (artists : List QString) (info : Info)
    (a : LibraryTracksAdder) (n : QString) (id : Int) (hn : n ≠ [])
    (h : mapFind (a.titles TitleTable.artists).ids n = some id) :
    AdderEmits (fun e => ∀ r, e = AdderEvent.resolvedArtistOrGenre TitleTable.artists n r →
      r = id) a (linkAlbumsOfTrack trackId artists info a) := by
  unfold linkAlbumsOfTrack
  split
  · simp only []
    have h1 : AdderEmits (fun e => ∀ r,
        e = AdderEvent.resolvedArtistOrGenre TitleTable.artists n r → r = id) a
        (albumArtistIds a artists info.albumArtists).2 := by
      unfold albumArtistIds
      exact resolveAlbumArtists_present _ _ a n id hn h
    refine h1.append ?_
    obtain ⟨seg, hlog, hkind, -⟩ := linkAlbums_facts trackId
      (albumArtistIds a artists info.albumArtists).1 info.albums
      (albumArtistIds a artists info.albumArtists).2
    refine ⟨seg, hlog, ?_⟩
    intro e he r heq
    subst heq
    rcases hkind _ he with h | ⟨_, _, _, _, h⟩
    · simp [AdderEvent.isAlbumEvent] at h
    · cases h
  · exact AdderEmits.nothing _ _

theorem addTrackToDatabase_present (a : LibraryTracksAdder) (filePath : QString)
    (modificationTime : Int) (info : Info) (n : QString) (id : Int) (hn : n ≠ [])
    (h : mapFind (a.titles TitleTable.artists).ids n = some id) :
    AdderEmits (fun e => ∀ r, e = AdderEvent.resolvedArtistOrGenre TitleTable.artists n r →
      r = id) a (addTrackToDatabase a filePath modificationTime info) := by
  cases hok : a.attempt.1 with
  | false =>
    refine ⟨[AdderEvent.insertTrack filePath modificationTime info.title false], ?_, ?_⟩
    · unfold addTrackToDatabase
      simp [hok]
    · intro e he r heq
      rw [List.mem_singleton.mp he] at heq
      cases heq
  | true =>
    rw [addTrackToDatabase_eq a filePath modificationTime info hok]
    have h0 : AdderEmits (fun e => ∀ r,
        e = AdderEvent.resolvedArtistOrGenre TitleTable.artists n r → r = id) a
        ((a.attempt.2.record
          (AdderEvent.insertTrack filePath modificationTime info.title true)).setLastTrackId
          (a.mLastTrackId + 1)) :=
      ((AdderEmits.attempt _ a).append (AdderEmits.record _ _ (fun r h => by cases h))).append
        (AdderEmits.of_log_eq (setLastTrackId_log _ _))
    have hL : AdderEmits (fun e => ∀ r,
        e = AdderEvent.resolvedArtistOrGenre TitleTable.artists n r → r = id) a
        (artistsLinked a filePath modificationTime info) := by
      unfold artistsLinked
      exact h0.append (linkArtists_present _ _ _ n id hn (by simpa using h))
    have hkL : LookupTablesKept a (artistsLinked a filePath modificationTime info) := by
      unfold artistsLinked
      exact (LookupTablesKept.of_eq (fun w => by simp) (by simp)).andThen (linkArtists_kept _ _ _).1
    have hA := linkAlbumsOfTrack_present (a.mLastTrackId + 1) (artistsOfTrack info) info
      (artistsLinked a filePath modificationTime info) n id hn (hkL.1 _ _ _ h)
    have hkA := (linkAlbumsOfTrack_kept (a.mLastTrackId + 1) (artistsOfTrack info) info
      (artistsLinked a filePath modificationTime info)).1 _ _ _ (hkL.1 _ _ _ h)
    exact (hL.append hA).append (linkGenres_present _ _ _ n id hn hkA)

/-- The artist loop of a track resolves every artist of the list; with a
non-zero result the track is linked to it and the table holds it afterwards. -/
theorem linkArtists_links (trackId : Int) (artists : List QString) (a : LibraryTracksAdder) :
    ∃ seg, (linkArtists trackId artists a).log = a.log ++ seg ∧
      ∀ n ∈ artists, ∃ r,
        AdderEvent.resolvedArtistOrGenre TitleTable.artists n r ∈ seg ∧
        (r ≠ 0 → n ≠ [] ∧
          (∃ ok, AdderEvent.insertRelationship "tracks_artists".toList trackId r ok ∈ seg) ∧
          mapFind ((linkArtists trackId artists a).titles TitleTable.artists).ids n =
            some r) := by
  induction artists generalizing a with
  | nil => exact ⟨[], by simp [linkArtists], by simp⟩
  | cons artist rest ih =>
    obtain ⟨seg₁, h₁, hmem⟩ := getArtistOrGenreId_log a artist TitleTable.artists
    have hrec := getArtistOrGenreId_recorded a artist TitleTable.artists
    generalize hstep : (if (getArtistId a artist).1 != 0 then
        addRelationship (getArtistId a artist).2 trackId (getArtistId a artist).1
          "tracks_artists".toList
      else (getArtistId a artist).2) = a₁
    have hdef : linkArtists trackId (artist :: rest) a = linkArtists trackId rest a₁ := by
      rw [← hstep]
      rfl
    have hlink : ∃ link, a₁.log = (getArtistId a artist).2.log ++ link ∧
        ((getArtistId a artist).1 ≠ 0 → ∃ ok, AdderEvent.insertRelationship
          "tracks_artists".toList trackId (getArtistId a artist).1 ok ∈ link) := by
      rw [← hstep]
      split
      · exact ⟨[AdderEvent.insertRelationship "tracks_artists".toList trackId
          (getArtistId a artist).1 (getArtistId a artist).2.attempt.1],
          addRelationship_log _ _ _ _, fun _ => ⟨_, List.mem_singleton.mpr rfl⟩⟩
      · rename_i hz
        exact ⟨[], by simp, fun hne => absurd (by simpa using hne) hz⟩
    obtain ⟨link, hlinklog, hlinkmem⟩ := hlink
    have htitles : ∀ w, a₁.titles w = (getArtistId a artist).2.titles w := by
      intro w
      rw [← hstep]
      split
      · exact addRelationship_titles _ _ _ _ _
      · rfl
    obtain ⟨seg, hseg, hall⟩ := ih a₁
    have hkeptRest := (linkArtists_kept trackId rest a₁).1
    rw [hdef]
    refine ⟨seg₁ ++ link ++ seg, ?_, ?_⟩
    · rw [hseg, hlinklog]
      unfold getArtistId
      rw [h₁]
      simp
    · intro n hn
      by_cases hhead : n = artist
      · subst hhead
        refine ⟨(getArtistId a n).1, ?_, fun hne => ?_⟩
        · apply List.mem_append_left
          exact List.mem_append_left _ hmem
        · obtain ⟨ok, hok⟩ := hlinkmem hne
          obtain ⟨hne', hfind⟩ := hrec hne
          refine ⟨hne', ⟨ok, ?_⟩, hkeptRest.1 _ _ _ ?_⟩
          · apply List.mem_append_left
            exact List.mem_append_right _ hok
          · rw [htitles]
            exact hfind
      · have hn' : n ∈ rest := by
          rcases List.mem_cons.mp hn with h | h
          · exact absurd h hhead
          · exact h
        obtain ⟨r, hr, hrest⟩ := hall n hn'
        refine ⟨r, List.mem_append_right _ hr, fun hne => ?_⟩
        obtain ⟨p1, ⟨ok, p2⟩, p3⟩ := hrest hne
        exact ⟨p1, ⟨ok, List.mem_append_right _ p2⟩, p3⟩

theorem addTrackToDatabase_links (a : LibraryTracksAdder) (filePath : QString)
    (modificationTime : Int) (info : Info) (hok : a.attempt.1 = true) :
    ∃ seg, (addTrackToDatabase a filePath modificationTime info).log = a.log ++ seg ∧
      ∀ n ∈ artistsOfTrack info, ∃ r,
        AdderEvent.resolvedArtistOrGenre TitleTable.artists n r ∈ seg ∧
        (r ≠ 0 → n ≠ [] ∧
          (∃ ok, AdderEvent.insertRelationship "tracks_artists".toList (a.mLastTrackId + 1) r
            ok ∈ seg) ∧
          mapFind ((addTrackToDatabase a filePath modificationTime info).titles
            TitleTable.artists).ids n = some r) := by
  rw [addTrackToDatabase_eq a filePath modificationTime info hok]
  obtain ⟨segL, hL, hall⟩ := linkArtists_links (a.mLastTrackId + 1) (artistsOfTrack info)
    ((a.attempt.2.record
      (AdderEvent.insertTrack filePath modificationTime info.title true)).setLastTrackId
      (a.mLastTrackId + 1))
  have hL' : (artistsLinked a filePath modificationTime info).log =
      a.log ++ (AdderEvent.insertTrack filePath modificationTime info.title true :: segL) := by
    unfold artistsLinked
    rw [hL]
    simp
  obtain ⟨segA, hA, -⟩ := linkAlbumsOfTrack_emits (fun _ => True) (a.mLastTrackId + 1)
    (artistsOfTrack info) info (artistsLinked a filePath modificationTime info)
    (fun _ _ _ => trivial) (fun _ _ _ => trivial) (fun _ _ _ _ _ => trivial)
    (fun _ _ => trivial) (fun _ _ => trivial)
  obtain ⟨segG, hG, -⟩ := linkGenres_emits (fun _ => True) (a.mLastTrackId + 1) info.genres
    (linkAlbumsOfTrack (a.mLastTrackId + 1) (artistsOfTrack info) info
      (artistsLinked a filePath modificationTime info))
    (fun _ _ _ => trivial) (fun _ _ _ => trivial) (fun _ _ _ _ _ => trivial)
  have hkept : LookupTablesKept (artistsLinked a filePath modificationTime info)
      (linkGenres (a.mLastTrackId + 1) info.genres
        (linkAlbumsOfTrack (a.mLastTrackId + 1) (artistsOfTrack info) info
          (artistsLinked a filePath modificationTime info))) :=
    (linkAlbumsOfTrack_kept _ _ _ _).andThen (linkGenres_kept _ _ _)
  refine ⟨(AdderEvent.insertTrack filePath modificationTime info.title true :: segL) ++ segA ++
    segG, by rw [hG, hA, hL']; simp, ?_⟩
  intro n hn
  obtain ⟨r, hr, hrest⟩ := hall n hn
  refine ⟨r, ?_, fun hne => ?_⟩
  · apply List.mem_append_left
    apply List.mem_append_left
    exact List.mem_cons_of_mem _ hr
  · obtain ⟨p1, ⟨ok, p2⟩, p3⟩ := hrest hne
    refine ⟨p1, ⟨ok, ?_⟩, hkept.1 _ _ _ p3⟩
    apply List.mem_append_left
    apply List.mem_append_left
    exact List.mem_cons_of_mem _ p2

/-! ## Tracks without tags and failed track inserts -/

theorem recordAll_nil (a : LibraryTracksAdder) : a.recordAll [] = a := by
  cases a
  simp [LibraryTracksAdder.recordAll]

theorem recordAll_recordAll (a : LibraryTracksAdder) (s t : List AdderEvent) :
    (a.recordAll s).recordAll t = a.recordAll (s ++ t) := by
  simp [LibraryTracksAdder.recordAll, List.append_assoc]

theorem record_eq_recordAll (a : LibraryTracksAdder) (e : AdderEvent) :
    a.record e = a.recordAll [e] := rfl

theorem linkArtists_of_empty (trackId : Int) (artists : List QString) (a : LibraryTracksAdder)
    (h : ∀ x ∈ artists, x = []) :
    ∃ seg, linkArtists trackId artists a = a.recordAll seg ∧ ∀ e ∈ seg, e.isInsert = false := by
  induction artists generalizing a with
  | nil => exact ⟨[], (recordAll_nil a).symm, by simp⟩
  | cons x rest ih =>
    have hx : x = [] := h x (List.mem_cons_self _ _)
    subst hx
    obtain ⟨seg, hseg, hall⟩ := ih
      (a.record (AdderEvent.resolvedArtistOrGenre TitleTable.artists [] 0))
      (fun y hy => h y (List.mem_cons_of_mem _ hy))
    refine ⟨AdderEvent.resolvedArtistOrGenre TitleTable.artists [] 0 :: seg, ?_, ?_⟩
    · have : linkArtists trackId ([] :: rest) a = linkArtists trackId rest
          (a.record (AdderEvent.resolvedArtistOrGenre TitleTable.artists [] 0)) := rfl
      rw [this, hseg, record_eq_recordAll, recordAll_recordAll]
      rfl
    · intro e he
      rcases List.mem_cons.mp he with rfl | he
      · rfl
      · exact hall e he

theorem linkGenres_of_empty (trackId : Int) (genres : List QString) (a : LibraryTracksAdder)
    (h : ∀ x ∈ genres, x = []) :
    ∃ seg, linkGenres trackId genres a = a.recordAll seg ∧ ∀ e ∈ seg, e.isInsert = false := by
  induction genres generalizing a with
  | nil => exact ⟨[], (recordAll_nil a).symm, by simp⟩
  | cons x rest ih =>
    have hx : x = [] := h x (List.mem_cons_self _ _)
    subst hx
    obtain ⟨seg, hseg, hall⟩ := ih
      (a.record (AdderEvent.resolvedArtistOrGenre TitleTable.genres [] 0))
      (fun y hy => h y (List.mem_cons_of_mem _ hy))
    refine ⟨AdderEvent.resolvedArtistOrGenre TitleTable.genres [] 0 :: seg, ?_, ?_⟩
    · have : linkGenres trackId ([] :: rest) a = linkGenres trackId rest
          (a.record (AdderEvent.resolvedArtistOrGenre TitleTable.genres [] 0)) := rfl
      rw [this, hseg, record_eq_recordAll, recordAll_recordAll]
      rfl
    · intro e he
      rcases List.mem_cons.mp he with rfl | he
      · rfl
      · exact hall e he

theorem resolveAlbumArtists_of_empty (albumArtists : List QString) (artistIds : List Int)
    (a : LibraryTracksAdder) (h : ∀ x ∈ albumArtists, x = []) :
    ∃ seg, resolveAlbumArtists albumArtists artistIds a = (artistIds, a.recordAll seg) ∧
      ∀ e ∈ seg, e.isInsert = false := by
  induction albumArtists generalizing a with
  | nil => exact ⟨[], by rw [recordAll_nil]; rfl, by simp⟩
  | cons x rest ih =>
    have hx : x = [] := h x (List.mem_cons_self _ _)
    subst hx
    obtain ⟨seg, hseg, hall⟩ := ih
      (a.record (AdderEvent.resolvedArtistOrGenre TitleTable.artists [] 0))
      (fun y hy => h y (List.mem_cons_of_mem _ hy))
    refine ⟨AdderEvent.resolvedArtistOrGenre TitleTable.artists [] 0 :: seg, ?_, ?_⟩
    · have : resolveAlbumArtists ([] :: rest) artistIds a = resolveAlbumArtists rest artistIds
          (a.record (AdderEvent.resolvedArtistOrGenre TitleTable.artists [] 0)) := rfl
      rw [this, hseg, record_eq_recordAll, recordAll_recordAll]
      rfl
    · intro e he
      rcases List.mem_cons.mp he with rfl | he
      · rfl
      · exact hall e he

theorem linkAlbums_of_empty (trackId : Int) (artistIds : List Int) (albums : List QString)
    (a : LibraryTracksAdder) (h : ∀ x ∈ albums, x = []) :
    ∃ seg, linkAlbums trackId artistIds albums a = a.recordAll seg ∧
      ∀ e ∈ seg, e.isInsert = false := by
  induction albums generalizing a with
  | nil => exact ⟨[], (recordAll_nil a).symm, by simp⟩
  | cons x rest ih =>
    have hx : x = [] := h x (List.mem_cons_self _ _)
    subst hx
    obtain ⟨seg, hseg, hall⟩ := ih (a.record (AdderEvent.resolvedAlbum [] artistIds 0))
      (fun y hy => h y (List.mem_cons_of_mem _ hy))
    refine ⟨AdderEvent.resolvedAlbum [] artistIds 0 :: seg, ?_, ?_⟩
    · have : linkAlbums trackId artistIds ([] :: rest) a = linkAlbums trackId artistIds rest
          (a.record (AdderEvent.resolvedAlbum [] artistIds 0)) := rfl
      rw [this, hseg, record_eq_recordAll, recordAll_recordAll]
      rfl
    · intro e he
      rcases List.mem_cons.mp he with rfl | he
      · rfl
      · exact hall e he

theorem promoteFirstArtist_of_empty (artists albumArtists : List QString)
    (hartists : ∀ x ∈ artists, x = []) (halbumArtists : ∀ x ∈ albumArtists, x = []) :
    ∀ x ∈ promoteFirstArtist artists albumArtists, x = [] := by
  unfold promoteFirstArtist
  split
  · cases artists with
    | nil => exact halbumArtists
    | cons first rest =>
      intro x hx
      rcases List.mem_append.mp hx with hx | hx
      · exact halbumArtists x hx
      · rw [List.mem_singleton.mp hx]
        exact hartists first (List.mem_cons_self _ _)
  · exact halbumArtists

theorem linkAlbumsOfTrack_of_empty (trackId : Int) (artists : List QString) (info : Info)
    (a : LibraryTracksAdder) (hartists : ∀ x ∈ artists, x = [])
    (halbumArtists : ∀ x ∈ info.albumArtists, x = []) (halbums : ∀ x ∈ info.albums, x = []) :
    ∃ seg, linkAlbumsOfTrack trackId artists info a = a.recordAll seg ∧
      ∀ e ∈ seg, e.isInsert = false := by
  unfold linkAlbumsOfTrack
  split
  · obtain ⟨seg₁, h₁, hall₁⟩ := resolveAlbumArtists_of_empty
      (promoteFirstArtist artists info.albumArtists) [] a
      (promoteFirstArtist_of_empty _ _ hartists halbumArtists)
    have hids : albumArtistIds a artists info.albumArtists = ([], a.recordAll seg₁) := by
      unfold albumArtistIds
      rw [h₁]
      rfl
    simp only [hids]
    obtain ⟨seg₂, h₂, hall₂⟩ := linkAlbums_of_empty trackId [] info.albums (a.recordAll seg₁)
      halbums
    refine ⟨seg₁ ++ seg₂, by rw [h₂, recordAll_recordAll], ?_⟩
    intro e he
    rcases List.mem_append.mp he with he | he
    · exact hall₁ e he
    · exact hall₂ e he
  · exact ⟨[], (recordAll_nil a).symm, by simp⟩

/-- C21. A track whose artists, album artists, albums and genres are all empty
strings, if there are any, the insert of the track row succeeding: the track
gets the next track id, the three lookup tables and their last ids are left as
they were, and after the insert of the track row the log holds no further
insert, neither of an artist, album or genre nor of a relationship row. -/
theorem untagged_track_inserts_only_the_track (a : LibraryTracksAdder) (filePath : QString)
    (modificationTime : Int) (info : Info) (hok : a.attempt.1 = true)
    (hartists : ∀ x ∈ info.artists, x = [])
    (halbumArtists : ∀ x ∈ info.albumArtists, x = [])
    (halbums : ∀ x ∈ info.albums, x = [])
    (hgenres : ∀ x ∈ info.genres, x = []) :
    (addTrackToDatabase a filePath modificationTime info).mLastTrackId = a.mLastTrackId + 1 ∧
    (∀ which, (addTrackToDatabase a filePath modificationTime info).titles which =
      a.titles which) ∧
    (addTrackToDatabase a filePath modificationTime info).mAlbums = a.mAlbums ∧
    ∃ seg, (addTrackToDatabase a filePath modificationTime info).log =
        a.log ++ AdderEvent.insertTrack filePath modificationTime info.title true :: seg ∧
      ∀ e ∈ seg, e.isInsert = false := by
  have hall : ∀ x ∈ artistsOfTrack info, x = [] := by
    intro x hx
    unfold artistsOfTrack at hx
    rw [mem_removeDuplicates] at hx
    rcases List.mem_append.mp hx with hx | hx
    · exact hartists x hx
    · exact halbumArtists x hx
  obtain ⟨seg₁, h₁, hall₁⟩ := linkArtists_of_empty (a.mLastTrackId + 1) (artistsOfTrack info)
    ((a.attempt.2.record
      (AdderEvent.insertTrack filePath modificationTime info.title true)).setLastTrackId
      (a.mLastTrackId + 1)) hall
  obtain ⟨seg₂, h₂, hall₂⟩ := linkAlbumsOfTrack_of_empty (a.mLastTrackId + 1)
    (artistsOfTrack info) info (artistsLinked a filePath modificationTime info) hall
    halbumArtists halbums
  obtain ⟨seg₃, h₃, hall₃⟩ := linkGenres_of_empty (a.mLastTrackId + 1) info.genres
    (linkAlbumsOfTrack (a.mLastTrackId + 1) (artistsOfTrack info) info
      (artistsLinked a filePath modificationTime info)) hgenres
  have hfinal : addTrackToDatabase a filePath modificationTime info =
      ((a.attempt.2.record
        (AdderEvent.insertTrack filePath modificationTime info.title true)).setLastTrackId
        (a.mLastTrackId + 1)).recordAll (seg₁ ++ seg₂ ++ seg₃) := by
    rw [addTrackToDatabase_eq a filePath modificationTime info hok, h₃, h₂]
    unfold artistsLinked
    rw [h₁, recordAll_recordAll, recordAll_recordAll, List.append_assoc]
  rw [hfinal]
  refine ⟨by simp [LibraryTracksAdder.recordAll], ?_, ?_, seg₁ ++ seg₂ ++ seg₃, ?_, ?_⟩
  · intro which
    cases which <;> simp [LibraryTracksAdder.recordAll, LibraryTracksAdder.titles,
      LibraryTracksAdder.setLastTrackId, LibraryTracksAdder.record] <;>
      first
      | exact attempt_titles a TitleTable.artists
      | exact attempt_titles a TitleTable.genres
  · simp [LibraryTracksAdder.recordAll]
  · simp [LibraryTracksAdder.recordAll]
  · intro e he
    rcases List.mem_append.mp he with he | he
    · rcases List.mem_append.mp he with he | he
      · exact hall₁ e he
      · exact hall₂ e he
    · exact hall₃ e he

/-- Witness of C21: a file whose tag reader reports one empty artist, one empty
album and one empty genre, added to an adder with empty tables. -/
theorem untagged_track_inserts_only_the_track_witness :
    (addTrackToDatabase (blankLibraryTracksAdder 0 []) "/a.mp3".toList 1
      untaggedInfo).mLastTrackId = 0 + 1 :=
  (untagged_track_inserts_only_the_track (blankLibraryTracksAdder 0 []) "/a.mp3".toList 1
    untaggedInfo (by decide) (by decide) (by decide) (by decide) (by decide)).1

/-- C25. When the insert of the track row fails, `addTrackToDatabase` does
nothing else: the log gains the failed insert only, the track id counter and
the three lookup tables with their last ids are as before, and the next track
whose insert succeeds gets the id the failed one would have had. -/
theorem failed_track_insert_changes_nothing (a : LibraryTracksAdder)
    (filePath filePath' : QString) (modificationTime modificationTime' : Int)
    (info info' : Info) (hfail : a.attempt.1 = false)
    (hnext : (addTrackToDatabase a filePath modificationTime info).attempt.1 = true) :
    (addTrackToDatabase a filePath modificationTime info).log =
      a.log ++ [AdderEvent.insertTrack filePath modificationTime info.title false] ∧
    (addTrackToDatabase a filePath modificationTime info).mLastTrackId = a.mLastTrackId ∧
    (addTrackToDatabase a filePath modificationTime info).mArtists = a.mArtists ∧
    (addTrackToDatabase a filePath modificationTime info).mAlbums = a.mAlbums ∧
    (addTrackToDatabase a filePath modificationTime info).mGenres = a.mGenres ∧
    (addTrackToDatabase (addTrackToDatabase a filePath modificationTime info) filePath'
      modificationTime' info').mLastTrackId = a.mLastTrackId + 1 := by
  have hfinal : addTrackToDatabase a filePath modificationTime info =
      a.attempt.2.record (AdderEvent.insertTrack filePath modificationTime info.title false) := by
    unfold addTrackToDatabase
    simp [hfail]
  have hlast : (addTrackToDatabase a filePath modificationTime info).mLastTrackId =
      a.mLastTrackId := by
    rw [hfinal]
    simp
  refine ⟨by rw [hfinal]; simp, hlast, ?_, by rw [hfinal]; simp, ?_, ?_⟩
  · have := attempt_titles a TitleTable.artists
    rw [hfinal]
    exact this
  · have := attempt_titles a TitleTable.genres
    rw [hfinal]
    exact this
  · rw [addTrackToDatabase_eq _ filePath' modificationTime' info' hnext,
      (linkGenres_mAlbums _ _ _).2, linkAlbumsOfTrack_mLastTrackId,
      (artistsLinked_mAlbums _ _ _ _).2, hlast]

/-- Witness of C25: the first insert fails and every later statement
succeeds; the second track gets the id 1. -/
theorem failed_track_insert_changes_nothing_witness :
    (addTrackToDatabase (addTrackToDatabase (blankLibraryTracksAdder 0 [false])
      "/a.mp3".toList 1 albumTrackInfo) "/b.mp3".toList 2 albumTrackInfo).mLastTrackId =
      0 + 1 :=
  (failed_track_insert_changes_nothing (blankLibraryTracksAdder 0 [false]) "/a.mp3".toList
    "/b.mp3".toList 1 2 albumTrackInfo albumTrackInfo (by decide) (by decide)).2.2.2.2.2

/-! ## One key for all albums of a track -/

/-- C23. Once the track row is inserted, every album of the track is resolved,
and every call of `getAlbumId` the track makes is given the same list: the
sorted ids of its album artists, computed once after the artist loop. This
holds in every state of the adder and for every outcome of the inserts, so
also after an earlier album of the track was created. -/
theorem all_albums_of_a_track_share_the_key (a : LibraryTracksAdder) (filePath : QString)
    (modificationTime : Int) (info : Info) (hok : a.attempt.1 = true) :
    ∃ seg, (addTrackToDatabase a filePath modificationTime info).log = a.log ++ seg ∧
      (∀ album ∈ info.albums, ∃ r, AdderEvent.resolvedAlbum album
        (albumArtistIds (artistsLinked a filePath modificationTime info) (artistsOfTrack info)
          info.albumArtists).1 r ∈ seg) ∧
      (∀ t key r, AdderEvent.resolvedAlbum t key r ∈ seg →
        key = (albumArtistIds (artistsLinked a filePath modificationTime info)
          (artistsOfTrack info) info.albumArtists).1) := by
  rw [addTrackToDatabase_eq a filePath modificationTime info hok]
  generalize hkey : (albumArtistIds (artistsLinked a filePath modificationTime info)
    (artistsOfTrack info) info.albumArtists).1 = key
  obtain ⟨seg₁, h₁, hp₁⟩ := artistsLinked_emits
    (fun e => ∀ t k r, e = AdderEvent.resolvedAlbum t k r → k = key) a filePath
    modificationTime info (fun _ _ _ h => by cases h) (fun _ _ _ _ _ _ h => by cases h)
    (fun _ _ _ _ _ _ h => by cases h) (fun _ _ _ _ _ _ _ _ h => by cases h)
  obtain ⟨seg₂, h₂, hall⟩ := linkAlbumsOfTrack_resolves (a.mLastTrackId + 1)
    (artistsOfTrack info) info (artistsLinked a filePath modificationTime info)
  rw [hkey] at hall
  obtain ⟨seg₂', h₂', hp₂⟩ := linkAlbumsOfTrack_emits
    (fun e => ∀ t k r, e = AdderEvent.resolvedAlbum t k r → k = key) (a.mLastTrackId + 1)
    (artistsOfTrack info) info (artistsLinked a filePath modificationTime info)
    (fun _ _ _ _ _ _ h => by cases h) (fun _ _ _ _ _ _ h => by cases h)
    (fun _ _ _ _ _ _ _ _ h => by cases h) (fun _ _ _ _ _ h => by cases h)
    (fun t r t' k r' h => by cases h; exact hkey)
  have hseg : seg₂' = seg₂ := List.append_cancel_left (h₂'.symm.trans h₂)
  rw [hseg] at hp₂
  obtain ⟨seg₃, h₃, hp₃⟩ := linkGenres_emits
    (fun e => ∀ t k r, e = AdderEvent.resolvedAlbum t k r → k = key) (a.mLastTrackId + 1)
    info.genres (linkAlbumsOfTrack (a.mLastTrackId + 1) (artistsOfTrack info) info
      (artistsLinked a filePath modificationTime info))
    (fun _ _ _ _ _ _ h => by cases h) (fun _ _ _ _ _ _ h => by cases h)
    (fun _ _ _ _ _ _ _ _ h => by cases h)
  refine ⟨seg₁ ++ seg₂ ++ seg₃, ?_, ?_, ?_⟩
  · rw [h₃, h₂, h₁]
    simp
  · intro album halbum
    obtain ⟨r, hr⟩ := hall album halbum
    exact ⟨r, List.mem_append_left _ (List.mem_append_right _ hr)⟩
  · intro t k r hmem
    rcases List.mem_append.mp hmem with h | h
    · rcases List.mem_append.mp h with h | h
      · exact hp₁ _ h t k r rfl
      · exact hp₂ _ h t k r rfl
    · exact hp₃ _ h t k r rfl

/-- Witness of C23: a track of the artist X on the albums Y and Z, added to an
adder with empty tables. Both albums are new; Y is created with the key [1]
and Z is resolved with the key [1] as well. -/
theorem all_albums_of_a_track_share_the_key_witness :
    (addTrackToDatabase (blankLibraryTracksAdder 0 []) "/a.mp3".toList 1 twoAlbumsInfo).log.filter
      AdderEvent.isAlbumEvent =
      [AdderEvent.insertAlbum "Y".toList true, AdderEvent.resolvedAlbum "Y".toList [1] 1,
       AdderEvent.insertAlbum "Z".toList true, AdderEvent.resolvedAlbum "Z".toList [1] 2] ∧
    ∃ seg, (addTrackToDatabase (blankLibraryTracksAdder 0 []) "/a.mp3".toList 1
        twoAlbumsInfo).log = (blankLibraryTracksAdder 0 []).log ++ seg ∧
      (∀ album ∈ twoAlbumsInfo.albums, ∃ r, AdderEvent.resolvedAlbum album
        (albumArtistIds (artistsLinked (blankLibraryTracksAdder 0 []) "/a.mp3".toList 1
          twoAlbumsInfo) (artistsOfTrack twoAlbumsInfo) twoAlbumsInfo.albumArtists).1 r ∈ seg) ∧
      (∀ t key r, AdderEvent.resolvedAlbum t key r ∈ seg →
        key = (albumArtistIds (artistsLinked (blankLibraryTracksAdder 0 []) "/a.mp3".toList 1
          twoAlbumsInfo) (artistsOfTrack twoAlbumsInfo) twoAlbumsInfo.albumArtists).1) :=
  ⟨by decide, all_albums_of_a_track_share_the_key (blankLibraryTracksAdder 0 [])
    "/a.mp3".toList 1 twoAlbumsInfo (by decide)⟩

/-! ## Extraction without cancellation -/

theorem NoCancelDuring.afterEvent {env : Env} {r : Runnable} {n : Nat} (e : Event)
    (h : NoCancelDuring env r n) : NoCancelDuring env (emitEvent r e) n := by
  intro i hi
  exact h i hi

theorem extractionEvents_notifications (env : Env) (tracks : List TrackToAdd) (count : Nat) :
    notifications (extractionEvents env tracks count) =
      (List.range tracks.length).map (fun i => Event.extractedFilesChanged (count + 1 + i)) := by
  induction tracks generalizing count with
  | nil => rfl
  | cons track rest ih =>
    have h := ih (count + 1)
    unfold notifications at h ⊢
    simp only [extractionEvents, insertOfTrack, List.filter, Event.isNotification, h,
      List.length_cons, List.range_succ_eq_map, List.map_cons, List.map_map]
    simp only [Nat.add_zero, List.cons.injEq, true_and]
    apply List.map_congr_left
    intro i _
    simp only [Function.comp, Nat.succ_eq_add_one]
    congr 1
    omega

theorem extractionEvents_inserts (env : Env) (tracks : List TrackToAdd) (count : Nat) :
    (extractionEvents env tracks count).filter Event.isTrackInsert =
      tracks.map (insertOfTrack env) := by
  induction tracks generalizing count with
  | nil => rfl
  | cons track rest ih =>
    simp only [extractionEvents, insertOfTrack, List.filter, Event.isTrackInsert, List.map_cons]
    rw [← ih (count + 1)]

theorem addTracksLoop_without_cancel (env : Env) (tracks : List TrackToAdd) (count : Nat)
    (r : Runnable) (hnc : NoCancelDuring env r tracks.length) :
    (addTracksLoop env tracks count r).1 = count + (validTracks env tracks).length ∧
    (addTracksLoop env tracks count r).2.trace =
      r.trace ++ extractionEvents env (validTracks env tracks) count := by
  induction tracks generalizing count r with
  | nil => simp [addTracksLoop, validTracks, extractionEvents]
  | cons track rest ih =>
    have hhead := NoCancelDuring.head hnc
    have htail := NoCancelDuring.tail hnc
    unfold addTracksLoop
    rw [if_neg (by simp [hhead])]
    simp only []
    by_cases hvalid : (env.getTrackInfo track.filePath track.extension).fileTypeValid = true
    · rw [if_pos hvalid]
      have hv : validTracks env (track :: rest) = track :: validTracks env rest := by
        simp [validTracks, List.filter, hvalid]
      obtain ⟨h1, h2⟩ := ih (count + 1)
        (emitEvent (emitEvent (poll r) (insertOfTrack env track))
          (Event.extractedFilesChanged (count + 1)))
        ((htail.afterEvent _).afterEvent _)
      rw [hv]
      have hins : insertOfTrack env track = Event.addTrackToDatabase track.filePath
          (env.fs.lastModified track.filePath)
          (if (env.getTrackInfo track.filePath track.extension).title.isEmpty then
            { env.getTrackInfo track.filePath track.extension with
              title := fileInfoFileName track.filePath }
          else env.getTrackInfo track.filePath track.extension)
          track.directoryMediaArt
          (env.saveEmbeddedMediaArt
            (if (env.getTrackInfo track.filePath track.extension).title.isEmpty then
              { env.getTrackInfo track.filePath track.extension with
                title := fileInfoFileName track.filePath }
            else env.getTrackInfo track.filePath track.extension).mediaArtData) := by
        unfold insertOfTrack
        split <;> rfl
      rw [← hins]
      refine ⟨?_, ?_⟩
      · rw [h1]
        simp only [List.length_cons]
        omega
      · rw [h2]
        simp [emitEvent, poll, extractionEvents]
    · rw [if_neg hvalid]
      have hv : validTracks env (track :: rest) = validTracks env rest := by
        simp [validTracks, List.filter, hvalid]
      obtain ⟨h1, h2⟩ := ih count (poll r) htail
      rw [hv]
      exact ⟨h1, by rw [h2]; rfl⟩

/-- C26. A to-add list processed without cancellation: `addTracks` returns the
number of valid files and appends to the trace, for each valid file in order,
the call of `addTrackToDatabase` for it followed by `extractedFilesChanged`
with the running count. So the inserts are those of the valid files, the
signals carry 1, 2, ..., count, and a file that is not valid adds nothing. -/
theorem addTracks_counts_valid_files (env : Env) (tracksToAdd : List TrackToAdd)
    (r : Runnable) (hnc : NoCancelDuring env r tracksToAdd.length) :
    (addTracks env tracksToAdd r).1 = (validTracks env tracksToAdd).length ∧
    (addTracks env tracksToAdd r).2.trace =
      r.trace ++ extractionEvents env (validTracks env tracksToAdd) 0 ∧
    (extractionEvents env (validTracks env tracksToAdd) 0).filter Event.isTrackInsert =
      (validTracks env tracksToAdd).map (insertOfTrack env) ∧
    notifications (extractionEvents env (validTracks env tracksToAdd) 0) =
      (List.range (addTracks env tracksToAdd r).1).map
        (fun i => Event.extractedFilesChanged (i + 1)) := by
  obtain ⟨h1, h2⟩ := addTracksLoop_without_cancel env tracksToAdd 0 r hnc
  have hcount : (addTracks env tracksToAdd r).1 = (validTracks env tracksToAdd).length := by
    unfold addTracks
    rw [h1, Nat.zero_add]
  refine ⟨hcount, h2, extractionEvents_inserts _ _ _, ?_⟩
  rw [extractionEvents_notifications, hcount]
  apply List.map_congr_left
  intro i _
  congr 1
  omega

/-- Witness of C26: three files, the second not valid, never cancelled; the
count is 2. -/
theorem addTracks_counts_valid_files_witness :
    (addTracks sampleEnvWithInvalidFile sampleTracksToAdd newRunnable).1 = 2 :=
  (addTracks_counts_valid_files sampleEnvWithInvalidFile sampleTracksToAdd newRunnable
    (fun _ _ => rfl)).1.trans (by decide)

/-! ## Track ids -/

theorem foldl_max_bounds (ids : List Int) (init : Int) :
    init ≤ ids.foldl max init ∧ ∀ id ∈ ids, id ≤ ids.foldl max init := by
  induction ids generalizing init with
  | nil => exact ⟨Int.le_refl _, by simp⟩
  | cons x rest ih =>
    obtain ⟨h1, h2⟩ := ih (max init x)
    refine ⟨Int.le_trans (Int.le_max_left _ _) h1, ?_⟩
    intro id hid
    rcases List.mem_cons.mp hid with rfl | hid
    · exact Int.le_trans (Int.le_max_right _ _) h1
    · exact h2 id hid

theorem lastTrackQuery_bounds (trackIds : List Int) :
    ∀ id ∈ trackIds, ∃ last, lastTrackQuery trackIds = some last ∧ id ≤ last := by
  intro id hid
  cases trackIds with
  | nil => cases hid
  | cons x rest =>
    refine ⟨rest.foldl max x, rfl, ?_⟩
    rcases List.mem_cons.mp hid with rfl | hid
    · exact (foldl_max_bounds rest _).1
    · exact (foldl_max_bounds rest x).2 id hid

theorem addTrackToDatabase_mLastTrackId (a : LibraryTracksAdder) (filePath : QString)
    (modificationTime : Int) (info : Info) :
    (a.attempt.1 = true →
      (addTrackToDatabase a filePath modificationTime info).mLastTrackId = a.mLastTrackId + 1) ∧
    (a.attempt.1 = false →
      (addTrackToDatabase a filePath modificationTime info).mLastTrackId = a.mLastTrackId) := by
  constructor
  · intro hok
    rw [addTrackToDatabase_eq a filePath modificationTime info hok,
      (linkGenres_mAlbums _ _ _).2, linkAlbumsOfTrack_mLastTrackId,
      (artistsLinked_mAlbums _ _ _ _).2]
  · intro hfail
    unfold addTrackToDatabase
    simp [hfail]

theorem assignedTrackIds_consecutive (a : LibraryTracksAdder)
    (tracks : List (QString × Int × Info)) :
    ∃ n, n ≤ tracks.length ∧
      assignedTrackIds a tracks = (List.range n).map (fun i : Nat => a.mLastTrackId + 1 + (i : Int)) := by
  induction tracks generalizing a with
  | nil => exact ⟨0, Nat.le_refl _, rfl⟩
  | cons track rest ih =>
    obtain ⟨n, hn, hrest⟩ := ih (addTrackToDatabase a track.1 track.2.1 track.2.2)
    obtain ⟨hsucc, hfail⟩ := addTrackToDatabase_mLastTrackId a track.1 track.2.1 track.2.2
    unfold assignedTrackIds
    cases hok : a.attempt.1 with
    | true =>
      refine ⟨n + 1, Nat.succ_le_succ hn, ?_⟩
      rw [if_pos rfl, hrest, hsucc hok, List.range_succ_eq_map]
      simp only [List.map_cons, List.map_map, Nat.cast_zero, Int.add_zero, List.cons.injEq,
        true_and]
      apply List.map_congr_left
      intro i _
      simp only [Function.comp, Nat.succ_eq_add_one, Nat.cast_add, Nat.cast_one]
      omega
    | false =>
      refine ⟨n, Nat.le_succ_of_le hn, ?_⟩
      rw [if_neg (by simp), hrest, hfail hok]

theorem newLibraryTracksAdder_mLastTrackId (queries : AdderQueries) (initialLastTrackId : Int)
    (outcomes : List Bool) :
    (newLibraryTracksAdder queries initialLastTrackId outcomes).mLastTrackId =
      match queries.lastTrack with
      | some (some id) => id
      | some none => 0
      | none => initialLastTrackId := by
  unfold newLibraryTracksAdder
  cases h : queries.lastTrack with
  | none => rfl
  | some row => cases row <;> rfl

/-- C22, the part that fails: in the run over the sample library the row 1 of
the changed file `s1.mp3` is deleted, and the adder, constructed after the
deletions, gives the re-added file the id 1 again and the new file the id 2 of
the other deleted row. -/
theorem deleted_track_id_is_assigned_again :
    deletedTrackIds (run (sampleEnv none) newRunnable).trace = [2, 1] ∧
    remainingTrackIds (sampleRows.map TrackRow.id) (run (sampleEnv none) newRunnable).trace =
      [] ∧
    (insertsOfTrace (run (sampleEnv none) newRunnable).trace).map (fun track => track.1) =
      ["/music/A/s1.mp3".toList, "/music/A/new.mp3".toList] ∧
    assignedTrackIds (newLibraryTracksAdder sampleQueriesOfRun 0 [])
      (insertsOfTrace (run (sampleEnv none) newRunnable).trace) = [1, 2] := by
  decide

/-- C22 as amended. A call of `addTrackToDatabase` whose insert succeeds
assigns the last track id plus one and makes it the last track id; a call whose
insert fails assigns none and leaves the last track id. So the ids any adder
assigns to successive tracks count up by one from its first last track id.
When the last track query of the constructor succeeds on the table as the
deletions of the run left it, whatever the other three queries give, the adder
starts at the highest id left in the table, 0 for an empty table, and every id
it assigns is above every remaining row. When that query fails the adder
starts at the value the member had. -/
theorem track_ids_count_up_from_the_remaining_rows (queries : AdderQueries)
    (initialLastTrackId : Int) (outcomes : List Bool) (trackIds : List Int)
    (trace : List Event) (tracks : List (QString × Int × Info))
    (hquery : queries.lastTrack = some (lastTrackQuery (remainingTrackIds trackIds trace))) :
    (∀ (a : LibraryTracksAdder) (filePath : QString) (modificationTime : Int) (info : Info),
      (a.attempt.1 = true →
        (addTrackToDatabase a filePath modificationTime info).mLastTrackId =
          a.mLastTrackId + 1) ∧
      (a.attempt.1 = false →
        (addTrackToDatabase a filePath modificationTime info).mLastTrackId =
          a.mLastTrackId)) ∧
    (∀ (a : LibraryTracksAdder) (added : List (QString × Int × Info)),
      ∃ n, n ≤ added.length ∧
        assignedTrackIds a added =
          (List.range n).map (fun i : Nat => a.mLastTrackId + 1 + (i : Int))) ∧
    (newLibraryTracksAdder queries initialLastTrackId outcomes).mLastTrackId =
      (lastTrackQuery (remainingTrackIds trackIds trace)).getD 0 ∧
    (∀ id ∈ assignedTrackIds (newLibraryTracksAdder queries initialLastTrackId outcomes) tracks,
      ∀ row ∈ remainingTrackIds trackIds trace, row < id) ∧
    (∀ failed : AdderQueries, failed.lastTrack = none →
      (newLibraryTracksAdder failed initialLastTrackId outcomes).mLastTrackId =
        initialLastTrackId) := by
  have hlast : (newLibraryTracksAdder queries initialLastTrackId outcomes).mLastTrackId =
      (lastTrackQuery (remainingTrackIds trackIds trace)).getD 0 := by
    rw [newLibraryTracksAdder_mLastTrackId, hquery]
    cases lastTrackQuery (remainingTrackIds trackIds trace) <;> rfl
  obtain ⟨n, hn, hids⟩ := assignedTrackIds_consecutive
    (newLibraryTracksAdder queries initialLastTrackId outcomes) tracks
  refine ⟨addTrackToDatabase_mLastTrackId, assignedTrackIds_consecutive, hlast, ?_, ?_⟩
  · intro id hid row hrow
    rw [hids, List.mem_map] at hid
    obtain ⟨i, -, rfl⟩ := hid
    obtain ⟨last, hq, hle⟩ := lastTrackQuery_bounds _ row hrow
    rw [hlast, hq]
    simp only [Option.getD_some]
    omega
  · intro failed hfailed
    rw [newLibraryTracksAdder_mLastTrackId, hfailed]

/-- Witness of C22 as amended: a table with the rows 1, 2 and 5 of which the
run deleted the row 5, seeded artists, and two tracks added; they get the ids
3 and 4. -/
theorem track_ids_count_up_from_the_remaining_rows_witness :
    assignedTrackIds
      (newLibraryTracksAdder
        { lastTrack := some (some 2), artists := some [{ id := 1, title := "a".toList }]
          albums := some [], genres := none } 7 [])
      [("/a.mp3".toList, 1, sampleInfo), ("/b.mp3".toList, 2, sampleInfo)] = [3, 4] ∧
    ∀ id ∈ assignedTrackIds
        (newLibraryTracksAdder
          { lastTrack := some (some 2), artists := some [{ id := 1, title := "a".toList }]
            albums := some [], genres := none } 7 [])
        [("/a.mp3".toList, 1, sampleInfo), ("/b.mp3".toList, 2, sampleInfo)],
      ∀ row ∈ remainingTrackIds [1, 2, 5] [Event.removeTracksFromDbByIds [5]], row < id :=
  ⟨by decide,
    (track_ids_count_up_from_the_remaining_rows
      { lastTrack := some (some 2), artists := some [{ id := 1, title := "a".toList }]
        albums := some [], genres := none } 7 [] [1, 2, 5]
      [Event.removeTracksFromDbByIds [5]]
      [("/a.mp3".toList, 1, sampleInfo), ("/b.mp3".toList, 2, sampleInfo)] (by decide)).2.2.2.1⟩

/-! ## Directory art of nested directories -/

/-- C24: the code at the failing input. A cover was put into `/music/A`; the
nested directory `/music/A/sub` has a cover of its own, stored with its row,
and both files are unchanged. The run issues one update, for the prefix
`/music/A/`, and none for `/music/A/sub`: the row of `/music/A/sub/b.mp3` ends
the scan with the cover of `/music/A`, not with the one resolved for its own
directory. -/
theorem nested_directory_art_is_overwritten :
    statements (run artEnv newRunnable).trace =
      [Event.updateDirectoryMediaArt "/music/A/cover.jpg".toList "/music/A/".toList,
       Event.removeUnusedCategories, Event.removeUnusedMediaArt] ∧
    (rowsAfterArtUpdates artRows (run artEnv newRunnable).trace).map
        (fun row => (row.filePath, row.directoryMediaArt)) =
      [("/music/A/a.mp3".toList, "/music/A/cover.jpg".toList),
       ("/music/A/sub/b.mp3".toList, "/music/A/cover.jpg".toList)] ∧
    artEnv.findMediaArtForDirectory (fileInfoPath "/music/A/sub/b.mp3".toList) =
      "/music/A/sub/cover.jpg".toList := by
  decide

/-! ## Playlist tracks -/

/-- C27: the code at the failing input. A playlist that lists the URL `u`
twice: after `componentComplete` both entries of `m_tracks` are the one object
of the hash, and the invariant holds; `removeAt(0)` deletes that object and
its hash entry while the second entry of `m_tracks` still points to it. -/
theorem removeAt_leaves_a_dangling_track :
    (componentComplete id ["u".toList, "u".toList] newPlaylistModel).m_tracks = [0, 0] ∧
    tracksLive (componentComplete id ["u".toList, "u".toList] newPlaylistModel) = true ∧
    (removeAt 0 (componentComplete id ["u".toList, "u".toList] newPlaylistModel)).m_tracks =
      [0] ∧
    (removeAt 0
      (componentComplete id ["u".toList, "u".toList] newPlaylistModel)).m_uniqueTracksHash =
      [] ∧
    (removeAt 0 (componentComplete id ["u".toList, "u".toList] newPlaylistModel)).heap = [] ∧
    tracksLive (removeAt 0 (componentComplete id ["u".toList, "u".toList] newPlaylistModel)) =
      false ∧
    tracksLive (clear (componentComplete id ["u".toList, "u".toList] newPlaylistModel)) =
      true := by
  decide

/-! ## SPARQL escaping -/

/-- C28: the code at the failing input. The string that is one double quote
comes out as three characters, two backslashes and the quote: the backslash
the sixth replacement puts in is doubled by the last one. Likewise for a
tab. -/
theorem escapeSparql_doubles_its_own_backslashes :
    escapeSparql [Char.ofNat 34] = [backslash, backslash, Char.ofNat 34] ∧
    escapeSparql [Char.ofNat 9] = [backslash, backslash, 't'] ∧
    escapeSparql [backslash] = [backslash, backslash] := by
  decide

/-! ## A new album after a descending seed -/

/-- C18: the code at the failing input. The database holds the albums 1 (A)
and 2 (B) and the seeding query returns the row of album 2 first: the last
album id ends as 1 and the table holds an entry with the id 2. The key (C, [])
is not in the table, the insert succeeds, an album row is created, and
`getAlbumId` returns 2: the id of an entry of the table and of an album of the
database. -/
theorem new_album_gets_an_id_in_use :
    descendingQueries.albums = some [{ id := 2, title := "B".toList, artistId := 0 },
      { id := 1, title := "A".toList, artistId := 0 }] ∧
    (newLibraryTracksAdder descendingQueries 0 []).mAlbums =
      { ids := [(("A".toList, []), 2)], lastId := 1 } ∧
    albumFind (newLibraryTracksAdder descendingQueries 0 []).mAlbums.ids ("C".toList, []) =
      none ∧
    (newLibraryTracksAdder descendingQueries 0 []).attempt.1 = true ∧
    (getAlbumId (newLibraryTracksAdder descendingQueries 0 []) "C".toList []).2.log =
      [AdderEvent.insertAlbum "C".toList true, AdderEvent.resolvedAlbum "C".toList [] 2] ∧
    (getAlbumId (newLibraryTracksAdder descendingQueries 0 []) "C".toList []).1 = 2 := by
  decide

/-! ## Failed inserts of entities -/

/-- The genre loop of a track resolves every genre of the list; with a
non-zero result the track is linked to it. -/
theorem linkGenres_links (trackId : Int) (genres : List QString) (a : LibraryTracksAdder) :
    ∃ seg, (linkGenres trackId genres a).log = a.log ++ seg ∧
      ∀ n ∈ genres, ∃ r,
        AdderEvent.resolvedArtistOrGenre TitleTable.genres n r ∈ seg ∧
        (r ≠ 0 →
          ∃ ok, AdderEvent.insertRelationship "tracks_genres".toList trackId r ok ∈ seg) := by
  induction genres generalizing a with
  | nil => exact ⟨[], by simp [linkGenres], by simp⟩
  | cons genre rest ih =>
    obtain ⟨seg₁, h₁, hmem⟩ := getArtistOrGenreId_log a genre TitleTable.genres
    generalize hstep : (if (getGenreId a genre).1 != 0 then
        addRelationship (getGenreId a genre).2 trackId (getGenreId a genre).1
          "tracks_genres".toList
      else (getGenreId a genre).2) = a₁
    have hdef : linkGenres trackId (genre :: rest) a = linkGenres trackId rest a₁ := by
      rw [← hstep]
      rfl
    have hlink : ∃ link, a₁.log = (getGenreId a genre).2.log ++ link ∧
        ((getGenreId a genre).1 ≠ 0 → ∃ ok, AdderEvent.insertRelationship
          "tracks_genres".toList trackId (getGenreId a genre).1 ok ∈ link) := by
      rw [← hstep]
      split
      · exact ⟨[AdderEvent.insertRelationship "tracks_genres".toList trackId
          (getGenreId a genre).1 (getGenreId a genre).2.attempt.1],
          addRelationship_log _ _ _ _, fun _ => ⟨_, List.mem_singleton.mpr rfl⟩⟩
      · rename_i hz
        exact ⟨[], by simp, fun hne => absurd (by simpa using hne) hz⟩
    obtain ⟨link, hlinklog, hlinkmem⟩ := hlink
    obtain ⟨seg, hseg, hall⟩ := ih a₁
    rw [hdef]
    refine ⟨seg₁ ++ link ++ seg, ?_, ?_⟩
    · rw [hseg, hlinklog]
      unfold getGenreId
      rw [h₁]
      simp
    · intro n hn
      by_cases hhead : n = genre
      · subst hhead
        refine ⟨(getGenreId a n).1, ?_, fun hne => ?_⟩
        · apply List.mem_append_left
          exact List.mem_append_left _ hmem
        · obtain ⟨ok, hok⟩ := hlinkmem hne
          exact ⟨ok, List.mem_append_left _ (List.mem_append_right _ hok)⟩
      · have hn' : n ∈ rest := by
          rcases List.mem_cons.mp hn with h | h
          · exact absurd h hhead
          · exact h
        obtain ⟨r, hr, hrest⟩ := hall n hn'
        refine ⟨r, List.mem_append_right _ hr, fun hne => ?_⟩
        obtain ⟨ok, p2⟩ := hrest hne
        exact ⟨ok, List.mem_append_right _ p2⟩

/-- Once the track row is inserted, `addTrackToDatabase` resolves every artist,
every album and every genre of the track, whatever the outcomes of the inserts
on the way, and inserts a relationship row for each that resolved to a
non-zero id. -/
theorem addTrackToDatabase_processes (a : LibraryTracksAdder) (filePath : QString)
    (modificationTime : Int) (info : Info) (hok : a.attempt.1 = true) :
    ∃ seg, (addTrackToDatabase a filePath modificationTime info).log = a.log ++ seg ∧
      (∀ n ∈ artistsOfTrack info, ∃ r,
        AdderEvent.resolvedArtistOrGenre TitleTable.artists n r ∈ seg ∧
        (r ≠ 0 → ∃ ok, AdderEvent.insertRelationship "tracks_artists".toList
          (a.mLastTrackId + 1) r ok ∈ seg)) ∧
      (∀ album ∈ info.albums, ∃ r,
        AdderEvent.resolvedAlbum album
          (albumArtistIds (artistsLinked a filePath modificationTime info) (artistsOfTrack info)
            info.albumArtists).1 r ∈ seg ∧
        (r ≠ 0 → ∃ ok, AdderEvent.insertRelationship "tracks_albums".toList
          (a.mLastTrackId + 1) r ok ∈ seg)) ∧
      (∀ g ∈ info.genres, ∃ r,
        AdderEvent.resolvedArtistOrGenre TitleTable.genres g r ∈ seg ∧
        (r ≠ 0 → ∃ ok, AdderEvent.insertRelationship "tracks_genres".toList
          (a.mLastTrackId + 1) r ok ∈ seg)) := by
  obtain ⟨segL, hL, hartists⟩ := addTrackToDatabase_links a filePath modificationTime info hok
  rw [addTrackToDatabase_eq a filePath modificationTime info hok] at hL ⊢
  obtain ⟨seg₁, h₁, -⟩ := artistsLinked_emits (fun _ => True) a filePath modificationTime info
    trivial (fun _ _ _ => trivial) (fun _ _ _ => trivial) (fun _ _ _ _ _ => trivial)
  obtain ⟨seg₂, h₂, halbums⟩ := linkAlbumsOfTrack_resolves (a.mLastTrackId + 1)
    (artistsOfTrack info) info (artistsLinked a filePath modificationTime info)
  obtain ⟨seg₂', ⟨h₂', hres, -⟩⟩ := linkAlbumsOfTrack_albumsResolved (a.mLastTrackId + 1)
    (artistsOfTrack info) info (artistsLinked a filePath modificationTime info)
  have e₂ : seg₂' = seg₂ := List.append_cancel_left (h₂'.symm.trans h₂)
  subst e₂
  obtain ⟨seg₃, h₃, hgenres⟩ := linkGenres_links (a.mLastTrackId + 1) info.genres
    (linkAlbumsOfTrack (a.mLastTrackId + 1) (artistsOfTrack info) info
      (artistsLinked a filePath modificationTime info))
  have hseg : segL = seg₁ ++ seg₂' ++ seg₃ := by
    apply @List.append_cancel_left _ a.log
    rw [← hL, h₃, h₂, h₁]
    simp
  refine ⟨segL, hL, ?_, ?_, ?_⟩
  · intro n hn
    obtain ⟨r, hr, hrest⟩ := hartists n hn
    exact ⟨r, hr, fun hne => (hrest hne).2.1⟩
  · intro album halbum
    obtain ⟨r, hr⟩ := halbums album halbum
    refine ⟨r, ?_, fun hne => ?_⟩
    · rw [hseg]
      exact List.mem_append_left _ (List.mem_append_right _ hr)
    · obtain ⟨-, -, ⟨ok, hlink⟩, -⟩ := (hres _ _ _ hr).1 hne
      refine ⟨ok, ?_⟩
      rw [hseg]
      exact List.mem_append_left _ (List.mem_append_right _ hlink)
  · intro g hg
    obtain ⟨r, hr, hrest⟩ := hgenres g hg
    refine ⟨r, ?_, fun hne => ?_⟩
    · rw [hseg]
      exact List.mem_append_right _ hr
    · obtain ⟨ok, hlink⟩ := hrest hne
      refine ⟨ok, ?_⟩
      rw [hseg]
      exact List.mem_append_right _ hlink

theorem getArtistOrGenreId_failed (a : LibraryTracksAdder) (title : QString)
    (which : TitleTable) (ht : title ≠ []) (hfail : a.attempt.1 = false)
    (habsent : mapFind (a.titles which).ids title = none) :
    getArtistOrGenreId a title which =
      (0, a.attempt.2.recordAll
        [AdderEvent.insertArtistOrGenre (a.titles which).table title false,
         AdderEvent.resolvedArtistOrGenre which title 0]) := by
  have hempty : title.isEmpty = false := by
    cases title with
    | nil => exact absurd rfl ht
    | cons c cs => rfl
  have hcore : getArtistOrGenreIdCore a title which =
      (0, a.attempt.2.record
        (AdderEvent.insertArtistOrGenre (a.titles which).table title false)) := by
    unfold getArtistOrGenreIdCore addArtistOrGenre
    simp [hempty, habsent, hfail]
  unfold getArtistOrGenreId
  rw [hcore]
  simp only [record_eq_recordAll, recordAll_recordAll]
  rfl

theorem getAlbumId_failed (a : LibraryTracksAdder) (title : QString) (artistIds : List Int)
    (ht : title ≠ []) (hfail : a.attempt.1 = false)
    (habsent : albumFind a.mAlbums.ids (title, artistIds) = none) :
    getAlbumId a title artistIds =
      (0, a.attempt.2.recordAll
        [AdderEvent.insertAlbum title false, AdderEvent.resolvedAlbum title artistIds 0]) := by
  have hempty : title.isEmpty = false := by
    cases title with
    | nil => exact absurd rfl ht
    | cons c cs => rfl
  have hcore : getAlbumIdCore a title artistIds =
      (0, a.attempt.2.record (AdderEvent.insertAlbum title false)) := by
    unfold getAlbumIdCore addAlbum
    simp [hempty, habsent, hfail]
  unfold getAlbumId
  rw [hcore]
  simp only [record_eq_recordAll, recordAll_recordAll]
  rfl

theorem attempt_outcome_kept (a : LibraryTracksAdder) (seg : List AdderEvent) :
    (∀ which, (a.attempt.2.recordAll seg).titles which = a.titles which) ∧
    (a.attempt.2.recordAll seg).mAlbums = a.mAlbums ∧
    (a.attempt.2.recordAll seg).mLastTrackId = a.mLastTrackId ∧
    (a.attempt.2.recordAll seg).log = a.log ++ seg := by
  refine ⟨?_, ?_, ?_, ?_⟩
  · intro which
    have := attempt_titles a which
    cases which <;> exact this
  · exact attempt_mAlbums a
  · exact attempt_mLastTrackId a
  · show a.attempt.2.log ++ seg = a.log ++ seg
    rw [attempt_log]

/-- C14. The insert of a new artist, genre or album failing: the resolving
call returns 0 and leaves the adder as it was but for the failed insert and the
record of the call in the log, so the three lookup tables and the last ids are
exactly as before. The loops of `addTrackToDatabase` insert no relationship
row for the entity and go on with the entries that follow it, from that state.
And once the track row is inserted, whatever the outcomes of the inserts on
the way, every artist, album and genre of the track is resolved and, when it
resolved to a non-zero id, given its relationship row. -/
theorem failed_insert_resolves_to_zero (a : LibraryTracksAdder) (title : QString)
    (which : TitleTable) (artistIds : List Int)
    (ht : title ≠ []) (hfail : a.attempt.1 = false) :
    (mapFind (a.titles which).ids title = none →
      getArtistOrGenreId a title which =
        (0, a.attempt.2.recordAll
          [AdderEvent.insertArtistOrGenre (a.titles which).table title false,
           AdderEvent.resolvedArtistOrGenre which title 0]) ∧
      (∀ w, (getArtistOrGenreId a title which).2.titles w = a.titles w) ∧
      (getArtistOrGenreId a title which).2.mAlbums = a.mAlbums ∧
      (getArtistOrGenreId a title which).2.mLastTrackId = a.mLastTrackId) ∧
    (albumFind a.mAlbums.ids (title, artistIds) = none →
      getAlbumId a title artistIds =
        (0, a.attempt.2.recordAll
          [AdderEvent.insertAlbum title false, AdderEvent.resolvedAlbum title artistIds 0]) ∧
      (∀ w, (getAlbumId a title artistIds).2.titles w = a.titles w) ∧
      (getAlbumId a title artistIds).2.mAlbums = a.mAlbums ∧
      (getAlbumId a title artistIds).2.mLastTrackId = a.mLastTrackId) ∧
    (mapFind a.mArtists.ids title = none →
      ∀ (trackId : Int) (rest : List QString) (ids : List Int),
        linkArtists trackId (title :: rest) a =
          linkArtists trackId rest (a.attempt.2.recordAll
            [AdderEvent.insertArtistOrGenre a.mArtists.table title false,
             AdderEvent.resolvedArtistOrGenre TitleTable.artists title 0]) ∧
        resolveAlbumArtists (title :: rest) ids a =
          resolveAlbumArtists rest ids (a.attempt.2.recordAll
            [AdderEvent.insertArtistOrGenre a.mArtists.table title false,
             AdderEvent.resolvedArtistOrGenre TitleTable.artists title 0])) ∧
    (albumFind a.mAlbums.ids (title, artistIds) = none →
      ∀ (trackId : Int) (rest : List QString),
        linkAlbums trackId artistIds (title :: rest) a =
          linkAlbums trackId artistIds rest (a.attempt.2.recordAll
            [AdderEvent.insertAlbum title false,
             AdderEvent.resolvedAlbum title artistIds 0])) ∧
    (mapFind a.mGenres.ids title = none →
      ∀ (trackId : Int) (rest : List QString),
        linkGenres trackId (title :: rest) a =
          linkGenres trackId rest (a.attempt.2.recordAll
            [AdderEvent.insertArtistOrGenre a.mGenres.table title false,
             AdderEvent.resolvedArtistOrGenre TitleTable.genres title 0])) ∧
    (∀ (a₀ : LibraryTracksAdder) (filePath : QString) (modificationTime : Int) (info : Info),
      a₀.attempt.1 = true →
      ∃ seg, (addTrackToDatabase a₀ filePath modificationTime info).log = a₀.log ++ seg ∧
        (∀ n ∈ artistsOfTrack info, ∃ r,
          AdderEvent.resolvedArtistOrGenre TitleTable.artists n r ∈ seg ∧
          (r ≠ 0 → ∃ ok, AdderEvent.insertRelationship "tracks_artists".toList
            (a₀.mLastTrackId + 1) r ok ∈ seg)) ∧
        (∀ album ∈ info.albums, ∃ r,
          AdderEvent.resolvedAlbum album
            (albumArtistIds (artistsLinked a₀ filePath modificationTime info)
              (artistsOfTrack info) info.albumArtists).1 r ∈ seg ∧
          (r ≠ 0 → ∃ ok, AdderEvent.insertRelationship "tracks_albums".toList
            (a₀.mLastTrackId + 1) r ok ∈ seg)) ∧
        (∀ g ∈ info.genres, ∃ r,
          AdderEvent.resolvedArtistOrGenre TitleTable.genres g r ∈ seg ∧
          (r ≠ 0 → ∃ ok, AdderEvent.insertRelationship "tracks_genres".toList
            (a₀.mLastTrackId + 1) r ok ∈ seg))) := by
  refine ⟨?_, ?_, ?_, ?_, ?_, addTrackToDatabase_processes⟩
  · intro habsent
    have h := getArtistOrGenreId_failed a title which ht hfail habsent
    obtain ⟨k1, k2, k3, -⟩ := attempt_outcome_kept a
      [AdderEvent.insertArtistOrGenre (a.titles which).table title false,
       AdderEvent.resolvedArtistOrGenre which title 0]
    rw [h]
    exact ⟨rfl, k1, k2, k3⟩
  · intro habsent
    have h := getAlbumId_failed a title artistIds ht hfail habsent
    obtain ⟨k1, k2, k3, -⟩ := attempt_outcome_kept a
      [AdderEvent.insertAlbum title false, AdderEvent.resolvedAlbum title artistIds 0]
    rw [h]
    exact ⟨rfl, k1, k2, k3⟩
  · intro habsent trackId rest ids
    have h := getArtistOrGenreId_failed a title TitleTable.artists ht hfail habsent
    constructor
    · show linkArtists trackId rest
          (if (getArtistOrGenreId a title TitleTable.artists).1 != 0 then
            addRelationship (getArtistOrGenreId a title TitleTable.artists).2 trackId
              (getArtistOrGenreId a title TitleTable.artists).1 "tracks_artists".toList
          else (getArtistOrGenreId a title TitleTable.artists).2) = _
      rw [h]
      rfl
    · show resolveAlbumArtists rest
          (if (getArtistOrGenreId a title TitleTable.artists).1 != 0 then
            ids ++ [(getArtistOrGenreId a title TitleTable.artists).1]
          else ids) (getArtistOrGenreId a title TitleTable.artists).2 = _
      rw [h]
      rfl
  · intro habsent trackId rest
    have h := getAlbumId_failed a title artistIds ht hfail habsent
    show linkAlbums trackId artistIds rest
        (if (getAlbumId a title artistIds).1 != 0 then
          addRelationship (getAlbumId a title artistIds).2 trackId
            (getAlbumId a title artistIds).1 "tracks_albums".toList
        else (getAlbumId a title artistIds).2) = _
    rw [h]
    rfl
  · intro habsent trackId rest
    have h := getArtistOrGenreId_failed a title TitleTable.genres ht hfail habsent
    show linkGenres trackId rest
        (if (getArtistOrGenreId a title TitleTable.genres).1 != 0 then
          addRelationship (getArtistOrGenreId a title TitleTable.genres).2 trackId
            (getArtistOrGenreId a title TitleTable.genres).1 "tracks_genres".toList
        else (getArtistOrGenreId a title TitleTable.genres).2) = _
    rw [h]
    rfl

/-- Witness of C14: an adder with empty tables whose next statement fails and
whose later statements succeed. The insert of the artist X fails: X resolves to
0 and gets no relationship row, and the loop goes on with Z, which is inserted
with the id 1 and linked to the track. In a whole track with the artists X and
Z, the album Y and the genre G, where the insert of X fails after the track
row was inserted, Z, Y and G are inserted and linked all the same. -/
theorem failed_insert_resolves_to_zero_witness :
    (linkArtists 1 ["X".toList, "Z".toList] (blankLibraryTracksAdder 0 [false])).log =
      [AdderEvent.insertArtistOrGenre "artists".toList "X".toList false,
       AdderEvent.resolvedArtistOrGenre TitleTable.artists "X".toList 0,
       AdderEvent.insertArtistOrGenre "artists".toList "Z".toList true,
       AdderEvent.resolvedArtistOrGenre TitleTable.artists "Z".toList 1,
       AdderEvent.insertRelationship "tracks_artists".toList 1 1 true] ∧
    (getAlbumId (blankLibraryTracksAdder 0 [false]) "X".toList [1]).1 = 0 ∧
    (addTrackToDatabase (blankLibraryTracksAdder 0 [true, false]) "/a.mp3".toList 1
      fullyTaggedInfo).log =
      [AdderEvent.insertTrack "/a.mp3".toList 1 "T".toList true,
       AdderEvent.insertArtistOrGenre "artists".toList "X".toList false,
       AdderEvent.resolvedArtistOrGenre TitleTable.artists "X".toList 0,
       AdderEvent.insertArtistOrGenre "artists".toList "Z".toList true,
       AdderEvent.resolvedArtistOrGenre TitleTable.artists "Z".toList 1,
       AdderEvent.insertRelationship "tracks_artists".toList 1 1 true,
       AdderEvent.insertArtistOrGenre "artists".toList "X".toList true,
       AdderEvent.resolvedArtistOrGenre TitleTable.artists "X".toList 2,
       AdderEvent.insertAlbum "Y".toList true,
       AdderEvent.insertRelationship "albums_artists".toList 1 2 true,
       AdderEvent.resolvedAlbum "Y".toList [2] 1,
       AdderEvent.insertRelationship "tracks_albums".toList 1 1 true,
       AdderEvent.insertArtistOrGenre "genres".toList "G".toList true,
       AdderEvent.resolvedArtistOrGenre TitleTable.genres "G".toList 1,
       AdderEvent.insertRelationship "tracks_genres".toList 1 1 true] :=
  ⟨(congrArg LibraryTracksAdder.log
      (((failed_insert_resolves_to_zero (blankLibraryTracksAdder 0 [false]) "X".toList
        TitleTable.artists [1] (by decide) (by decide)).2.2.1 (by decide)) 1 ["Z".toList]
        []).1).trans (by decide),
   (congrArg Prod.fst
      ((failed_insert_resolves_to_zero (blankLibraryTracksAdder 0 [false]) "X".toList
        TitleTable.artists [1] (by decide) (by decide)).2.1 (by decide)).1).trans rfl,
   by decide⟩

/-! ## Adders whose statements succeed -/

theorem attempt_of_nil (a : LibraryTracksAdder) (h : a.outcomes = []) :
    a.attempt = (true, a) := by
  unfold LibraryTracksAdder.attempt
  rw [h]

theorem mem_of_mapFind {ν : Type} (m : List (QString × ν)) (key : QString) (v : ν)
    (h : mapFind m key = some v) : (key, v) ∈ m := by
  induction m with
  | nil => simp [mapFind] at h
  | cons x rest ih =>
    unfold mapFind at h
    split at h
    · rename_i hk
      have hv : x.2 = v := by simpa using h
      rw [← hk, ← hv]
      exact List.mem_cons_self _ _
    · exact List.mem_cons_of_mem _ (ih h)

theorem mem_of_albumFind (m : List ((QString × List Int) × Int)) (key : QString × List Int)
    (v : Int) (h : albumFind m key = some v) : (key, v) ∈ m := by
  induction m with
  | nil => simp [albumFind] at h
  | cons x rest ih =>
    obtain ⟨k, w⟩ := x
    unfold albumFind at h
    split at h
    · rename_i hk
      have hv : w = v := by simpa using h
      rw [← hk, ← hv]
      exact List.mem_cons_self _ _
    · exact List.mem_cons_of_mem _ (ih h)

theorem mem_mapInsert {ν : Type} (m : List (QString × ν)) (key : QString) (v : ν)
    (entry : QString × ν) (h : entry ∈ mapInsert m key v) : entry ∈ m ∨ entry = (key, v) := by
  unfold mapInsert at h
  split at h
  · exact Or.inl h
  · rcases List.mem_append.mp h with h | h
    · exact Or.inl h
    · exact Or.inr (List.mem_singleton.mp h)

theorem mem_albumInsert (m : List ((QString × List Int) × Int)) (key : QString × List Int)
    (v : Int) (entry : (QString × List Int) × Int) (h : entry ∈ albumInsert m key v) :
    entry ∈ m ∨ entry = (key, v) := by
  unfold albumInsert at h
  split at h
  · exact Or.inl h
  · rcases List.mem_append.mp h with h | h
    · exact Or.inl h
    · exact Or.inr (List.mem_singleton.mp h)

theorem Succeeding.of_record {a : LibraryTracksAdder} (h : Succeeding a) (e : AdderEvent) :
    Succeeding (a.record e) := h

theorem Succeeding.attempt_ok {a : LibraryTracksAdder} (h : Succeeding a) :
    a.attempt.1 = true ∧ a.attempt.2 = a := by
  rw [attempt_of_nil a h.1]
  exact ⟨rfl, rfl⟩

theorem Succeeding.titles {a : LibraryTracksAdder} (h : Succeeding a) (which : TitleTable) :
    0 ≤ (a.titles which).lastId ∧ ∀ entry ∈ (a.titles which).ids, 0 < entry.2 := by
  obtain ⟨-, h1, h2, h3, h4, -, -⟩ := h
  cases which
  · exact ⟨h1, h2⟩
  · exact ⟨h3, h4⟩

theorem addRelationship_succeeding (a : LibraryTracksAdder) (firstId secondId : Int)
    (table : QString) (h : Succeeding a) :
    addRelationship a firstId secondId table =
      a.record (AdderEvent.insertRelationship table firstId secondId true) := by
  unfold addRelationship
  simp only [h.attempt_ok.1, h.attempt_ok.2]

theorem getArtistOrGenreId_succeeding (a : LibraryTracksAdder) (title : QString)
    (which : TitleTable) (h : Succeeding a) :
    Succeeding (getArtistOrGenreId a title which).2 ∧
    AdderEmits (fun e => e.isSuccess = true) a (getArtistOrGenreId a title which).2 := by
  obtain ⟨hlast, hids⟩ := h.titles which
  cases title with
  | nil =>
    exact ⟨h.of_record _, AdderEmits.record _ _ rfl⟩
  | cons c cs =>
    have hempty : (c :: cs).isEmpty = false := rfl
    cases hf : mapFind (a.titles which).ids (c :: cs) with
    | some found =>
      have hfound : getArtistOrGenreId a (c :: cs) which =
          (found, a.record (AdderEvent.resolvedArtistOrGenre which (c :: cs) found)) :=
        getArtistOrGenreId_found a (c :: cs) which found (by simp) hf
      rw [hfound]
      refine ⟨h.of_record _, AdderEmits.record _ _ ?_⟩
      have := hids _ (mem_of_mapFind _ _ _ hf)
      simpa [AdderEvent.isSuccess] using this
    | none =>
      have hval : getArtistOrGenreId a (c :: cs) which =
          ((a.titles which).lastId + 1,
            ((a.record (AdderEvent.insertArtistOrGenre (a.titles which).table (c :: cs)
              true)).setTitles which
              { a.titles which with
                lastId := (a.titles which).lastId + 1
                ids := mapInsert (a.titles which).ids (c :: cs)
                  ((a.titles which).lastId + 1) }).record
              (AdderEvent.resolvedArtistOrGenre which (c :: cs)
                ((a.titles which).lastId + 1))) := by
        unfold getArtistOrGenreId getArtistOrGenreIdCore addArtistOrGenre
        simp [hf, h.attempt_ok.1, h.attempt_ok.2]
      rw [hval]
      refine ⟨?_, ?_⟩
      · obtain ⟨hout, h1, h2, h3, h4, h5, h6⟩ := h
        have hnew : ∀ entry ∈ mapInsert (a.titles which).ids (c :: cs)
            ((a.titles which).lastId + 1), 0 < entry.2 := by
          intro entry he
          rcases mem_mapInsert _ _ _ _ he with he | he
          · exact hids entry he
          · rw [he]
            show 0 < (a.titles which).lastId + 1
            omega
        cases which
        · exact ⟨hout, by show 0 ≤ a.mArtists.lastId + 1; omega, hnew, h3, h4, h5, h6⟩
        · exact ⟨hout, h1, h2, by show 0 ≤ a.mGenres.lastId + 1; omega, hnew, h5, h6⟩
      · have e1 : AdderEmits (fun e => e.isSuccess = true) a
            (a.record (AdderEvent.insertArtistOrGenre (a.titles which).table (c :: cs) true)) :=
          AdderEmits.record a
            (AdderEvent.insertArtistOrGenre (a.titles which).table (c :: cs) true) rfl
        refine (e1.append (AdderEmits.of_log_eq (setTitles_log _ _ _))).append
          (AdderEmits.record _ _ ?_)
        have : 0 < (a.titles which).lastId + 1 := by omega
        simpa [AdderEvent.isSuccess] using this

theorem linkArtists_succeeding (trackId : Int) (artists : List QString)
    (a : LibraryTracksAdder) (h : Succeeding a) :
    Succeeding (linkArtists trackId artists a) ∧
    AdderEmits (fun e => e.isSuccess = true) a (linkArtists trackId artists a) := by
  induction artists generalizing a with
  | nil => exact ⟨h, AdderEmits.nothing _ _⟩
  | cons artist rest ih =>
    obtain ⟨h1, e1⟩ := getArtistOrGenreId_succeeding a artist TitleTable.artists h
    unfold linkArtists
    simp only []
    split
    · have hrel := addRelationship_succeeding (getArtistId a artist).2 trackId
        (getArtistId a artist).1 "tracks_artists".toList h1
      rw [hrel]
      obtain ⟨h2, e2⟩ := ih _ (Succeeding.of_record h1 _)
      exact ⟨h2, (e1.append (AdderEmits.record _
        (AdderEvent.insertRelationship "tracks_artists".toList trackId (getArtistId a artist).1
          true) rfl)).append e2⟩
    · obtain ⟨h2, e2⟩ := ih _ h1
      exact ⟨h2, e1.append e2⟩

theorem linkGenres_succeeding (trackId : Int) (genres : List QString)
    (a : LibraryTracksAdder) (h : Succeeding a) :
    Succeeding (linkGenres trackId genres a) ∧
    AdderEmits (fun e => e.isSuccess = true) a (linkGenres trackId genres a) := by
  induction genres generalizing a with
  | nil => exact ⟨h, AdderEmits.nothing _ _⟩
  | cons genre rest ih =>
    obtain ⟨h1, e1⟩ := getArtistOrGenreId_succeeding a genre TitleTable.genres h
    unfold linkGenres
    simp only []
    split
    · have hrel := addRelationship_succeeding (getGenreId a genre).2 trackId
        (getGenreId a genre).1 "tracks_genres".toList h1
      rw [hrel]
      obtain ⟨h2, e2⟩ := ih _ (Succeeding.of_record h1 _)
      exact ⟨h2, (e1.append (AdderEmits.record _
        (AdderEvent.insertRelationship "tracks_genres".toList trackId (getGenreId a genre).1
          true) rfl)).append e2⟩
    · obtain ⟨h2, e2⟩ := ih _ h1
      exact ⟨h2, e1.append e2⟩

theorem resolveAlbumArtists_succeeding (albumArtists : List QString) (artistIds : List Int)
    (a : LibraryTracksAdder) (h : Succeeding a) :
    Succeeding (resolveAlbumArtists albumArtists artistIds a).2 ∧
    AdderEmits (fun e => e.isSuccess = true) a
      (resolveAlbumArtists albumArtists artistIds a).2 := by
  induction albumArtists generalizing a artistIds with
  | nil => exact ⟨h, AdderEmits.nothing _ _⟩
  | cons x rest ih =>
    obtain ⟨h1, e1⟩ := getArtistOrGenreId_succeeding a x TitleTable.artists h
    unfold resolveAlbumArtists
    simp only []
    obtain ⟨h2, e2⟩ := ih _ _ h1
    exact ⟨h2, e1.append e2⟩

theorem addAlbumArtists_succeeding (albumId : Int) (artistIds : List Int)
    (a : LibraryTracksAdder) (h : Succeeding a) :
    Succeeding (addAlbumArtists albumId artistIds a) ∧
    (addAlbumArtists albumId artistIds a).mAlbums = a.mAlbums ∧
    AdderEmits (fun e => e.isSuccess = true) a (addAlbumArtists albumId artistIds a) := by
  induction artistIds generalizing a with
  | nil => exact ⟨h, rfl, AdderEmits.nothing _ _⟩
  | cons i rest ih =>
    unfold addAlbumArtists
    rw [addRelationship_succeeding a albumId i "albums_artists".toList h]
    obtain ⟨h2, hm, e2⟩ := ih _ (h.of_record _)
    exact ⟨h2, hm, (@AdderEmits.record (fun e => e.isSuccess = true) a
      (AdderEvent.insertRelationship "albums_artists".toList albumId i true) rfl).append e2⟩

theorem Succeeding.setAlbums {a : LibraryTracksAdder} (h : Succeeding a) (albums : Albums)
    (hlast : 0 ≤ albums.lastId) (hids : ∀ entry ∈ albums.ids, 0 < entry.2) :
    Succeeding (a.setAlbums albums) := by
  obtain ⟨hout, h1, h2, h3, h4, -, -⟩ := h
  exact ⟨hout, h1, h2, h3, h4, hlast, hids⟩

theorem getAlbumId_succeeding (a : LibraryTracksAdder) (title : QString)
    (artistIds : List Int) (h : Succeeding a) :
    Succeeding (getAlbumId a title artistIds).2 ∧
    AdderEmits (fun e => e.isSuccess = true) a (getAlbumId a title artistIds).2 := by
  have hpos := h.2.2.2.2.2
  cases title with
  | nil => exact ⟨h.of_record _, AdderEmits.record _ _ rfl⟩
  | cons c cs =>
    have hempty : (c :: cs).isEmpty = false := rfl
    cases hf : albumFind a.mAlbums.ids (c :: cs, artistIds) with
    | some found =>
      have hval : getAlbumId a (c :: cs) artistIds =
          (found, a.record (AdderEvent.resolvedAlbum (c :: cs) artistIds found)) := by
        unfold getAlbumId getAlbumIdCore
        simp [hf]
      rw [hval]
      refine ⟨h.of_record _, AdderEmits.record _ _ ?_⟩
      have := hpos.2 _ (mem_of_albumFind _ _ _ hf)
      simpa [AdderEvent.isSuccess] using this
    | none =>
      have hB : Succeeding ((a.record (AdderEvent.insertAlbum (c :: cs) true)).setAlbums
          { a.mAlbums with lastId := a.mAlbums.lastId + 1 }) := by
        refine (h.of_record _).setAlbums _ ?_ hpos.2
        show 0 ≤ a.mAlbums.lastId + 1
        have := hpos.1
        omega
      obtain ⟨hX, hXm, eX⟩ := addAlbumArtists_succeeding (a.mAlbums.lastId + 1) artistIds _ hB
      have hval : getAlbumId a (c :: cs) artistIds =
          (a.mAlbums.lastId + 1,
            ((addAlbumArtists (a.mAlbums.lastId + 1) artistIds
              ((a.record (AdderEvent.insertAlbum (c :: cs) true)).setAlbums
                { a.mAlbums with lastId := a.mAlbums.lastId + 1 })).setAlbums
              { ids := albumInsert a.mAlbums.ids (c :: cs, artistIds) (a.mAlbums.lastId + 1)
                lastId := a.mAlbums.lastId + 1 }).record
              (AdderEvent.resolvedAlbum (c :: cs) artistIds (a.mAlbums.lastId + 1))) := by
        unfold getAlbumId getAlbumIdCore addAlbum
        simp only [hempty, hf, h.attempt_ok.1, h.attempt_ok.2, Bool.false_eq_true, if_false,
          Bool.not_true, record_mAlbums]
        rw [hXm]
        rfl
      rw [hval]
      refine ⟨?_, ?_⟩
      · refine Succeeding.of_record (hX.setAlbums _ ?_ ?_) _
        · show 0 ≤ a.mAlbums.lastId + 1
          have := hpos.1
          omega
        · intro entry he
          rcases mem_albumInsert _ _ _ _ he with he | he
          · exact hpos.2 entry he
          · rw [he]
            show 0 < a.mAlbums.lastId + 1
            have := hpos.1
            omega
      · have e1 : AdderEmits (fun e => e.isSuccess = true) a
            ((a.record (AdderEvent.insertAlbum (c :: cs) true)).setAlbums
              { a.mAlbums with lastId := a.mAlbums.lastId + 1 }) :=
          (@AdderEmits.record (fun e => e.isSuccess = true) a
            (AdderEvent.insertAlbum (c :: cs) true) rfl).append
            (AdderEmits.of_log_eq (setAlbums_log _ _))
        refine ((e1.append eX).append (AdderEmits.of_log_eq (setAlbums_log _ _))).append
          (AdderEmits.record _ _ ?_)
        have : 0 < a.mAlbums.lastId + 1 := by
          have := hpos.1
          omega
        simpa [AdderEvent.isSuccess] using this

theorem linkAlbums_succeeding (trackId : Int) (artistIds : List Int) (albums : List QString)
    (a : LibraryTracksAdder) (h : Succeeding a) :
    Succeeding (linkAlbums trackId artistIds albums a) ∧
    AdderEmits (fun e => e.isSuccess = true) a (linkAlbums trackId artistIds albums a) := by
  induction albums generalizing a with
  | nil => exact ⟨h, AdderEmits.nothing _ _⟩
  | cons album rest ih =>
    obtain ⟨h1, e1⟩ := getAlbumId_succeeding a album artistIds h
    unfold linkAlbums
    simp only []
    split
    · have hrel := addRelationship_succeeding (getAlbumId a album artistIds).2 trackId
        (getAlbumId a album artistIds).1 "tracks_albums".toList h1
      rw [hrel]
      obtain ⟨h2, e2⟩ := ih _ (Succeeding.of_record h1 _)
      exact ⟨h2, (e1.append (AdderEmits.record _
        (AdderEvent.insertRelationship "tracks_albums".toList trackId
          (getAlbumId a album artistIds).1 true) rfl)).append e2⟩
    · obtain ⟨h2, e2⟩ := ih _ h1
      exact ⟨h2, e1.append e2⟩

theorem linkAlbumsOfTrack_succeeding (trackId : Int) (artists : List QString) (info : Info)
    (a : LibraryTracksAdder) (h : Succeeding a) :
    Succeeding (linkAlbumsOfTrack trackId artists info a) ∧
    AdderEmits (fun e => e.isSuccess = true) a (linkAlbumsOfTrack trackId artists info a) := by
  unfold linkAlbumsOfTrack
  split
  · simp only []
    obtain ⟨h1, e1⟩ := resolveAlbumArtists_succeeding
      (promoteFirstArtist artists info.albumArtists) [] a h
    have h1' : Succeeding (albumArtistIds a artists info.albumArtists).2 := h1
    have e1' : AdderEmits (fun e => e.isSuccess = true) a
        (albumArtistIds a artists info.albumArtists).2 := e1
    obtain ⟨h2, e2⟩ := linkAlbums_succeeding trackId
      (albumArtistIds a artists info.albumArtists).1 info.albums _ h1'
    exact ⟨h2, e1'.append e2⟩
  · exact ⟨h, AdderEmits.nothing _ _⟩

/-- While no statement fails and the ids in use are above 0, adding a track
keeps it so, and everything its log gains tells of success: every insert
succeeded and every non-empty title was resolved to an id above 0. -/
theorem addTrackToDatabase_succeeding (a : LibraryTracksAdder) (filePath : QString)
    (modificationTime : Int) (info : Info) (h : Succeeding a) :
    Succeeding (addTrackToDatabase a filePath modificationTime info) ∧
    AdderEmits (fun e => e.isSuccess = true) a
      (addTrackToDatabase a filePath modificationTime info) := by
  rw [addTrackToDatabase_eq a filePath modificationTime info h.attempt_ok.1]
  have h0 : Succeeding ((a.attempt.2.record
      (AdderEvent.insertTrack filePath modificationTime info.title true)).setLastTrackId
      (a.mLastTrackId + 1)) := by
    rw [h.attempt_ok.2]
    exact h
  have e0 : AdderEmits (fun e => e.isSuccess = true) a ((a.attempt.2.record
      (AdderEvent.insertTrack filePath modificationTime info.title true)).setLastTrackId
      (a.mLastTrackId + 1)) :=
    ((AdderEmits.attempt (fun e => e.isSuccess = true) a).append
      (@AdderEmits.record (fun e => e.isSuccess = true) _
        (AdderEvent.insertTrack filePath modificationTime info.title true) rfl)).append
      (AdderEmits.of_log_eq (setLastTrackId_log _ _))
  obtain ⟨h1, e1⟩ := linkArtists_succeeding (a.mLastTrackId + 1) (artistsOfTrack info) _ h0
  have h1' : Succeeding (artistsLinked a filePath modificationTime info) := h1
  have e1' : AdderEmits (fun e => e.isSuccess = true) a
      (artistsLinked a filePath modificationTime info) := e0.append e1
  obtain ⟨h2, e2⟩ := linkAlbumsOfTrack_succeeding (a.mLastTrackId + 1) (artistsOfTrack info)
    info _ h1'
  obtain ⟨h3, e3⟩ := linkGenres_succeeding (a.mLastTrackId + 1) info.genres _ h2
  exact ⟨h3, (e1'.append e2).append e3⟩

theorem blankLibraryTracksAdder_succeeding (initialLastTrackId : Int) :
    Succeeding (blankLibraryTracksAdder initialLastTrackId []) := by
  refine ⟨rfl, ?_, ?_, ?_, ?_, ?_, ?_⟩ <;> simp [blankLibraryTracksAdder]

theorem seedTitles_positive (rows : List TitleRow) (ids : ArtistsOrGenres)
    (hrows : ∀ row ∈ rows, 0 < row.id)
    (h : 0 ≤ ids.lastId ∧ ∀ entry ∈ ids.ids, 0 < entry.2) :
    0 ≤ (seedTitles rows ids).lastId ∧ ∀ entry ∈ (seedTitles rows ids).ids, 0 < entry.2 := by
  induction rows generalizing ids with
  | nil => exact h
  | cons row rest ih =>
    have hrow := hrows row (List.mem_cons_self _ _)
    unfold seedTitles
    apply ih _ (fun r hr => hrows r (List.mem_cons_of_mem _ hr))
    refine ⟨Int.le_of_lt hrow, ?_⟩
    intro entry he
    rcases mem_mapInsert _ _ _ _ he with he | he
    · exact h.2 entry he
    · rw [he]
      exact hrow

theorem getArtistsOrGenres_positive (rows : Option (List TitleRow)) (ids : ArtistsOrGenres)
    (hrows : ∀ found, rows = some found → ∀ row ∈ found, 0 < row.id)
    (h : 0 ≤ ids.lastId ∧ ∀ entry ∈ ids.ids, 0 < entry.2) :
    0 ≤ (getArtistsOrGenres rows ids).lastId ∧
    ∀ entry ∈ (getArtistsOrGenres rows ids).ids, 0 < entry.2 := by
  unfold getArtistsOrGenres
  cases rows with
  | none => exact h
  | some found =>
    simp only []
    split
    · exact seedTitles_positive found ids (hrows found rfl) h
    · exact h

theorem seedAlbums_positive (rows : List AlbumRow) (artistIds : List Int) (albums : Albums)
    (hrows : ∀ row ∈ rows, 0 < row.id)
    (h : 0 ≤ albums.lastId ∧ ∀ entry ∈ albums.ids, 0 < entry.2) :
    0 ≤ (seedAlbums rows artistIds albums).lastId ∧
    ∀ entry ∈ (seedAlbums rows artistIds albums).ids, 0 < entry.2 := by
  induction rows generalizing artistIds albums with
  | nil => exact h
  | cons row rest ih =>
    have hrow := hrows row (List.mem_cons_self _ _)
    have hrest : ∀ r ∈ rest, 0 < r.id := fun r hr => hrows r (List.mem_cons_of_mem _ hr)
    unfold seedAlbums
    simp only []
    split
    · rename_i hcond
      apply ih _ _ hrest
      refine ⟨Int.le_of_lt hrow, ?_⟩
      intro entry he
      rcases mem_albumInsert _ _ _ _ he with he | he
      · exact h.2 entry he
      · rw [he]
        have hne : albums.lastId ≠ 0 := by
          simp only [Bool.and_eq_true, bne_iff_ne, ne_eq] at hcond
          exact hcond.2
        have := h.1
        show 0 < albums.lastId
        omega
    · apply ih _ _ hrest
      exact ⟨Int.le_of_lt hrow, h.2⟩

/-- The constructor leaves the ids of the three lookup tables above 0 and the
last ids at 0 or above when the rows of its queries have ids above 0. -/
theorem newLibraryTracksAdder_idsPositive (queries : AdderQueries) (initialLastTrackId : Int)
    (outcomes : List Bool)
    (hartists : ∀ rows, queries.artists = some rows → ∀ row ∈ rows, 0 < row.id)
    (halbums : ∀ rows, queries.albums = some rows → ∀ row ∈ rows, 0 < row.id)
    (hgenres : ∀ rows, queries.genres = some rows → ∀ row ∈ rows, 0 < row.id) :
    IdsPositive (newLibraryTracksAdder queries initialLastTrackId outcomes) := by
  have h1 := getArtistsOrGenres_positive queries.artists
    { table := "artists".toList, ids := [], lastId := 0 } hartists ⟨Int.le_refl _, by simp⟩
  have h2 := getArtistsOrGenres_positive queries.genres
    { table := "genres".toList, ids := [], lastId := 0 } hgenres ⟨Int.le_refl _, by simp⟩
  have h3 : 0 ≤ (getAlbums queries.albums { ids := [], lastId := 0 }).lastId ∧
      ∀ entry ∈ (getAlbums queries.albums { ids := [], lastId := 0 }).ids, 0 < entry.2 := by
    unfold getAlbums
    cases hq : queries.albums with
    | none => exact ⟨Int.le_refl _, by simp⟩
    | some rows =>
      exact seedAlbums_positive rows [] _ (halbums rows hq) ⟨Int.le_refl _, by simp⟩
  unfold newLibraryTracksAdder
  cases queries.lastTrack with
  | none => exact ⟨h1.1, h1.2, h2.1, h2.2, h3.1, h3.2⟩
  | some row =>
    cases row with
    | none => exact ⟨h1.1, h1.2, h2.1, h2.2, h3.1, h3.2⟩
    | some id => exact ⟨h1.1, h1.2, h2.1, h2.2, h3.1, h3.2⟩

/-- The adder the constructor leaves succeeds from there on when no statement
is going to fail and the rows of its queries have ids above 0. -/
theorem newLibraryTracksAdder_succeeding (queries : AdderQueries) (initialLastTrackId : Int)
    (hartists : ∀ rows, queries.artists = some rows → ∀ row ∈ rows, 0 < row.id)
    (halbums : ∀ rows, queries.albums = some rows → ∀ row ∈ rows, 0 < row.id)
    (hgenres : ∀ rows, queries.genres = some rows → ∀ row ∈ rows, 0 < row.id) :
    Succeeding (newLibraryTracksAdder queries initialLastTrackId []) := by
  refine ⟨?_, newLibraryTracksAdder_idsPositive queries initialLastTrackId [] hartists halbums
    hgenres⟩
  unfold newLibraryTracksAdder
  cases queries.lastTrack with
  | none => rfl
  | some row => cases row <;> rfl

/-! ## Two tracks of one album -/

end unplayer
